import Mathlib

/-!
# pdfcpu page-tree writer (`pkg/pdfcpu/writePages.go`)

A shallow embedding of the page-tree writer and of the trim transform.

* Go values behind pointers (`*Dict` obtained from the cross-reference table) are
  aliases of the table entry; a mutation through such a pointer is a mutation of
  the table entry with the same object number.
* `*int` parameters (the running page counter) are returned next to the result,
  on every exit path.
* Every function that receives `ctx *Context` and may mutate it returns the
  context next to its result, on every exit path, errors included.
* Recursion is bounded by a nesting depth (`fuel`); exceeding it is the outcome
  `Failure.recursionLimit`, which is neither success nor a Go error.
* Go `int` values (`Count`, page numbers) are unbounded integers in the model of
  the passes: page counts of documents that fit in memory stay far below `2^63`.
  The walk of `locateKidForPageNumber` is also given with the 64-bit counter of
  the source (`locateKidForPageNumber64`); the two agree as long as no running
  sum of the counter leaves the range of `int` (`locateKidForPageNumber64_eq`).
-/

namespace Pdfcpu

/-! ## Value model -/

/-- Modelled from the spec: the value model (missing from the sources): PDF
objects; `null` stands for the Go `nil` object. -/
inductive Object where
  | null
  | integer (i : Int)
  | name (s : String)
  | indirectRef (objNr gen : Nat)
  | array (a : List Object)
  | dict (d : List (String × Object))

/-- Modelled from the spec: the generic associative record `Dict` (missing from
the sources): an association list, the first binding of a key is the valid one. -/
abbrev Dict := List (String × Object)

/-- Modelled from the spec: the indirect reference (missing from the sources):
an `(object number, generation number)` pair. -/
structure IndirectRef where
  objectNumber : Nat
  generationNumber : Nat
  deriving DecidableEq, Repr

/-- The object value of an indirect reference. -/
def IndirectRef.toObject (r : IndirectRef) : Object :=
  .indirectRef r.objectNumber r.generationNumber

/-- The Go test `o == nil`. -/
def Object.isNil : Object → Bool
  | .null => true
  | _ => false

/-- Modelled from the spec: the value model's lookup primitive `Dict.Find`
(missing from the sources): the value bound to `key`, if any. -/
def Dict.Find : Dict → String → Option Object
  | [], _ => none
  | (k, v) :: rest, key => if k = key then some v else Dict.Find rest key

/-- Modelled from the spec: the assignment `d[key] = value` behind `Dict.Update`
(missing from the sources): replaces the first binding of `key`, or appends a
binding. -/
def Dict.set : Dict → String → Object → Dict
  | [], key, value => [(key, value)]
  | (k, v) :: rest, key, value =>
    if k = key then (key, value) :: rest else (k, v) :: Dict.set rest key value

/-- Modelled from the spec: the value model's mutation primitive `Dict.Update`
(missing from the sources): binds `key` to `value`; a nil value is ignored. -/
def Dict.Update (d : Dict) (key : String) (value : Object) : Dict :=
  if value.isNil then d else Dict.set d key value

/-- Modelled from the spec: the value model's mutation primitive `Dict.Delete`
(missing from the sources): removes every binding of `key`. -/
def Dict.Delete (d : Dict) (key : String) : Dict :=
  d.filter (fun e => !decide (e.1 = key))

/-- Modelled from the spec: `Dict.ArrayEntry` (missing from the sources): the
entry if it is an array. -/
def Dict.ArrayEntry (d : Dict) (key : String) : Option (List Object) :=
  match Dict.Find d key with
  | some (.array a) => some a
  | _ => none

/-- Modelled from the spec: `Dict.IndirectRefEntry` (missing from the sources):
the entry if it is an indirect reference. -/
def Dict.IndirectRefEntry (d : Dict) (key : String) : Option IndirectRef :=
  match Dict.Find d key with
  | some (.indirectRef n g) => some ⟨n, g⟩
  | _ => none

/-- Modelled from the spec: `Dict.Type` (missing from the sources): the
discriminator tag, the `Type` entry if it is a name. -/
def Dict.Type (d : Dict) : Option String :=
  match Dict.Find d "Type" with
  | some (.name s) => some s
  | _ => none

/-! ## Cross-reference table -/

/-- Modelled from the spec: an entry of the cross-reference table (missing from
the sources): an object, or an entry whose resolution fails. -/
inductive XRefEntry where
  | broken
  | object (o : Object)

/-- Modelled from the spec: the cross-reference table (missing from the
sources), keyed by object number; the first entry of a number is the valid
one. -/
abbrev XRefTable := List (Nat × XRefEntry)

/-- Table lookup by object number. -/
def XRefTable.find : XRefTable → Nat → Option XRefEntry
  | [], _ => none
  | (n, e) :: rest, nr => if n = nr then some e else XRefTable.find rest nr

/-- Apply `f` to the dictionary of a table entry; other entries are left alone. -/
def XRefEntry.mapDict (f : Dict → Dict) : XRefEntry → XRefEntry
  | .object (.dict d) => .object (.dict (f d))
  | e => e

/-- Mutation through a `*Dict` alias of object `nr`: apply `f` to the dictionary
held by the table for `nr`. -/
def XRefTable.updateDict : XRefTable → Nat → (Dict → Dict) → XRefTable
  | [], _, _ => []
  | (n, e) :: rest, nr, f =>
    (n, if n = nr then e.mapDict f else e) :: XRefTable.updateDict rest nr f

/-- Modelled from the spec: the resolution service `resolveReference(ref) ->
Record | Absent` (`XRefTable.Dereference`, missing from the sources): `none` is
a failed resolution, `some .null` an absent object. -/
def XRefTable.Dereference (x : XRefTable) (r : IndirectRef) : Option Object :=
  match XRefTable.find x r.objectNumber with
  | none => some .null
  | some .broken => none
  | some (.object o) => some o

/-- Modelled from the spec: `XRefTable.DereferenceDict` (missing from the
sources): resolution that also fails when the object is not a dictionary;
`some none` is the Go result `(nil, nil)`. -/
def XRefTable.DereferenceDict (x : XRefTable) (r : IndirectRef) : Option (Option Dict) :=
  match XRefTable.Dereference x r with
  | none => none
  | some .null => some none
  | some (.dict d) => some (some d)
  | some _ => none

/-! ## Write state -/

/-- Modelled from the spec: the statistic kinds of page attributes (the
constants `PageContents`, ... of the statistics package, missing from the
sources). -/
inductive PageAttr where
  | PageContents | PageResources | PageMediaBox | PageCropBox | PageBleedBox
  | PageTrimBox | PageArtBox | PageBoxColorInfo | PagePieceInfo | PageLastModified
  | PageRotate | PageGroup | PageAnnots | PageThumb | PageB | PageDur | PageTrans
  | PageAA | PageMetadata | PageStructParents | PageID | PagePZ | PageSeparationInfo
  | PageTabs | PageTemplateInstantiated | PagePresSteps | PageUserUnit | PageVP
  deriving DecidableEq, Repr

/-- What reaches the output: a record handed to `writeDictObject`, or an
attribute emitted by `writeEntry`. -/
inductive Event where
  | record (objNr gen : Nat) (d : Dict)
  | entry (dictName entryName : String) (o : Object)

/-- The settings of one output pass, never changed by the page-tree writer. -/
structure Config where
  /-- The field `ctx.Write.ExtractPageNr`. -/
  extractPageNr : Int
  /-- The method `ctx.Write.ExtractPage(i)`. -/
  extractPage : Int → Bool
  /-- The method `ctx.Write.ReducedFeatureSet()`. -/
  reducedFeatureSet : Bool
  /-- Whether the record writer fails at this offset for this object number -/
  recordFails : Nat → Nat → Bool
  /-- Whether the entry writer fails at this offset for this dictionary and entry name -/
  entryFails : Nat → String → String → Bool
  /-- The serialized size of a record. -/
  recordSize : Nat → Nat → Dict → Nat
  /-- The bytes written for an attribute. -/
  entrySize : Object → Nat

/-- The mutable part of `Context`. -/
structure Context where
  /-- The field `ctx.XRefTable`. -/
  xRefTable : XRefTable
  /-- The field `ctx.Write.Table`: object number and write offset of every written object -/
  table : List (Nat × Nat)
  /-- The field `ctx.Write.Offset`. -/
  offset : Nat
  /-- The calls of `ctx.Stats.AddPageAttr`, in order -/
  stats : List PageAttr
  /-- The write log. -/
  out : List Event

/-- The Go errors of `writePages.go`, one constructor per message. -/
inductive Err where
  | ioError
  | writePageDictMissingParent
  | locateKidMissingIndRef
  | locateKidCannotDereference
  | locateKidNull
  | locateKidMissingType
  | locateKidMissingCount
  | locateKidUnexpectedType (t : String)
  | locateKidUnable (pageCount pageNumber : Int)
  | pageNodeDictMissingIndRef
  | pageNodeDictCannotDereference
  | pageNodeDictNull
  | pageNodeDictMissingType
  | writeKidsUnexpectedType (t : String)
  | writePagesDictNilOrWritten (objNr offset : Nat)
  | writePagesDictUnableToDereference (objNr : Nat)
  | writePagesDictMissingCount
  | writePagesDictCorruptKids
  | trimPagesDictUnableToDereference (objNr : Nat)
  | trimPagesDictNilOrWritten (objNr offset : Nat)
  | trimPagesDictCorrupt (objNr : Nat)
  | trimPagesDictMissingCount
  | trimPagesDictCorruptKids
  | trimPagesDictUnexpectedType (t : String)
  deriving DecidableEq, Repr

/-- How a call can end other than by success. -/
inductive Failure where
  /-- A Go `error` was returned. -/
  | err (e : Err)
  /-- A failed type assertion. -/
  | panic
  /-- The recursion is nested deeper than the fuel. -/
  | recursionLimit
  deriving DecidableEq, Repr

/-- Modelled from the spec: `hasBeenWritten(objectNumber)`
(`ctx.Write.HasWriteOffset`, missing from the sources): whether the object
number is in the written-set. -/
def Context.HasWriteOffset (ctx : Context) (objNumber : Nat) : Bool :=
  ctx.table.any (fun e => decide (e.1 = objNumber))

/-- Modelled from the spec: the record writer `writeRecord` (`writeDictObject`,
missing from the sources): appends the record to the output at the current
offset, marks the object number written and advances the offset; fails with an
I/O error, writing nothing. -/
def writeDictObject (cfg : Config) (ctx : Context) (objNumber genNumber : Nat) (d : Dict) :
    Context × Except Failure Unit :=
  if cfg.recordFails ctx.offset objNumber then (ctx, .error (.err .ioError))
  else
    ({ ctx with
        table := (objNumber, ctx.offset) :: ctx.table
        offset := ctx.offset + cfg.recordSize objNumber genNumber d
        out := ctx.out ++ [.record objNumber genNumber d] }, .ok ())

/-- Modelled from the spec: the entry writer `writeNamedEntry` (`writeEntry`,
missing from the sources): writes the named attribute if it is present and
returns it, and returns nil if it wrote nothing; it marks no object number
written. -/
def writeEntry (cfg : Config) (ctx : Context) (d : Dict) (dictName entryName : String) :
    Context × Except Failure Object :=
  match Dict.Find d entryName with
  | none => (ctx, .ok .null)
  | some o =>
    if o.isNil then (ctx, .ok .null)
    else if cfg.entryFails ctx.offset dictName entryName then (ctx, .error (.err .ioError))
    else
      ({ ctx with
          offset := ctx.offset + cfg.entrySize o
          out := ctx.out ++ [.entry dictName entryName o] }, .ok o)

/-! ## writePages.go -/

/-- The function `writePageEntry`: write page entry to disk. -/
def writePageEntry (cfg : Config) (ctx : Context) (d : Dict) (dictName entryName : String)
    (statsAttr : PageAttr) : Context × Except Failure Unit :=
  match writeEntry cfg ctx d dictName entryName with
  | (ctx1, .error f) => (ctx1, .error f)
  | (ctx1, .ok obj) =>
    if obj.isNil then (ctx1, .ok ())
    else ({ ctx1 with stats := ctx1.stats ++ [statsAttr] }, .ok ())

/-- The loop `for _, e := range ... { err = writePageEntry(...) }` over a table
of entry names and statistic kinds. -/
def writePageEntries (cfg : Config) (d : Dict) (dictName : String) :
    Context → List (String × PageAttr) → Context × Except Failure Unit
  | ctx, [] => (ctx, .ok ())
  | ctx, (entryName, statsAttr) :: es =>
    match writePageEntry cfg ctx d dictName entryName statsAttr with
    | (ctx1, .error f) => (ctx1, .error f)
    | (ctx1, .ok ()) => writePageEntries cfg d dictName ctx1 es

/-- The entry table of `writePageDict`. -/
def pageDictEntries : List (String × PageAttr) :=
  [("Contents", .PageContents), ("Resources", .PageResources), ("MediaBox", .PageMediaBox),
   ("CropBox", .PageCropBox), ("BleedBox", .PageBleedBox), ("TrimBox", .PageTrimBox),
   ("ArtBox", .PageArtBox), ("BoxColorInfo", .PageBoxColorInfo), ("PieceInfo", .PagePieceInfo),
   ("LastModified", .PageLastModified), ("Rotate", .PageRotate), ("Group", .PageGroup),
   ("Annots", .PageAnnots), ("Thumb", .PageThumb), ("B", .PageB), ("Dur", .PageDur),
   ("Trans", .PageTrans), ("AA", .PageAA), ("Metadata", .PageMetadata),
   ("StructParents", .PageStructParents), ("ID", .PageID), ("PZ", .PagePZ),
   ("SeparationInfo", .PageSeparationInfo), ("Tabs", .PageTabs),
   ("TemplateInstantiated", .PageTemplateInstantiated), ("PresSteps", .PagePresSteps),
   ("UserUnit", .PageUserUnit), ("VP", .PageVP)]

/-- The entry table of `writePagesDict`. -/
def pagesDictEntries : List (String × PageAttr) :=
  [("Resources", .PageResources), ("MediaBox", .PageMediaBox), ("CropBox", .PageCropBox),
   ("Rotate", .PageRotate)]

/-- The function `writePageDict`. `pageDict` is the alias of the table entry of `indRef`. -/
def writePageDict (cfg : Config) (ctx : Context) (indRef : IndirectRef) (pageDict : Dict) :
    Context × Except Failure Unit :=
  let objNumber := indRef.objectNumber
  let genNumber := indRef.generationNumber
  -- For extracted pages we do not generate Annotations.
  let ctx0 : Context :=
    if cfg.reducedFeatureSet then
      { ctx with xRefTable := ctx.xRefTable.updateDict objNumber (fun d => Dict.Delete d "Annots") }
    else ctx
  let pageDict0 : Dict := if cfg.reducedFeatureSet then Dict.Delete pageDict "Annots" else pageDict
  match writeDictObject cfg ctx0 objNumber genNumber pageDict0 with
  | (ctx1, .error f) => (ctx1, .error f)
  | (ctx1, .ok ()) =>
    match Dict.IndirectRefEntry pageDict0 "Parent" with
    | none => (ctx1, .error (.err .writePageDictMissingParent))
    | some _ => writePageEntries cfg pageDict0 "pageDict" ctx1 pageDictEntries

/-- The function `locateKidForPageNumber`. Returns the counter `*pageCount` next to the
result. The comparisons read `ctx.Write.ExtractPageNr`; `pageNumber` only
reaches the error message. -/
def locateKidForPageNumber (cfg : Config) (ctx : Context) :
    List Object → Int → Int → Int × Except Failure Object
  | [], pageCount, pageNumber => (pageCount, .error (.err (.locateKidUnable pageCount pageNumber)))
  | obj :: rest, pageCount, pageNumber =>
    match obj with
    | .null => locateKidForPageNumber cfg ctx rest pageCount pageNumber
    | .indirectRef nr gen =>
      match XRefTable.DereferenceDict ctx.xRefTable ⟨nr, gen⟩ with
      | none => (pageCount, .error (.err .locateKidCannotDereference))
      | some none => (pageCount, .error (.err .locateKidNull))
      | some (some dict) =>
        match Dict.Type dict with
        | none => (pageCount, .error (.err .locateKidMissingType))
        | some dictType =>
          if dictType = "Pages" then
            match Dict.Find dict "Count" with
            | none => (pageCount, .error (.err .locateKidMissingCount))
            | some (.integer pCount) =>
              if pageCount + pCount < cfg.extractPageNr then
                locateKidForPageNumber cfg ctx rest (pageCount + pCount) pageNumber
              else (pageCount, .ok obj)
            | some _ => (pageCount, .error .panic)
          else if dictType = "Page" then
            if pageCount + 1 = cfg.extractPageNr then (pageCount + 1, .ok obj)
            else locateKidForPageNumber cfg ctx rest (pageCount + 1) pageNumber
          else (pageCount, .error (.err (.locateKidUnexpectedType dictType)))
    | _ => (pageCount, .error (.err .locateKidMissingIndRef))

/-- The function `pageNodeDict`: `.ok none` is the result `(nil, nil, nil)`. -/
def pageNodeDict (ctx : Context) (o : Object) :
    Context × Except Failure (Option (Dict × IndirectRef)) :=
  match o with
  | .null => (ctx, .ok none)
  | .indirectRef nr gen =>
    if ctx.HasWriteOffset nr then (ctx, .ok none)
    else
      match XRefTable.DereferenceDict ctx.xRefTable ⟨nr, gen⟩ with
      | none => (ctx, .error (.err .pageNodeDictCannotDereference))
      | some none => (ctx, .error (.err .pageNodeDictNull))
      | some (some d) =>
        match Dict.Type d with
        | none => (ctx, .error (.err .pageNodeDictMissingType))
        | some _ => (ctx, .ok (some (d, ⟨nr, gen⟩)))
  | _ => (ctx, .error (.err .pageNodeDictMissingIndRef))

/-- The function `prepareSinglePageWrite`. `dict` is the alias of the table entry of
`objNumber`; its value after the call is returned with the counter. -/
def prepareSinglePageWrite (cfg : Config) (ctx : Context) (objNumber : Nat) (dict : Dict)
    (kids : List Object) (pageCount : Int) : Context × Dict × Int × Except Failure Unit :=
  match locateKidForPageNumber cfg ctx kids pageCount cfg.extractPageNr with
  | (pageCount1, .error f) => (ctx, dict, pageCount1, .error f)
  | (pageCount1, .ok kid) =>
    -- Modify KidsArray to hold a single entry for this kid, set Count = 1
    let upd : Dict → Dict := fun d =>
      Dict.Update (Dict.Update d "Kids" (.array [kid])) "Count" (.integer 1)
    ({ ctx with xRefTable := ctx.xRefTable.updateDict objNumber upd }, upd dict, pageCount1, .ok ())

/-- The loop of `writeKids`, over the recursive call `recur` of `writePagesDict`. -/
def writeKidsWith (cfg : Config) (recur : Context → IndirectRef → Int → Context × Except Failure Unit) :
    Context → List Object → Int → Context × Except Failure Unit
  | ctx, [], _ => (ctx, .ok ())
  | ctx, obj :: rest, pageCount =>
    match pageNodeDict ctx obj with
    | (ctx1, .error f) => (ctx1, .error f)
    | (ctx1, .ok none) => writeKidsWith cfg recur ctx1 rest pageCount
    | (ctx1, .ok (some (d, indRef))) =>
      let r : Context × Except Failure Unit :=
        if Dict.Type d = some "Pages" then recur ctx1 indRef pageCount
        else if Dict.Type d = some "Page" then writePageDict cfg ctx1 indRef d
        else (ctx1, .error (.err (.writeKidsUnexpectedType ((Dict.Type d).getD ""))))
      match r with
      | (ctx2, .error f) => (ctx2, .error f)
      | (ctx2, .ok ()) => writeKidsWith cfg recur ctx2 rest pageCount

/-- The body of `writePagesDict`, over its recursive call `recur`. -/
def writePagesDictBody (cfg : Config)
    (recur : Context → IndirectRef → Int → Context × Except Failure Unit)
    (ctx : Context) (indRef : IndirectRef) (pageCount : Int) : Context × Except Failure Unit :=
  let objNumber := indRef.objectNumber
  let genNumber := indRef.generationNumber
  if ctx.HasWriteOffset objNumber then
    (ctx, .error (.err (.writePagesDictNilOrWritten objNumber ctx.offset)))
  else
    match XRefTable.DereferenceDict ctx.xRefTable indRef with
    | none => (ctx, .error (.err (.writePagesDictUnableToDereference objNumber)))
    | some none => (ctx, .error (.err (.writePagesDictNilOrWritten objNumber ctx.offset)))
    | some (some dict) =>
      -- Get number of pages of this PDF file.
      match Dict.Find dict "Count" with
      | none => (ctx, .error (.err .writePagesDictMissingCount))
      | some (.integer c) =>
        if c = 0 then (ctx, .ok ())
        else
          match Dict.ArrayEntry dict "Kids" with
          | none => (ctx, .error (.err .writePagesDictCorruptKids))
          | some kidsArrayOrig =>
            -- This is for Split and Extract when all we generate is a single page.
            let prep : Context × Dict × Int × Except Failure Unit :=
              if cfg.extractPageNr > 0 then
                prepareSinglePageWrite cfg ctx objNumber dict kidsArrayOrig pageCount
              else (ctx, dict, pageCount, .ok ())
            match prep with
            | (ctx1, _, _, .error f) => (ctx1, .error f)
            | (ctx1, dict1, pageCount1, .ok ()) =>
              match writeDictObject cfg ctx1 objNumber genNumber dict1 with
              | (ctx2, .error f) => (ctx2, .error f)
              | (ctx2, .ok ()) =>
                match writePageEntries cfg dict1 "pagesDict" ctx2 pagesDictEntries with
                | (ctx3, .error f) => (ctx3, .error f)
                | (ctx3, .ok ()) =>
                  -- Iterate over page tree.
                  match Dict.ArrayEntry dict1 "Kids" with
                  | none => (ctx3, .error (.err .writePagesDictCorruptKids))
                  | some kidsArray =>
                    match writeKidsWith cfg recur ctx3 kidsArray pageCount1 with
                    | (ctx4, .error f) => (ctx4, .error f)
                    | (ctx4, .ok ()) =>
                      ({ ctx4 with
                          xRefTable := ctx4.xRefTable.updateDict objNumber (fun d =>
                            Dict.Update (Dict.Update d "Kids" (.array kidsArrayOrig)) "Count"
                              (.integer c)) }, .ok ())
      | some _ => (ctx, .error .panic)

/-- The function `writePagesDict`, with at most `fuel` nested recursive calls. -/
def writePagesDict (cfg : Config) : Nat → Context → IndirectRef → Int → Context × Except Failure Unit
  | 0 => writePagesDictBody cfg (fun ctx _ _ => (ctx, .error .recursionLimit))
  | fuel + 1 => writePagesDictBody cfg (writePagesDict cfg fuel)

/-- The function `writeKids`, whose calls of `writePagesDict` nest at most `fuel` deep. -/
def writeKids (cfg : Config) (fuel : Nat) : Context → List Object → Int → Context × Except Failure Unit :=
  writeKidsWith cfg (writePagesDict cfg fuel)

/-- The loop of `trimPagesDict` over `*kidsArray`, over the recursive call
`recur`; `count` and `arr` are the locals of the same names. -/
def trimKidsWith (cfg : Config)
    (recur : Context → IndirectRef → Int → Context × Int × Except Failure Int) :
    Context → List Object → Int → Int → List Object →
      Context × Int × Except Failure (Int × List Object)
  | ctx, [], pageCount, count, arr => (ctx, pageCount, .ok (count, arr))
  | ctx, obj :: rest, pageCount, count, arr =>
    match pageNodeDict ctx obj with
    | (ctx1, .error f) => (ctx1, pageCount, .error f)
    | (ctx1, .ok none) => trimKidsWith cfg recur ctx1 rest pageCount count arr
    | (ctx1, .ok (some (d, indRef))) =>
      if Dict.Type d = some "Pages" then
        -- Recurse over pagetree
        match recur ctx1 indRef pageCount with
        | (ctx2, pageCount2, .error f) => (ctx2, pageCount2, .error f)
        | (ctx2, pageCount2, .ok trimmedCount) =>
          if trimmedCount > 0 then
            trimKidsWith cfg recur ctx2 rest pageCount2 (count + trimmedCount) (arr ++ [obj])
          else trimKidsWith cfg recur ctx2 rest pageCount2 count arr
      else if Dict.Type d = some "Page" then
        if cfg.extractPage (pageCount + 1) then
          trimKidsWith cfg recur ctx1 rest (pageCount + 1) (count + 1) (arr ++ [obj])
        else trimKidsWith cfg recur ctx1 rest (pageCount + 1) count arr
      else (ctx1, pageCount, .error (.err (.trimPagesDictUnexpectedType ((Dict.Type d).getD ""))))

/-- The body of `trimPagesDict`, over its recursive call `recur`. Returns the
counter `*pageCount` next to the result. -/
def trimPagesDictBody (cfg : Config)
    (recur : Context → IndirectRef → Int → Context × Int × Except Failure Int)
    (ctx : Context) (indRef : IndirectRef) (pageCount : Int) : Context × Int × Except Failure Int :=
  let objNumber := indRef.objectNumber
  match XRefTable.Dereference ctx.xRefTable indRef with
  | none => (ctx, pageCount, .error (.err (.trimPagesDictUnableToDereference objNumber)))
  | some .null => (ctx, pageCount, .error (.err (.trimPagesDictNilOrWritten objNumber ctx.offset)))
  | some (.dict dict) =>
    -- Get number of pages for this page node.
    match Dict.Find dict "Count" with
    | none => (ctx, pageCount, .error (.err .trimPagesDictMissingCount))
    | some (.integer _) =>
      -- Iterate over page tree.
      match Dict.ArrayEntry dict "Kids" with
      | none => (ctx, pageCount, .error (.err .trimPagesDictCorruptKids))
      | some kidsArray =>
        match trimKidsWith cfg recur ctx kidsArray pageCount 0 [] with
        | (ctx1, pageCount1, .error f) => (ctx1, pageCount1, .error f)
        | (ctx1, pageCount1, .ok (count, arr)) =>
          ({ ctx1 with
              xRefTable := ctx1.xRefTable.updateDict objNumber (fun d =>
                Dict.Update (Dict.Update d "Count" (.integer count)) "Kids" (.array arr)) },
            pageCount1, .ok count)
    -- the type assertion `c.(Integer)` in the argument of the debug log
    | some _ => (ctx, pageCount, .error .panic)
  | some _ => (ctx, pageCount, .error (.err (.trimPagesDictCorrupt objNumber)))

/-- The function `trimPagesDict`, with at most `fuel` nested recursive calls. -/
def trimPagesDict (cfg : Config) :
    Nat → Context → IndirectRef → Int → Context × Int × Except Failure Int
  | 0 => trimPagesDictBody cfg (fun ctx _ pageCount => (ctx, pageCount, .error .recursionLimit))
  | fuel + 1 => trimPagesDictBody cfg (trimPagesDict cfg fuel)

/-! ## Example documents -/

/-- The value of entry `key` of the dictionary that the table holds for object
`n`: `none` if `n` holds no dictionary, `some none` if the key is unbound. -/
def XRefTable.nodeEntry (x : XRefTable) (n : Nat) (key : String) : Option (Option Object) :=
  match XRefTable.find x n with
  | some (.object (.dict d)) => some (Dict.Find d key)
  | _ => none

/-- A pass in which no writer fails: target ordinal `t` (0: no extraction),
selection `sel` for trimming, output profile `reduced`. -/
def exampleConfig (t : Int) (sel : Int → Bool) (reduced : Bool) : Config :=
  { extractPageNr := t
    extractPage := sel
    reducedFeatureSet := reduced
    recordFails := fun _ _ => false
    entryFails := fun _ _ _ => false
    recordSize := fun _ _ d => 20 + d.length
    entrySize := fun _ => 0 }

/-- A pass like `exampleConfig` whose record writer fails on object `bad`. -/
def failingConfig (t : Int) (bad : Nat) : Config :=
  { exampleConfig t (fun _ => false) false with recordFails := fun _ n => decide (n = bad) }

/-- A pass like `exampleConfig` whose entry writer fails on entry `bad`. -/
def entryFailingConfig (t : Int) (bad : String) : Config :=
  { exampleConfig t (fun _ => false) false with entryFails := fun _ _ e => decide (e = bad) }

/-- A context at the start of a pass over table `x`: nothing written yet. -/
def startContext (x : XRefTable) : Context :=
  { xRefTable := x, table := [], offset := 0, stats := [], out := [] }

/-- A leaf with a `Parent` reference, a `MediaBox` and an `Annots` entry. -/
def examplePage (parent : Nat) : Dict :=
  [("Type", .name "Page"), ("Parent", .indirectRef parent 0),
   ("MediaBox", .array [.integer 0, .integer 0, .integer 612, .integer 792]),
   ("Annots", .array [])]

/-- A leaf without `Parent`. -/
def orphanPage : Dict :=
  [("Type", .name "Page"), ("Contents", .indirectRef 9 0)]

/-- The dictionary of an internal node. -/
def examplePages (count : Int) (kids : List Object) : Dict :=
  [("Type", .name "Pages"), ("Count", .integer count), ("Kids", .array kids),
   ("Rotate", .integer 90)]

/-- A 3-leaf document under one Pages node (object 1) with `Count = 3`. -/
def threeLeafDoc : XRefTable :=
  [(1, .object (.dict (examplePages 3 [.indirectRef 2 0, .indirectRef 3 0, .indirectRef 4 0]))),
   (2, .object (.dict (examplePage 1))),
   (3, .object (.dict (examplePage 1))),
   (4, .object (.dict (examplePage 1)))]

/-- A 2-leaf document under one Pages node (object 1) whose second leaf has no
`Parent`. -/
def orphanDoc : XRefTable :=
  [(1, .object (.dict (examplePages 2 [.indirectRef 2 0, .indirectRef 3 0]))),
   (2, .object (.dict (examplePage 1))),
   (3, .object (.dict orphanPage))]

/-- The object numbers of the records in a write log, in order. -/
def recordNumbers : List Event → List Nat
  | [] => []
  | .record n _ _ :: es => n :: recordNumbers es
  | .entry _ _ _ :: es => recordNumbers es

/-- The write-once relation between the context at the start of a call and a
later context: the log has grown by `new`, no object number is recorded twice in
`new`, none of them was written at the start, and the written-set has grown by
exactly these numbers. -/
def WritesOnce (ctx ctx' : Context) : Prop :=
  ∃ new, ctx'.out = ctx.out ++ new ∧ (recordNumbers new).Nodup ∧
    (∀ n ∈ recordNumbers new, ctx.HasWriteOffset n = false) ∧
    (∀ n, ctx'.HasWriteOffset n = true ↔ (ctx.HasWriteOffset n = true ∨ n ∈ recordNumbers new))

/-- Every object holds the same `Kids` and the same `Count` in table `x'` as in
table `x` (and holds a dictionary in one if and only if in the other). -/
def SameKidsCount (x x' : XRefTable) : Prop :=
  ∀ n, XRefTable.nodeEntry x' n "Kids" = XRefTable.nodeEntry x n "Kids" ∧
    XRefTable.nodeEntry x' n "Count" = XRefTable.nodeEntry x n "Count"

/-- The attribute events that a walk over the entry table `es` emits for
dictionary `d`: one per table entry that `d` binds to a non-nil value, in table
order. -/
def entryEvents (d : Dict) (dictName : String) : List (String × PageAttr) → List Event
  | [] => []
  | (entryName, _) :: es =>
    match Dict.Find d entryName with
    | none => entryEvents d dictName es
    | some o =>
      if o.isNil then entryEvents d dictName es
      else .entry dictName entryName o :: entryEvents d dictName es

/-! ## Page trees -/

/-- A tree-shaped page tree together with the dictionaries of its nodes: `null`
is a nil slot of a `Kids` array, `page` a leaf and `pages` an internal node, each
with object number, generation number and dictionary. -/
inductive PageTree where
  | null
  | page (nr gen : Nat) (d : Dict)
  | pages (nr gen : Nat) (d : Dict) (kids : List PageTree)

/-- The entry of a `Kids` array that refers to the tree. -/
def PageTree.ref : PageTree → Object
  | .null => .null
  | .page nr gen _ => .indirectRef nr gen
  | .pages nr gen _ _ => .indirectRef nr gen

mutual
/-- The number of leaves of the tree. -/
def PageTree.leafCount : PageTree → Int
  | .null => 0
  | .page _ _ _ => 1
  | .pages _ _ _ kids => PageTree.leafCounts kids
/-- The number of leaves of a sequence of trees. -/
def PageTree.leafCounts : List PageTree → Int
  | [] => 0
  | k :: ks => k.leafCount + PageTree.leafCounts ks
end

mutual
/-- The object numbers of the nodes of the tree. -/
def PageTree.objNrs : PageTree → List Nat
  | .null => []
  | .page nr _ _ => [nr]
  | .pages nr _ _ kids => nr :: PageTree.objNrsList kids
/-- The object numbers of the nodes of a sequence of trees. -/
def PageTree.objNrsList : List PageTree → List Nat
  | [] => []
  | k :: ks => k.objNrs ++ PageTree.objNrsList ks
end

mutual
/-- The table holds the tree: every node's object number holds the node's
dictionary, a leaf's type tag is `Page`, an internal node's is `Pages` and its
`Kids` entry is the array of the references to its kids. -/
def PageTree.InTable (x : XRefTable) : PageTree → Prop
  | .null => True
  | .page nr _ d => XRefTable.find x nr = some (.object (.dict d)) ∧ Dict.Type d = some "Page"
  | .pages nr _ d kids =>
    XRefTable.find x nr = some (.object (.dict d)) ∧ Dict.Type d = some "Pages" ∧
      Dict.Find d "Kids" = some (.array (kids.map PageTree.ref)) ∧ PageTree.InTableList x kids
/-- The table holds every tree of the sequence. -/
def PageTree.InTableList (x : XRefTable) : List PageTree → Prop
  | [] => True
  | k :: ks => k.InTable x ∧ PageTree.InTableList x ks
end

mutual
/-- Every internal node's `Count` is the number of its leaf descendants. -/
def PageTree.CountsOK : PageTree → Prop
  | .null => True
  | .page _ _ _ => True
  | .pages _ _ d kids =>
    Dict.Find d "Count" = some (.integer (PageTree.leafCounts kids)) ∧ PageTree.CountsOKList kids
/-- Every tree of the sequence has correct counts. -/
def PageTree.CountsOKList : List PageTree → Prop
  | [] => True
  | k :: ks => k.CountsOK ∧ PageTree.CountsOKList ks
end

/-- The kid that holds leaf ordinal `t` when `c` leaves precede the sequence:
the first kid whose leaves reach ordinal `t`, with the number of leaves before
it. -/
def PageTree.selectKid (t : Int) : List PageTree → Int → Option (PageTree × Int)
  | [], _ => none
  | k :: ks, c =>
    if c + k.leafCount < t then PageTree.selectKid t ks (c + k.leafCount) else some (k, c)

/-- The reference to the kid that holds leaf ordinal `t`. -/
def PageTree.selectRef (t : Int) (kids : List PageTree) (c : Int) : Object :=
  match PageTree.selectKid t kids c with
  | some (k, _) => k.ref
  | none => .null

/-- The record of a leaf as `writePageDict` hands it to the record writer. -/
def pageRecord (cfg : Config) (d : Dict) : Dict :=
  if cfg.reducedFeatureSet then Dict.Delete d "Annots" else d

/-- The record of an internal node in extraction mode: `Kids` holds only `kid`
and `Count` is 1. -/
def singleKidRecord (d : Dict) (kid : Object) : Dict :=
  Dict.Update (Dict.Update d "Kids" (.array [kid])) "Count" (.integer 1)

mutual
/-- The write log of an extraction pass for ordinal `cfg.extractPageNr` over a
tree that `c` leaves precede: the record and the inheritable attributes of every
internal node on the way to that leaf, then the leaf's record and attributes. -/
def PageTree.extractLog (cfg : Config) : PageTree → Int → List Event
  | .null, _ => []
  | .page nr gen d, _ =>
    .record nr gen (pageRecord cfg d) :: entryEvents (pageRecord cfg d) "pageDict" pageDictEntries
  | .pages nr gen d kids, c =>
    .record nr gen (singleKidRecord d (PageTree.selectRef cfg.extractPageNr kids c)) ::
      (entryEvents d "pagesDict" pagesDictEntries ++ PageTree.extractLogKids cfg kids c)
/-- The write log of the extraction pass below the kid that holds the ordinal. -/
def PageTree.extractLogKids (cfg : Config) : List PageTree → Int → List Event
  | [], _ => []
  | k :: ks, c =>
    if c + k.leafCount < cfg.extractPageNr then
      PageTree.extractLogKids cfg ks (c + k.leafCount)
    else k.extractLog cfg c
end

mutual
/-- The leaves of the tree in document order. -/
def PageTree.leaves : PageTree → List PageTree
  | .null => []
  | .page nr gen d => [.page nr gen d]
  | .pages _ _ _ kids => PageTree.leavesList kids
/-- The leaves of a sequence of trees in document order. -/
def PageTree.leavesList : List PageTree → List PageTree
  | [] => []
  | k :: ks => k.leaves ++ PageTree.leavesList ks
end

mutual
/-- The nodes on the way from the root of the tree to the leaf with ordinal `t`,
when `c` leaves precede the tree: the root, then at every internal node the
first kid whose leaves reach ordinal `t`, down to a leaf. -/
def PageTree.pathTo (t : Int) : PageTree → Int → List PageTree
  | .null, _ => []
  | .page nr gen d, _ => [.page nr gen d]
  | .pages nr gen d kids, c => .pages nr gen d kids :: PageTree.pathToKids t kids c
/-- The way to ordinal `t` below a sequence of kids. -/
def PageTree.pathToKids (t : Int) : List PageTree → Int → List PageTree
  | [], _ => []
  | k :: ks, c =>
    if c + k.leafCount < t then PageTree.pathToKids t ks (c + k.leafCount) else k.pathTo t c
end

/-- The records of an extraction pass along a path: every internal node with
`Kids` holding only the reference to the next node of the path and `Count = 1`,
and the leaf with its own record. -/
def pathRecords (cfg : Config) : List PageTree → List Event
  | [] => []
  | .null :: rest => pathRecords cfg rest
  | .page nr gen d :: rest => .record nr gen (pageRecord cfg d) :: pathRecords cfg rest
  | .pages nr gen d _ :: rest =>
    .record nr gen (singleKidRecord d (match rest with | next :: _ => next.ref | [] => .null)) ::
      pathRecords cfg rest

/-- The records of a write log, without the attributes. -/
def recordEvents : List Event → List Event
  | [] => []
  | .record nr gen d :: es => .record nr gen d :: recordEvents es
  | .entry _ _ _ :: es => recordEvents es

/-- A two-level document: root (object 1, `Count = 3`) with the subtrees A
(object 2, leaves 3 and 4) and B (object 5, leaf 6). -/
def twoLevelDoc : XRefTable :=
  [(1, .object (.dict (examplePages 3 [.indirectRef 2 0, .indirectRef 5 0]))),
   (2, .object (.dict (examplePages 2 [.indirectRef 3 0, .indirectRef 4 0]))),
   (3, .object (.dict (examplePage 2))),
   (4, .object (.dict (examplePage 2))),
   (5, .object (.dict (examplePages 1 [.indirectRef 6 0]))),
   (6, .object (.dict (examplePage 5)))]

/-- The page tree of `twoLevelDoc`. -/
def twoLevelTree : PageTree :=
  .pages 1 0 (examplePages 3 [.indirectRef 2 0, .indirectRef 5 0])
    [.pages 2 0 (examplePages 2 [.indirectRef 3 0, .indirectRef 4 0])
        [.page 3 0 (examplePage 2), .page 4 0 (examplePage 2)],
     .pages 5 0 (examplePages 1 [.indirectRef 6 0]) [.page 6 0 (examplePage 5)]]

/-- The attribute event for entry `entryName` of `d`, if `d` defines it. -/
def definedEntry (d : Dict) (dictName entryName : String) : Option Event :=
  match Dict.Find d entryName with
  | none => none
  | some o => if o.isNil then none else some (.entry dictName entryName o)

/-! ## Trimmed trees -/

/-- The dictionary of an internal node after `trimPagesDict`: `Count` and `Kids`
updated. -/
def trimmedRecord (d : Dict) (count : Int) (arr : List Object) : Dict :=
  Dict.Update (Dict.Update d "Count" (.integer count)) "Kids" (.array arr)

mutual
/-- The tree that `trimPagesDict` leaves for selection `sel` when `c` leaves
precede the tree: every internal node keeps its selected leaves and its
non-empty trimmed subtrees, and gets the matching `Kids` and `Count`. -/
def PageTree.trim (sel : Int → Bool) : PageTree → Int → PageTree
  | .null, _ => .null
  | .page nr gen d, _ => .page nr gen d
  | .pages nr gen d kids, c =>
    .pages nr gen
      (trimmedRecord d (PageTree.leafCounts (PageTree.trimKids sel kids c))
        ((PageTree.trimKids sel kids c).map PageTree.ref))
      (PageTree.trimKids sel kids c)
/-- The kids that `trimPagesDict` retains. -/
def PageTree.trimKids (sel : Int → Bool) : List PageTree → Int → List PageTree
  | [], _ => []
  | k :: ks, c =>
    match k with
    | .null => PageTree.trimKids sel ks c
    | .page nr gen d =>
      if sel (c + 1) then .page nr gen d :: PageTree.trimKids sel ks (c + 1)
      else PageTree.trimKids sel ks (c + 1)
    | .pages nr gen d kids =>
      if PageTree.leafCounts (PageTree.trimKids sel kids c) > 0 then
        (PageTree.pages nr gen d kids).trim sel c ::
          PageTree.trimKids sel ks (c + PageTree.leafCounts kids)
      else PageTree.trimKids sel ks (c + PageTree.leafCounts kids)
end

/-- The leaves with a selected ordinal, when `c` leaves precede the sequence. -/
def selectLeaves (sel : Int → Bool) : Int → List PageTree → List PageTree
  | _, [] => []
  | c, l :: ls => if sel (c + 1) then l :: selectLeaves sel (c + 1) ls else selectLeaves sel (c + 1) ls

mutual
/-- The table holds the trimmed version of every internal node of the tree (of
the retained ones and of the dropped ones) and every leaf of the tree. -/
def PageTree.TrimmedInTable (x : XRefTable) (sel : Int → Bool) : PageTree → Int → Prop
  | .null, _ => True
  | .page nr gen d, _ => (PageTree.page nr gen d).InTable x
  | .pages nr gen d kids, c =>
    ((PageTree.pages nr gen d kids).trim sel c).InTable x ∧
      PageTree.TrimmedInTableList x sel kids c
/-- The table holds the trimmed version of every node of the sequence. -/
def PageTree.TrimmedInTableList (x : XRefTable) (sel : Int → Bool) :
    List PageTree → Int → Prop
  | [], _ => True
  | k :: ks, c =>
    k.TrimmedInTable x sel c ∧ PageTree.TrimmedInTableList x sel ks (c + k.leafCount)
end

/-- The `Kids` sequence of object `n`, if `n` is an internal node, contains no
reference to an internal node whose `Count` is 0. -/
def NoEmptyKid (x : XRefTable) (n : Nat) : Prop :=
  ∀ dn kidsArray kid nk gk dk,
    XRefTable.find x n = some (.object (.dict dn)) → Dict.Type dn = some "Pages" →
    Dict.Find dn "Kids" = some (.array kidsArray) → kid ∈ kidsArray →
    kid = .indirectRef nk gk →
    XRefTable.find x nk = some (.object (.dict dk)) → Dict.Type dk = some "Pages" →
    Dict.Find dk "Count" ≠ some (.integer 0)

/-- An internal node with `Count = 0` and no `Kids` entry. -/
def emptyPages : Dict :=
  [("Type", .name "Pages"), ("Count", .integer 0), ("Rotate", .integer 90)]

/-- A document whose root (object 1) is the empty internal node. -/
def emptyDoc : XRefTable :=
  [(1, .object (.dict emptyPages))]

/-- A leaf with an `Annots` entry and without `Parent`. -/
def annotsOrphanPage : Dict :=
  [("Type", .name "Page"), ("Annots", .array [.indirectRef 8 0])]

/-- A document whose only object (3) is the leaf `annotsOrphanPage`. -/
def annotsOrphanDoc : XRefTable :=
  [(3, .object (.dict annotsOrphanPage))]

/-! ## Leaf counts of a Kids sequence, read from the table -/

/-- The number of leaves that `locateKidForPageNumber` attributes to a kid: 0
for a nil entry, the `Count` entry for a reference to an internal node, 1 for a
reference to a leaf; `none` for a kid that does not resolve to an internal node
with an integer `Count` or to a leaf. -/
def kidCount (x : XRefTable) : Object → Option Int
  | .null => some 0
  | .indirectRef nr gen =>
    match XRefTable.DereferenceDict x ⟨nr, gen⟩ with
    | some (some d) =>
      match Dict.Type d with
      | some dictType =>
        if dictType = "Pages" then
          match Dict.Find d "Count" with
          | some (.integer n) => some n
          | _ => none
        else if dictType = "Page" then some 1
        else none
      | none => none
    | _ => none
  | _ => none

/-- The sum over a Kids sequence of `Count` for an internal kid and 1 for a leaf
kid. -/
def kidsLeaves (x : XRefTable) : List Object → Int
  | [] => 0
  | k :: ks => (kidCount x k).getD 0 + kidsLeaves x ks

/-- Whether the call ended with the not-found error of `locateKidForPageNumber`. -/
def isNotFound : Except Failure Object → Bool
  | .error (.err (.locateKidUnable _ _)) => true
  | _ => false

/-- A malformed document: the root's second kid (object 3) is an internal node
with `Count = -5`. -/
def negativeCountDoc : XRefTable :=
  [(1, .object (.dict (examplePages (-4) [.indirectRef 2 0, .indirectRef 3 0]))),
   (2, .object (.dict (examplePage 1))),
   (3, .object (.dict (examplePages (-5) [])))]

/-! ## The termination measure -/

/-- The object numbers of the store, each once. -/
def XRefTable.objectNumbers (x : XRefTable) : List Nat :=
  (x.map Prod.fst).dedup

/-- The object numbers of the store that are not in the written-set. -/
def Context.unwritten (ctx : Context) : List Nat :=
  ctx.xRefTable.objectNumbers.filter (fun n => !ctx.HasWriteOffset n)

/-- The number of object numbers of the store not yet in the written-set. -/
def Context.unwrittenCount (ctx : Context) : Nat :=
  ctx.unwritten.length

/-- A store whose `Kids` references form a cycle: the root (object 1) has the
kid 2, and node 2 has the kids 1 (its own parent) and 3 (a leaf). -/
def cyclicDoc : XRefTable :=
  [(1, .object (.dict (examplePages 1 [.indirectRef 2 0]))),
   (2, .object (.dict (examplePages 1 [.indirectRef 1 0, .indirectRef 3 0]))),
   (3, .object (.dict (examplePage 2)))]

/-! ## Two passes over the same output -/

/-- Two write states that differ at most in the cross-reference table: the same
written-set, output offset, statistics and write log. -/
def SameOutput (a b : Context) : Prop :=
  b.table = a.table ∧ b.offset = a.offset ∧ b.stats = a.stats ∧ b.out = a.out

/-- Two calls with the same result (success or the same error) whose final
write states differ at most in the cross-reference table. -/
def SameRun (r1 r2 : Context × Except Failure Unit) : Prop :=
  r2.2 = r1.2 ∧ SameOutput r1.1 r2.1

/-- The part of `writePagesDict` from the write of the node's own record on:
`ctx1`, `dict1` and `pageCount1` are the state, the node's dictionary and the
counter after `prepareSinglePageWrite`, and `restore` is the final update of
`Kids` and `Count`. -/
def writePagesDictTail (cfg : Config)
    (recur : Context → IndirectRef → Int → Context × Except Failure Unit)
    (ctx1 : Context) (indRef : IndirectRef) (dict1 : Dict) (pageCount1 : Int)
    (restore : Dict → Dict) : Context × Except Failure Unit :=
  match writeDictObject cfg ctx1 indRef.objectNumber indRef.generationNumber dict1 with
  | (ctx2, .error f) => (ctx2, .error f)
  | (ctx2, .ok ()) =>
    match writePageEntries cfg dict1 "pagesDict" ctx2 pagesDictEntries with
    | (ctx3, .error f) => (ctx3, .error f)
    | (ctx3, .ok ()) =>
      match Dict.ArrayEntry dict1 "Kids" with
      | none => (ctx3, .error (.err .writePagesDictCorruptKids))
      | some kidsArray =>
        match writeKidsWith cfg recur ctx3 kidsArray pageCount1 with
        | (ctx4, .error f) => (ctx4, .error f)
        | (ctx4, .ok ()) =>
          ({ ctx4 with xRefTable := ctx4.xRefTable.updateDict indRef.objectNumber restore },
            .ok ())

mutual
/-- The number of levels of internal nodes of the tree: 0 for a nil slot and for
a leaf, one more than the deepest kid for an internal node. -/
def PageTree.levels : PageTree → Nat
  | .null => 0
  | .page _ _ _ => 0
  | .pages _ _ _ kids => PageTree.levelsList kids + 1
/-- The number of levels of the deepest tree of the sequence. -/
def PageTree.levelsList : List PageTree → Nat
  | [] => 0
  | k :: ks => max k.levels (PageTree.levelsList ks)
end

mutual
/-- Every internal node of the tree carries an integer `Count` entry, whatever
its value. -/
def PageTree.HasCount : PageTree → Prop
  | .null => True
  | .page _ _ _ => True
  | .pages _ _ d kids =>
    (∃ n, Dict.Find d "Count" = some (.integer n)) ∧ PageTree.HasCountList kids
/-- Every internal node of the trees of the sequence carries an integer `Count`. -/
def PageTree.HasCountList : List PageTree → Prop
  | [] => True
  | k :: ks => k.HasCount ∧ PageTree.HasCountList ks
end

/-- A three-level document: root (object 1, `Count = 2`) with the subtree 2 over
the subtree 3 over leaf 4, and with leaf 6. -/
def threeLevelDoc : XRefTable :=
  [(1, .object (.dict (examplePages 2 [.indirectRef 2 0, .indirectRef 6 0]))),
   (2, .object (.dict (examplePages 1 [.indirectRef 3 0]))),
   (3, .object (.dict (examplePages 1 [.indirectRef 4 0]))),
   (4, .object (.dict (examplePage 3))),
   (6, .object (.dict (examplePage 1)))]

/-- The page tree of `threeLevelDoc`. -/
def threeLevelTree : PageTree :=
  .pages 1 0 (examplePages 2 [.indirectRef 2 0, .indirectRef 6 0])
    [.pages 2 0 (examplePages 1 [.indirectRef 3 0])
        [.pages 3 0 (examplePages 1 [.indirectRef 4 0]) [.page 4 0 (examplePage 3)]],
     .page 6 0 (examplePage 1)]

/-! ## The counter of `locateKidForPageNumber` as a 64-bit integer -/

/-- The value of a Go `int` expression on a 64-bit platform: two's-complement
wrap-around into `[-2^63, 2^63)`. -/
def wrapInt (i : Int) : Int :=
  (i + 9223372036854775808) % 18446744073709551616 - 9223372036854775808

/-- The range of a Go `int` on a 64-bit platform. -/
def InIntRange (i : Int) : Prop :=
  -9223372036854775808 ≤ i ∧ i < 9223372036854775808

/-- The function `locateKidForPageNumber` with the counter arithmetic of Go's
64-bit `int`: the sums `*pageCount+pCount`, `*pageCount += pCount` and
`*pageCount++` wrap around. Returns the counter `*pageCount` next to the
result. -/
def locateKidForPageNumber64 (cfg : Config) (ctx : Context) :
    List Object → Int → Int → Int × Except Failure Object
  | [], pageCount, pageNumber => (pageCount, .error (.err (.locateKidUnable pageCount pageNumber)))
  | obj :: rest, pageCount, pageNumber =>
    match obj with
    | .null => locateKidForPageNumber64 cfg ctx rest pageCount pageNumber
    | .indirectRef nr gen =>
      match XRefTable.DereferenceDict ctx.xRefTable ⟨nr, gen⟩ with
      | none => (pageCount, .error (.err .locateKidCannotDereference))
      | some none => (pageCount, .error (.err .locateKidNull))
      | some (some dict) =>
        match Dict.Type dict with
        | none => (pageCount, .error (.err .locateKidMissingType))
        | some dictType =>
          if dictType = "Pages" then
            match Dict.Find dict "Count" with
            | none => (pageCount, .error (.err .locateKidMissingCount))
            | some (.integer pCount) =>
              if wrapInt (pageCount + pCount) < cfg.extractPageNr then
                locateKidForPageNumber64 cfg ctx rest (wrapInt (pageCount + pCount)) pageNumber
              else (pageCount, .ok obj)
            | some _ => (pageCount, .error .panic)
          else if dictType = "Page" then
            if wrapInt (pageCount + 1) = cfg.extractPageNr then (wrapInt (pageCount + 1), .ok obj)
            else locateKidForPageNumber64 cfg ctx rest (wrapInt (pageCount + 1)) pageNumber
          else (pageCount, .error (.err (.locateKidUnexpectedType dictType)))
    | _ => (pageCount, .error (.err .locateKidMissingIndRef))

/-- No running sum of the counter over the sequence leaves the range of `int`:
started at `c`, the counter stays in range after every kid (`Count` added for
an internal kid, 1 for a leaf kid). -/
def NoOverflow (x : XRefTable) : Int → List Object → Prop
  | _, [] => True
  | c, k :: ks =>
    InIntRange (c + (kidCount x k).getD 0) ∧ NoOverflow x (c + (kidCount x k).getD 0) ks

/-- A malformed document: a leaf (object 2) and three internal nodes (objects 3,
4, 5) whose `Count` is the largest `int`, `2^63 - 1`. -/
def maxCountDoc : XRefTable :=
  [(1, .object (.dict (examplePages 4
      [.indirectRef 2 0, .indirectRef 3 0, .indirectRef 4 0, .indirectRef 5 0]))),
   (2, .object (.dict (examplePage 1))),
   (3, .object (.dict (examplePages 9223372036854775807 []))),
   (4, .object (.dict (examplePages 9223372036854775807 []))),
   (5, .object (.dict (examplePages 9223372036854775807 [])))]

/-! ## Dictionary and table lemmas -/

theorem Dict.Find_set (d : Dict) (k : String) (v : Object) (k' : String) :
    Dict.Find (Dict.set d k v) k' = if k' = k then some v else Dict.Find d k' := by
  induction d with
  | nil =>
    simp only [Dict.set, Dict.Find]
    split_ifs <;> simp_all
  | cons e rest ih =>
    obtain ⟨a, b⟩ := e
    simp only [Dict.set, Dict.Find]
    split_ifs <;> simp_all [Dict.Find]

theorem Dict.Find_Update (d : Dict) (k : String) (v : Object) (k' : String)
    (hv : v.isNil = false) :
    Dict.Find (Dict.Update d k v) k' = if k' = k then some v else Dict.Find d k' := by
  simp [Dict.Update, hv, Dict.Find_set]

theorem Dict.Find_Delete (d : Dict) (k k' : String) (h : k' ≠ k) :
    Dict.Find (Dict.Delete d k) k' = Dict.Find d k' := by
  induction d with
  | nil => rfl
  | cons e rest ih =>
    obtain ⟨a, b⟩ := e
    simp only [Dict.Delete] at ih ⊢
    have h2 : ¬ k = k' := fun e => h e.symm
    by_cases hak : a = k
    · simp [Dict.Find, hak, ih, List.filter_cons, h2]
    · simp [Dict.Find, hak, ih, List.filter_cons]

theorem XRefTable.find_updateDict (x : XRefTable) (nr : Nat) (f : Dict → Dict) (n : Nat) :
    XRefTable.find (XRefTable.updateDict x nr f) n =
      if n = nr then (XRefTable.find x n).map (XRefEntry.mapDict f) else XRefTable.find x n := by
  induction x with
  | nil => simp [XRefTable.updateDict, XRefTable.find]
  | cons e rest ih =>
    obtain ⟨a, b⟩ := e
    simp only [XRefTable.updateDict]
    by_cases han : a = n <;> by_cases h : a = nr <;> by_cases h' : n = nr <;>
      simp_all [XRefTable.find]

theorem Dict.IndirectRefEntry_Delete (d : Dict) (k k' : String) (h : k' ≠ k) :
    Dict.IndirectRefEntry (Dict.Delete d k) k' = Dict.IndirectRefEntry d k' := by
  simp [Dict.IndirectRefEntry, Dict.Find_Delete d k k' h]


/-! ## Node resolver and re-entry (C9, C10) -/

/-- C9: `pageNodeDict` never changes the context, and its result is exactly one
of three: a skip `(nil, nil, nil)` if and only if the kid is nil or an indirect
reference to a written object number; a Go error if and only if the kid is
neither nil nor an indirect reference, or an unwritten reference whose
resolution fails, yields no record, or yields a record without type tag; and
otherwise the resolved record with the same indirect reference. -/
theorem pageNodeDict_outcomes (ctx : Context) (o : Object) :
    (pageNodeDict ctx o).1 = ctx ∧
    ((pageNodeDict ctx o).2 = .ok none ↔
      (o = .null ∨ ∃ nr gen, o = .indirectRef nr gen ∧ ctx.HasWriteOffset nr = true)) ∧
    ((∃ e, (pageNodeDict ctx o).2 = .error (.err e)) ↔
      ((o ≠ .null ∧ ∀ nr gen, o ≠ .indirectRef nr gen) ∨
        ∃ nr gen, o = .indirectRef nr gen ∧ ctx.HasWriteOffset nr = false ∧
          (ctx.xRefTable.DereferenceDict ⟨nr, gen⟩ = none ∨
            ctx.xRefTable.DereferenceDict ⟨nr, gen⟩ = some none ∨
            ∃ d, ctx.xRefTable.DereferenceDict ⟨nr, gen⟩ = some (some d) ∧ Dict.Type d = none))) ∧
    ((pageNodeDict ctx o).2 = .ok none ∨ (∃ e, (pageNodeDict ctx o).2 = .error (.err e)) ∨
      ∃ nr gen d, o = .indirectRef nr gen ∧
        ctx.xRefTable.DereferenceDict ⟨nr, gen⟩ = some (some d) ∧
        (pageNodeDict ctx o).2 = .ok (some (d, ⟨nr, gen⟩))) := by
  cases o with
  | null => simp [pageNodeDict]
  | integer i => simp [pageNodeDict]
  | name s => simp [pageNodeDict]
  | array a => simp [pageNodeDict]
  | dict d => simp [pageNodeDict]
  | indirectRef nr gen =>
    by_cases hw : ctx.HasWriteOffset nr = true
    · simp [pageNodeDict, hw]
    · have hw' : ctx.HasWriteOffset nr = false := by simpa using hw
      cases hd : ctx.xRefTable.DereferenceDict ⟨nr, gen⟩ with
      | none =>
        simp [pageNodeDict, hw', hd]
        exact ⟨nr, gen, ⟨rfl, rfl⟩, hw', Or.inl hd⟩
      | some od =>
        cases od with
        | none =>
          simp [pageNodeDict, hw', hd]
          exact ⟨nr, gen, ⟨rfl, rfl⟩, hw', Or.inr (Or.inl hd)⟩
        | some d =>
          cases ht : Dict.Type d with
          | none =>
            simp [pageNodeDict, hw', hd, ht]
            exact ⟨nr, gen, ⟨rfl, rfl⟩, hw', Or.inr (Or.inr ⟨d, hd, ht⟩)⟩
          | some t =>
            simp [pageNodeDict, hw', hd, ht]
            exact ⟨nr, gen, ⟨rfl, rfl⟩, d, hd, rfl, rfl, rfl⟩


/-- C10: on a reference whose object number is in the written-set
`writePagesDict` fails with the "nil or already written" error and returns the
context unchanged (nothing emitted, tree untouched), for every recursion bound;
`pageNodeDict` on the same reference returns the skip without error. -/
theorem writePagesDict_alreadyWritten (cfg : Config) (fuel : Nat) (ctx : Context)
    (indRef : IndirectRef) (pageCount : Int)
    (h : ctx.HasWriteOffset indRef.objectNumber = true) :
    writePagesDict cfg fuel ctx indRef pageCount =
      (ctx, .error (.err (.writePagesDictNilOrWritten indRef.objectNumber ctx.offset))) ∧
    pageNodeDict ctx indRef.toObject = (ctx, .ok none) := by
  constructor
  · cases fuel <;> simp [writePagesDict, writePagesDictBody, h]
  · simp [pageNodeDict, IndirectRef.toObject, h]


/-- C10 at a concrete input: object 1 of the 3-leaf document, already written at
offset 0. -/
theorem writePagesDict_alreadyWritten_witness :
    ({ startContext threeLeafDoc with table := [(1, 0)] } : Context).HasWriteOffset 1 = true ∧
    writePagesDict (exampleConfig 0 (fun _ => false) false) 2
        { startContext threeLeafDoc with table := [(1, 0)] } ⟨1, 0⟩ 0 =
      ({ startContext threeLeafDoc with table := [(1, 0)] },
        .error (.err (.writePagesDictNilOrWritten 1 0))) ∧
    pageNodeDict { startContext threeLeafDoc with table := [(1, 0)] } (.indirectRef 1 0) =
      ({ startContext threeLeafDoc with table := [(1, 0)] }, .ok none) :=
  ⟨rfl, writePagesDict_alreadyWritten (exampleConfig 0 (fun _ => false) false) 2
    { startContext threeLeafDoc with table := [(1, 0)] } ⟨1, 0⟩ 0 rfl⟩

/-! ## Leaf without parent (C8) -/

/-- C8 fails as stated: for the leaf `orphanPage` (object 3, no `Parent`)
`writePageDict` returns the missing-parent error, yet the leaf's record has
reached the write log, its object number the written-set, and the offset has
advanced; and when the record writer fails on the leaf, the error returned is
the writer's, not the missing-parent error. -/
theorem writePageDict_missingParent_writes :
    Dict.IndirectRefEntry orphanPage "Parent" = none ∧
    (writePageDict (exampleConfig 0 (fun _ => false) false) (startContext orphanDoc) ⟨3, 0⟩
        orphanPage).1.table = [(3, 0)] ∧
    (writePageDict (exampleConfig 0 (fun _ => false) false) (startContext orphanDoc) ⟨3, 0⟩
        orphanPage).1.out = [.record 3 0 orphanPage] ∧
    ¬ ((writePageDict (exampleConfig 0 (fun _ => false) false) (startContext orphanDoc) ⟨3, 0⟩
          orphanPage).2 = .error (.err .writePageDictMissingParent) ∧
        (writePageDict (exampleConfig 0 (fun _ => false) false) (startContext orphanDoc) ⟨3, 0⟩
          orphanPage).1.offset = (startContext orphanDoc).offset ∧
        (writePageDict (exampleConfig 0 (fun _ => false) false) (startContext orphanDoc) ⟨3, 0⟩
          orphanPage).1.table = (startContext orphanDoc).table ∧
        (writePageDict (exampleConfig 0 (fun _ => false) false) (startContext orphanDoc) ⟨3, 0⟩
          orphanPage).1.out = (startContext orphanDoc).out) ∧
    (writePageDict (failingConfig 0 3) (startContext orphanDoc) ⟨3, 0⟩ orphanPage).2 =
      .error (.err .ioError) :=
  ⟨rfl, rfl, rfl, fun h => absurd h.2.1 (by decide), rfl⟩

/-- C8, amended: for a leaf record without `Parent` indirect reference whose own
record the writer accepts, `writePageDict` fails with the missing-parent error
after the leaf's record has been written: the write log gains exactly that
record (with `Annots` deleted under the reduced feature set) and no attribute,
the written-set gains the leaf's object number at the old offset, the offset
advances by the size of the record, and no statistic is recorded. -/
theorem writePageDict_missingParent (cfg : Config) (ctx : Context) (indRef : IndirectRef)
    (pageDict : Dict) (hp : Dict.IndirectRefEntry pageDict "Parent" = none)
    (hw : cfg.recordFails ctx.offset indRef.objectNumber = false) :
    (writePageDict cfg ctx indRef pageDict).2 = .error (.err .writePageDictMissingParent) ∧
    (writePageDict cfg ctx indRef pageDict).1.out =
      ctx.out ++ [.record indRef.objectNumber indRef.generationNumber
        (if cfg.reducedFeatureSet then Dict.Delete pageDict "Annots" else pageDict)] ∧
    (writePageDict cfg ctx indRef pageDict).1.table =
      (indRef.objectNumber, ctx.offset) :: ctx.table ∧
    (writePageDict cfg ctx indRef pageDict).1.offset =
      ctx.offset + cfg.recordSize indRef.objectNumber indRef.generationNumber
        (if cfg.reducedFeatureSet then Dict.Delete pageDict "Annots" else pageDict) ∧
    (writePageDict cfg ctx indRef pageDict).1.stats = ctx.stats := by
  have hp' : Dict.IndirectRefEntry (Dict.Delete pageDict "Annots") "Parent" = none := by
    rw [Dict.IndirectRefEntry_Delete _ _ _ (by decide)]; exact hp
  cases hr : cfg.reducedFeatureSet <;>
    simp [writePageDict, writeDictObject, hr, hw, hp, hp']


/-- C8 amended, at the leaf `orphanPage` of `orphanDoc`. -/
theorem writePageDict_missingParent_witness :
    Dict.IndirectRefEntry orphanPage "Parent" = none ∧
    (writePageDict (exampleConfig 0 (fun _ => false) false) (startContext orphanDoc) ⟨3, 0⟩
        orphanPage).2 = .error (.err .writePageDictMissingParent) ∧
    (writePageDict (exampleConfig 0 (fun _ => false) false) (startContext orphanDoc) ⟨3, 0⟩
        orphanPage).1.out = [.record 3 0 orphanPage] :=
  ⟨rfl,
   (writePageDict_missingParent (exampleConfig 0 (fun _ => false) false)
      (startContext orphanDoc) ⟨3, 0⟩ orphanPage rfl rfl).1,
   (writePageDict_missingParent (exampleConfig 0 (fun _ => false) false)
      (startContext orphanDoc) ⟨3, 0⟩ orphanPage rfl rfl).2.1⟩

/-! ## Restoration on error paths (C1) -/

/-- C1, the code at failing inputs, extraction of page 2 in each. On `orphanDoc`
`writeKids` fails (leaf 3 has no `Parent`) and the root (object 1) is left with
`Kids = [3 0 R]`, `Count = 1` instead of `Kids = [2 0 R, 3 0 R]`, `Count = 2`.
On the well-formed `threeLeafDoc` the root is left with `Kids = [3 0 R]`,
`Count = 1` instead of its three kids and `Count = 3` when the record writer
fails on the leaf (object 3), when it fails on the root's own record, and when
the entry writer fails on the root's `Rotate`. -/
theorem writePagesDict_error_skips_restore :
    (writePagesDict (exampleConfig 2 (fun _ => false) false) 1 (startContext orphanDoc)
        ⟨1, 0⟩ 0).2 = .error (.err .writePageDictMissingParent) ∧
    XRefTable.nodeEntry orphanDoc 1 "Kids" =
      some (some (.array [.indirectRef 2 0, .indirectRef 3 0])) ∧
    XRefTable.nodeEntry orphanDoc 1 "Count" = some (some (.integer 2)) ∧
    XRefTable.nodeEntry (writePagesDict (exampleConfig 2 (fun _ => false) false) 1
        (startContext orphanDoc) ⟨1, 0⟩ 0).1.xRefTable 1 "Kids" =
      some (some (.array [.indirectRef 3 0])) ∧
    XRefTable.nodeEntry (writePagesDict (exampleConfig 2 (fun _ => false) false) 1
        (startContext orphanDoc) ⟨1, 0⟩ 0).1.xRefTable 1 "Count" = some (some (.integer 1)) ∧
    XRefTable.nodeEntry threeLeafDoc 1 "Kids" =
      some (some (.array [.indirectRef 2 0, .indirectRef 3 0, .indirectRef 4 0])) ∧
    XRefTable.nodeEntry threeLeafDoc 1 "Count" = some (some (.integer 3)) ∧
    (writePagesDict (failingConfig 2 3) 1 (startContext threeLeafDoc) ⟨1, 0⟩ 0).2 =
      .error (.err .ioError) ∧
    XRefTable.nodeEntry (writePagesDict (failingConfig 2 3) 1 (startContext threeLeafDoc)
        ⟨1, 0⟩ 0).1.xRefTable 1 "Kids" = some (some (.array [.indirectRef 3 0])) ∧
    XRefTable.nodeEntry (writePagesDict (failingConfig 2 3) 1 (startContext threeLeafDoc)
        ⟨1, 0⟩ 0).1.xRefTable 1 "Count" = some (some (.integer 1)) ∧
    (writePagesDict (failingConfig 2 1) 1 (startContext threeLeafDoc) ⟨1, 0⟩ 0).2 =
      .error (.err .ioError) ∧
    XRefTable.nodeEntry (writePagesDict (failingConfig 2 1) 1 (startContext threeLeafDoc)
        ⟨1, 0⟩ 0).1.xRefTable 1 "Kids" = some (some (.array [.indirectRef 3 0])) ∧
    XRefTable.nodeEntry (writePagesDict (failingConfig 2 1) 1 (startContext threeLeafDoc)
        ⟨1, 0⟩ 0).1.xRefTable 1 "Count" = some (some (.integer 1)) ∧
    (writePagesDict (entryFailingConfig 2 "Rotate") 1 (startContext threeLeafDoc) ⟨1, 0⟩ 0).2 =
      .error (.err .ioError) ∧
    XRefTable.nodeEntry (writePagesDict (entryFailingConfig 2 "Rotate") 1
        (startContext threeLeafDoc) ⟨1, 0⟩ 0).1.xRefTable 1 "Kids" =
      some (some (.array [.indirectRef 3 0])) ∧
    XRefTable.nodeEntry (writePagesDict (entryFailingConfig 2 "Rotate") 1
        (startContext threeLeafDoc) ⟨1, 0⟩ 0).1.xRefTable 1 "Count" =
      some (some (.integer 1)) :=
  ⟨rfl, rfl, rfl, rfl, rfl, rfl, rfl, rfl, rfl, rfl, rfl, rfl, rfl, rfl, rfl, rfl⟩

/-! ## Write-once (C6) -/

theorem recordNumbers_append (a b : List Event) :
    recordNumbers (a ++ b) = recordNumbers a ++ recordNumbers b := by
  induction a with
  | nil => rfl
  | cons e es ih => cases e <;> simp [recordNumbers, ih]

theorem WritesOnce.same (ctx : Context) : WritesOnce ctx ctx :=
  ⟨[], by simp, by simp [recordNumbers], by simp [recordNumbers], by simp [recordNumbers]⟩

theorem WritesOnce.of_eq {ctx ctx' : Context} (ho : ctx'.out = ctx.out)
    (ht : ctx'.table = ctx.table) : WritesOnce ctx ctx' :=
  ⟨[], by simp [ho], by simp [recordNumbers], by simp [recordNumbers],
    by simp [recordNumbers, Context.HasWriteOffset, ht]⟩

theorem WritesOnce.chain {a b c : Context} (h1 : WritesOnce a b) (h2 : WritesOnce b c) :
    WritesOnce a c := by
  obtain ⟨n1, ho1, hd1, hf1, hw1⟩ := h1
  obtain ⟨n2, ho2, hd2, hf2, hw2⟩ := h2
  refine ⟨n1 ++ n2, by simp [ho2, ho1], ?_, ?_, ?_⟩
  · rw [recordNumbers_append, List.nodup_append]
    refine ⟨hd1, hd2, ?_⟩
    intro n hn1 hn2
    have hb : b.HasWriteOffset n = true := (hw1 n).2 (Or.inr hn1)
    rw [hf2 n hn2] at hb
    exact Bool.noConfusion hb
  · intro n hn
    rw [recordNumbers_append, List.mem_append] at hn
    rcases hn with hn | hn
    · exact hf1 n hn
    · cases hA : a.HasWriteOffset n with
      | false => rfl
      | true =>
        have hb : b.HasWriteOffset n = true := (hw1 n).2 (Or.inl hA)
        rw [hf2 n hn] at hb
        exact Bool.noConfusion hb
  · intro n
    rw [hw2 n, hw1 n, recordNumbers_append, List.mem_append]
    tauto

theorem writeDictObject_writesOnce (cfg : Config) (ctx : Context) (nr gen : Nat) (d : Dict)
    (h : ctx.HasWriteOffset nr = false) : WritesOnce ctx (writeDictObject cfg ctx nr gen d).1 := by
  unfold writeDictObject
  split
  · exact WritesOnce.same ctx
  · refine ⟨[.record nr gen d], rfl, by simp [recordNumbers], ?_, ?_⟩
    · intro n hn
      simp [recordNumbers] at hn
      rw [hn]; exact h
    · intro n
      simp [Context.HasWriteOffset, recordNumbers]
      constructor
      · rintro (h1 | h1)
        · exact Or.inr h1.symm
        · exact Or.inl h1
      · rintro (h1 | h1)
        · exact Or.inr h1
        · exact Or.inl h1.symm

theorem writeEntry_out_table (cfg : Config) (ctx : Context) (d : Dict) (dn en : String) :
    (writeEntry cfg ctx d dn en).1.table = ctx.table ∧
    (writeEntry cfg ctx d dn en).1.xRefTable = ctx.xRefTable ∧
    ∃ new, (writeEntry cfg ctx d dn en).1.out = ctx.out ++ new ∧ recordNumbers new = [] := by
  unfold writeEntry
  split
  · exact ⟨rfl, rfl, [], by simp, rfl⟩
  · split
    · exact ⟨rfl, rfl, [], by simp, rfl⟩
    · split
      · exact ⟨rfl, rfl, [], by simp, rfl⟩
      · exact ⟨rfl, rfl, _, rfl, rfl⟩

theorem writePageEntry_out_table (cfg : Config) (ctx : Context) (d : Dict) (dn en : String)
    (a : PageAttr) :
    (writePageEntry cfg ctx d dn en a).1.table = ctx.table ∧
    (writePageEntry cfg ctx d dn en a).1.xRefTable = ctx.xRefTable ∧
    ∃ new, (writePageEntry cfg ctx d dn en a).1.out = ctx.out ++ new ∧ recordNumbers new = [] := by
  have h := writeEntry_out_table cfg ctx d dn en
  unfold writePageEntry
  split
  · next ctx1 f heq => rw [heq] at h; exact h
  · next ctx1 obj heq =>
    rw [heq] at h
    split
    · exact h
    · exact h

theorem writePageEntries_out_table (cfg : Config) (d : Dict) (dn : String)
    (es : List (String × PageAttr)) (ctx : Context) :
    (writePageEntries cfg d dn ctx es).1.table = ctx.table ∧
    (writePageEntries cfg d dn ctx es).1.xRefTable = ctx.xRefTable ∧
    ∃ new, (writePageEntries cfg d dn ctx es).1.out = ctx.out ++ new ∧ recordNumbers new = [] := by
  induction es generalizing ctx with
  | nil => exact ⟨rfl, rfl, [], by simp [writePageEntries], rfl⟩
  | cons e es ih =>
    obtain ⟨en, a⟩ := e
    have h := writePageEntry_out_table cfg ctx d dn en a
    unfold writePageEntries
    split
    · next ctx1 f heq => rw [heq] at h; exact h
    · next ctx1 heq =>
      rw [heq] at h
      obtain ⟨ht, hx, n1, ho, hr⟩ := h
      obtain ⟨ht2, hx2, n2, ho2, hr2⟩ := ih ctx1
      refine ⟨ht2.trans ht, hx2.trans hx, n1 ++ n2, ?_, ?_⟩
      · rw [ho2]; simp at ho; rw [ho]; simp
      · rw [recordNumbers_append, hr, hr2]; rfl

theorem writePageEntries_writesOnce (cfg : Config) (d : Dict) (dn : String)
    (es : List (String × PageAttr)) (ctx : Context) :
    WritesOnce ctx (writePageEntries cfg d dn ctx es).1 := by
  obtain ⟨ht, _, new, ho, hr⟩ := writePageEntries_out_table cfg d dn es ctx
  exact ⟨new, ho, by simp [hr], by simp [hr], by simp [hr, Context.HasWriteOffset, ht]⟩


theorem writePageDict_writesOnce_aux (cfg : Config) (ctx ctx0 : Context) (indRef : IndirectRef)
    (pd : Dict) (ho : ctx0.out = ctx.out) (ht : ctx0.table = ctx.table)
    (h : ctx.HasWriteOffset indRef.objectNumber = false) :
    WritesOnce ctx
      (match writeDictObject cfg ctx0 indRef.objectNumber indRef.generationNumber pd with
        | (ctx1, .error f) => (ctx1, Except.error f)
        | (ctx1, .ok ()) =>
          match Dict.IndirectRefEntry pd "Parent" with
          | none => (ctx1, .error (.err .writePageDictMissingParent))
          | some _ => writePageEntries cfg pd "pageDict" ctx1 pageDictEntries).1 := by
  have hw0 : ctx0.HasWriteOffset indRef.objectNumber = false := by
    simpa [Context.HasWriteOffset, ht] using h
  have e0 : WritesOnce ctx ctx0 := WritesOnce.of_eq ho ht
  have e1 := writeDictObject_writesOnce cfg ctx0 indRef.objectNumber indRef.generationNumber pd hw0
  split
  · next ctx1 f heq => rw [heq] at e1; exact e0.chain e1
  · next ctx1 heq =>
    rw [heq] at e1
    split
    · exact e0.chain e1
    · exact (e0.chain e1).chain (writePageEntries_writesOnce cfg pd "pageDict" pageDictEntries ctx1)

theorem writePageDict_writesOnce (cfg : Config) (ctx : Context) (indRef : IndirectRef)
    (pageDict : Dict) (h : ctx.HasWriteOffset indRef.objectNumber = false) :
    WritesOnce ctx (writePageDict cfg ctx indRef pageDict).1 := by
  unfold writePageDict
  exact writePageDict_writesOnce_aux cfg ctx _ indRef _ (by split <;> rfl) (by split <;> rfl) h

theorem pageNodeDict_fst (ctx : Context) (o : Object) : (pageNodeDict ctx o).1 = ctx := by
  unfold pageNodeDict
  repeat' split
  all_goals rfl

theorem pageNodeDict_some (ctx ctx1 : Context) (o : Object) (d : Dict) (r : IndirectRef)
    (h : pageNodeDict ctx o = (ctx1, .ok (some (d, r)))) :
    ctx1 = ctx ∧ o = r.toObject ∧ ctx.HasWriteOffset r.objectNumber = false ∧
      ctx.xRefTable.DereferenceDict r = some (some d) ∧ Dict.Type d ≠ none := by
  have h1 := pageNodeDict_fst ctx o
  rw [h] at h1
  refine ⟨h1, ?_⟩
  cases o with
  | indirectRef nr gen =>
    unfold pageNodeDict at h
    simp only [] at h
    split at h
    · simp at h
    · next hw =>
      split at h
      · simp at h
      · simp at h
      · next d' hd =>
        split at h
        · simp at h
        · next t ht =>
          simp only [Prod.mk.injEq, Except.ok.injEq, Option.some.injEq] at h
          obtain ⟨_, hd', hr⟩ := h
          subst hd' hr
          exact ⟨rfl, by simpa using hw, hd, by simp [ht]⟩
  | null => simp [pageNodeDict] at h
  | integer i => simp [pageNodeDict] at h
  | name s => simp [pageNodeDict] at h
  | array a => simp [pageNodeDict] at h
  | dict d => simp [pageNodeDict] at h

theorem writeKidsWith_writesOnce (cfg : Config)
    (recur : Context → IndirectRef → Int → Context × Except Failure Unit)
    (hrec : ∀ ctx r pc, ctx.HasWriteOffset r.objectNumber = false → WritesOnce ctx (recur ctx r pc).1)
    (kids : List Object) (ctx : Context) (pc : Int) :
    WritesOnce ctx (writeKidsWith cfg recur ctx kids pc).1 := by
  induction kids generalizing ctx with
  | nil => exact WritesOnce.same ctx
  | cons obj rest ih =>
    unfold writeKidsWith
    split
    · next ctx1 f heq =>
      have := pageNodeDict_fst ctx obj; rw [heq] at this
      simp at this; subst this; exact WritesOnce.same _
    · next ctx1 heq =>
      have := pageNodeDict_fst ctx obj; rw [heq] at this
      simp at this; subst this; exact ih _
    · next ctx1 d indRef heq =>
      obtain ⟨h1, _, hw, _, _⟩ := pageNodeDict_some ctx ctx1 obj d indRef heq
      subst h1
      simp only []
      have hr : WritesOnce ctx1 (if Dict.Type d = some "Pages" then recur ctx1 indRef pc
          else if Dict.Type d = some "Page" then writePageDict cfg ctx1 indRef d
          else (ctx1, Except.error (Failure.err (Err.writeKidsUnexpectedType ((Dict.Type d).getD ""))))).1 := by
        split
        · exact hrec _ _ _ hw
        · split
          · exact writePageDict_writesOnce cfg ctx1 indRef d hw
          · exact WritesOnce.same _
      split
      · next ctx2 f heq2 => rw [heq2] at hr; exact hr
      · next ctx2 heq2 => rw [heq2] at hr; exact hr.chain (ih ctx2)


theorem prepareSinglePageWrite_out_table (cfg : Config) (ctx : Context) (nr : Nat) (dict : Dict)
    (kids : List Object) (pc : Int) :
    (prepareSinglePageWrite cfg ctx nr dict kids pc).1.out = ctx.out ∧
    (prepareSinglePageWrite cfg ctx nr dict kids pc).1.table = ctx.table := by
  unfold prepareSinglePageWrite
  split <;> exact ⟨rfl, rfl⟩

theorem writePagesDictBody_writesOnce (cfg : Config)
    (recur : Context → IndirectRef → Int → Context × Except Failure Unit)
    (hrec : ∀ ctx r pc, ctx.HasWriteOffset r.objectNumber = false → WritesOnce ctx (recur ctx r pc).1)
    (ctx : Context) (indRef : IndirectRef) (pc : Int) :
    WritesOnce ctx (writePagesDictBody cfg recur ctx indRef pc).1 := by
  unfold writePagesDictBody
  simp only []
  split
  · exact WritesOnce.same _
  · next hw =>
    have hw' : ctx.HasWriteOffset indRef.objectNumber = false := by simpa using hw
    split
    · exact WritesOnce.same _
    · exact WritesOnce.same _
    · next dict hd =>
      split
      · exact WritesOnce.same _
      · next c hc =>
        split
        · exact WritesOnce.same _
        · split
          · exact WritesOnce.same _
          · next kidsArrayOrig hk =>
            have hp : (if cfg.extractPageNr > 0 then
                prepareSinglePageWrite cfg ctx indRef.objectNumber dict kidsArrayOrig pc
                else (ctx, dict, pc, Except.ok ())).1.out = ctx.out ∧
              (if cfg.extractPageNr > 0 then
                prepareSinglePageWrite cfg ctx indRef.objectNumber dict kidsArrayOrig pc
                else (ctx, dict, pc, Except.ok ())).1.table = ctx.table := by
              split
              · exact prepareSinglePageWrite_out_table _ _ _ _ _ _
              · exact ⟨rfl, rfl⟩
            split
            · next ctx1 _ _ f heq =>
              rw [heq] at hp
              exact WritesOnce.of_eq hp.1 hp.2
            · next ctx1 dict1 pc1 heq =>
              rw [heq] at hp
              have e0 : WritesOnce ctx ctx1 := WritesOnce.of_eq hp.1 hp.2
              have hp2 : ctx1.table = ctx.table := hp.2
              have hw1 : ctx1.HasWriteOffset indRef.objectNumber = false := by
                simpa [Context.HasWriteOffset, hp2] using hw'
              have e1 := writeDictObject_writesOnce cfg ctx1 indRef.objectNumber
                indRef.generationNumber dict1 hw1
              split
              · next ctx2 f heq2 => rw [heq2] at e1; exact e0.chain e1
              · next ctx2 heq2 =>
                rw [heq2] at e1
                have e2 := writePageEntries_writesOnce cfg dict1 "pagesDict" pagesDictEntries ctx2
                split
                · next ctx3 f heq3 => rw [heq3] at e2; exact (e0.chain e1).chain e2
                · next ctx3 heq3 =>
                  rw [heq3] at e2
                  split
                  · exact (e0.chain e1).chain e2
                  · next kidsArray hk2 =>
                    have e3 := writeKidsWith_writesOnce cfg recur hrec kidsArray ctx3 pc1
                    split
                    · next ctx4 f heq4 => rw [heq4] at e3; exact ((e0.chain e1).chain e2).chain e3
                    · next ctx4 heq4 =>
                      rw [heq4] at e3
                      exact (((e0.chain e1).chain e2).chain e3).chain (WritesOnce.of_eq rfl rfl)
      · exact WritesOnce.same _

theorem writePagesDict_writesOnce_all (cfg : Config) (fuel : Nat) (ctx : Context)
    (indRef : IndirectRef) (pc : Int) :
    WritesOnce ctx (writePagesDict cfg fuel ctx indRef pc).1 := by
  induction fuel generalizing ctx indRef pc with
  | zero =>
    exact writePagesDictBody_writesOnce cfg _ (fun c _ _ _ => WritesOnce.same c) ctx indRef pc
  | succ n ih =>
    exact writePagesDictBody_writesOnce cfg _ (fun c r p _ => ih c r p) ctx indRef pc

/-- C6: whatever the object graph (shared or repeated kids included) and
however the call ends, the records that one call of `writePagesDict` hands to
the record writer carry pairwise distinct object numbers, none of which was in
the written-set when the call started, and the written-set grows by exactly
these numbers: each `writeDictObject` call is for a number that is not in the
written-set at that moment. -/
theorem writePagesDict_writeOnce (cfg : Config) (fuel : Nat) (ctx : Context)
    (indRef : IndirectRef) (pageCount : Int) :
    ∃ new, (writePagesDict cfg fuel ctx indRef pageCount).1.out = ctx.out ++ new ∧
      (recordNumbers new).Nodup ∧
      (∀ n ∈ recordNumbers new, ctx.HasWriteOffset n = false) ∧
      (∀ n, (writePagesDict cfg fuel ctx indRef pageCount).1.HasWriteOffset n = true ↔
        (ctx.HasWriteOffset n = true ∨ n ∈ recordNumbers new)) :=
  writePagesDict_writesOnce_all cfg fuel ctx indRef pageCount

/-! ## Success paths of the tree writer -/

theorem XRefTable.DereferenceDict_eq_some (x : XRefTable) (r : IndirectRef) (d : Dict) :
    XRefTable.DereferenceDict x r = some (some d) ↔
      XRefTable.find x r.objectNumber = some (.object (.dict d)) := by
  unfold XRefTable.DereferenceDict XRefTable.Dereference
  cases h : XRefTable.find x r.objectNumber with
  | none => simp
  | some e =>
    cases e with
    | broken => simp
    | object o => cases o <;> simp

theorem Dict.ArrayEntry_eq_some (d : Dict) (k : String) (a : List Object) :
    Dict.ArrayEntry d k = some a ↔ Dict.Find d k = some (.array a) := by
  unfold Dict.ArrayEntry
  cases h : Dict.Find d k with
  | none => simp
  | some o => cases o <;> simp

/-- Inversion of a successful `writePagesDictBody`. -/
theorem writePagesDictBody_ok (cfg : Config)
    (recur : Context → IndirectRef → Int → Context × Except Failure Unit)
    (ctx ctx' : Context) (indRef : IndirectRef) (pc : Int)
    (h : writePagesDictBody cfg recur ctx indRef pc = (ctx', .ok ())) :
    ctx.HasWriteOffset indRef.objectNumber = false ∧
    ∃ dict c, XRefTable.DereferenceDict ctx.xRefTable indRef = some (some dict) ∧
      Dict.Find dict "Count" = some (.integer c) ∧
      ((c = 0 ∧ ctx' = ctx) ∨
        (c ≠ 0 ∧ ∃ kidsArrayOrig ctx1 dict1 pc1 ctx2 ctx3 kidsArray ctx4,
          Dict.ArrayEntry dict "Kids" = some kidsArrayOrig ∧
          (if cfg.extractPageNr > 0 then
              prepareSinglePageWrite cfg ctx indRef.objectNumber dict kidsArrayOrig pc
            else (ctx, dict, pc, .ok ())) = (ctx1, dict1, pc1, .ok ()) ∧
          writeDictObject cfg ctx1 indRef.objectNumber indRef.generationNumber dict1 =
            (ctx2, .ok ()) ∧
          writePageEntries cfg dict1 "pagesDict" ctx2 pagesDictEntries = (ctx3, .ok ()) ∧
          Dict.ArrayEntry dict1 "Kids" = some kidsArray ∧
          writeKidsWith cfg recur ctx3 kidsArray pc1 = (ctx4, .ok ()) ∧
          ctx' = { ctx4 with
            xRefTable := ctx4.xRefTable.updateDict indRef.objectNumber (fun d =>
              Dict.Update (Dict.Update d "Kids" (.array kidsArrayOrig)) "Count"
                (.integer c)) })) := by
  unfold writePagesDictBody at h
  simp only [] at h
  split at h
  · simp at h
  · next hw =>
    refine ⟨by simpa using hw, ?_⟩
    split at h
    · simp at h
    · simp at h
    · next dict hd =>
      split at h
      · simp at h
      · next c hc =>
        refine ⟨dict, c, hd, hc, ?_⟩
        split at h
        · next hc0 =>
          left
          simp only [Prod.mk.injEq, and_true] at h
          exact ⟨hc0, h.symm⟩
        · next hc0 =>
          right
          refine ⟨hc0, ?_⟩
          split at h
          · simp at h
          · next kidsArrayOrig hk =>
            split at h
            · simp at h
            · next ctx1 dict1 pc1 heq =>
              split at h
              · simp at h
              · next ctx2 heq2 =>
                split at h
                · simp at h
                · next ctx3 heq3 =>
                  split at h
                  · simp at h
                  · next kidsArray hk2 =>
                    split at h
                    · simp at h
                    · next ctx4 heq4 =>
                      simp only [Prod.mk.injEq, and_true] at h
                      exact ⟨kidsArrayOrig, ctx1, dict1, pc1, ctx2, ctx3, kidsArray, ctx4,
                        hk, heq, heq2, heq3, hk2, heq4, h.symm⟩
      · simp at h


theorem writeDictObject_ok (cfg : Config) (ctx ctx' : Context) (nr gen : Nat) (d : Dict)
    (h : writeDictObject cfg ctx nr gen d = (ctx', .ok ())) :
    ctx'.xRefTable = ctx.xRefTable ∧ ctx'.table = (nr, ctx.offset) :: ctx.table ∧
      ctx'.out = ctx.out ++ [.record nr gen d] := by
  unfold writeDictObject at h
  split at h
  · simp at h
  · simp only [Prod.mk.injEq, and_true] at h
    subst h
    exact ⟨rfl, rfl, rfl⟩

theorem Object.isNil_null : Object.null.isNil = true := rfl

theorem writePageEntry_ok (cfg : Config) (ctx ctx' : Context) (d : Dict) (dn en : String)
    (a : PageAttr) (h : writePageEntry cfg ctx d dn en a = (ctx', .ok ())) :
    ctx'.xRefTable = ctx.xRefTable ∧ ctx'.table = ctx.table ∧
      ctx'.out = ctx.out ++ entryEvents d dn [(en, a)] := by
  unfold writePageEntry writeEntry at h
  unfold entryEvents
  cases hf : Dict.Find d en with
  | none =>
    simp [hf, Object.isNil_null] at h
    subst h
    simp [entryEvents]
  | some o =>
    by_cases hn : o.isNil = true
    · simp [hf, hn, Object.isNil_null] at h
      subst h
      simp [entryEvents, hn]
    · by_cases he : cfg.entryFails ctx.offset dn en = true
      · simp [hf, hn, he] at h
      · simp [hf, hn, he] at h
        subst h
        simp [entryEvents, hn]

theorem entryEvents_cons (d : Dict) (dn : String) (e : String × PageAttr)
    (es : List (String × PageAttr)) :
    entryEvents d dn (e :: es) = entryEvents d dn [e] ++ entryEvents d dn es := by
  obtain ⟨en, a⟩ := e
  simp only [entryEvents]
  split
  · rfl
  · split <;> simp

theorem writePageEntries_ok (cfg : Config) (d : Dict) (dn : String)
    (es : List (String × PageAttr)) (ctx ctx' : Context)
    (h : writePageEntries cfg d dn ctx es = (ctx', .ok ())) :
    ctx'.xRefTable = ctx.xRefTable ∧ ctx'.table = ctx.table ∧
      ctx'.out = ctx.out ++ entryEvents d dn es := by
  induction es generalizing ctx with
  | nil =>
    simp [writePageEntries] at h
    subst h
    simp [entryEvents]
  | cons e es ih =>
    obtain ⟨en, a⟩ := e
    unfold writePageEntries at h
    split at h
    · simp at h
    · next ctx1 heq =>
      obtain ⟨hx, ht, ho⟩ := writePageEntry_ok cfg ctx ctx1 d dn en a heq
      obtain ⟨hx2, ht2, ho2⟩ := ih ctx1 h
      refine ⟨hx2.trans hx, ht2.trans ht, ?_⟩
      rw [ho2, ho, entryEvents_cons d dn (en, a) es]
      simp

theorem writePageDict_ok (cfg : Config) (ctx ctx' : Context) (indRef : IndirectRef)
    (pageDict : Dict) (h : writePageDict cfg ctx indRef pageDict = (ctx', .ok ())) :
    ctx'.xRefTable = (if cfg.reducedFeatureSet then
        ctx.xRefTable.updateDict indRef.objectNumber (fun d => Dict.Delete d "Annots")
      else ctx.xRefTable) ∧
    ctx'.table = (indRef.objectNumber, ctx.offset) :: ctx.table ∧
    ctx'.out = ctx.out ++
      .record indRef.objectNumber indRef.generationNumber
          (if cfg.reducedFeatureSet then Dict.Delete pageDict "Annots" else pageDict) ::
        entryEvents (if cfg.reducedFeatureSet then Dict.Delete pageDict "Annots" else pageDict)
          "pageDict" pageDictEntries := by
  unfold writePageDict at h
  simp only [] at h
  split at h
  · simp at h
  · next ctx1 heq =>
    obtain ⟨hx, ht, ho⟩ := writeDictObject_ok _ _ _ _ _ _ heq
    split at h
    · simp at h
    · obtain ⟨hx2, ht2, ho2⟩ := writePageEntries_ok _ _ _ _ _ _ h
      refine ⟨?_, ?_, ?_⟩
      · rw [hx2, hx]; split <;> rfl
      · rw [ht2, ht]; split <;> rfl
      · rw [ho2, ho]
        cases cfg.reducedFeatureSet <;> simp

theorem prepare_ok (cfg : Config) (ctx ctx1 : Context) (nr : Nat) (dict dict1 : Dict)
    (kids : List Object) (pc pc1 : Int)
    (h : (if cfg.extractPageNr > 0 then prepareSinglePageWrite cfg ctx nr dict kids pc
      else (ctx, dict, pc, .ok ())) = (ctx1, dict1, pc1, .ok ())) :
    ctx1.table = ctx.table ∧ ctx1.out = ctx.out ∧
    ((¬ cfg.extractPageNr > 0 ∧ ctx1 = ctx ∧ dict1 = dict ∧ pc1 = pc) ∨
      (cfg.extractPageNr > 0 ∧ ∃ kid,
        locateKidForPageNumber cfg ctx kids pc cfg.extractPageNr = (pc1, .ok kid) ∧
        ctx1 = { ctx with xRefTable := ctx.xRefTable.updateDict nr (fun d =>
          Dict.Update (Dict.Update d "Kids" (.array [kid])) "Count" (.integer 1)) } ∧
        dict1 = Dict.Update (Dict.Update dict "Kids" (.array [kid])) "Count" (.integer 1))) := by
  split at h
  · next hpos =>
    unfold prepareSinglePageWrite at h
    split at h
    · simp at h
    · next pc1' kid heq =>
      simp only [Prod.mk.injEq, and_true] at h
      obtain ⟨h1, h2, h3⟩ := h
      subst h1 h2 h3
      exact ⟨rfl, rfl, Or.inr ⟨hpos, kid, heq, rfl, rfl⟩⟩
  · next hneg =>
    simp only [Prod.mk.injEq, and_true] at h
    obtain ⟨h1, h2, h3⟩ := h
    subst h1 h2 h3
    exact ⟨rfl, rfl, Or.inl ⟨hneg, rfl, rfl, rfl⟩⟩


/-! ## Extraction round-trip (C2) -/

theorem SameKidsCount.unchanged (x : XRefTable) : SameKidsCount x x := fun _ => ⟨rfl, rfl⟩

theorem SameKidsCount.comp {x y z : XRefTable} (h1 : SameKidsCount x y)
    (h2 : SameKidsCount y z) : SameKidsCount x z :=
  fun n => ⟨(h2 n).1.trans (h1 n).1, (h2 n).2.trans (h1 n).2⟩

theorem XRefTable.nodeEntry_updateDict (x : XRefTable) (nr : Nat) (f : Dict → Dict) (n : Nat)
    (key : String) :
    XRefTable.nodeEntry (XRefTable.updateDict x nr f) n key =
      if n = nr then
        (match XRefTable.find x n with
          | some (.object (.dict d)) => some (Dict.Find (f d) key)
          | _ => none)
      else XRefTable.nodeEntry x n key := by
  unfold XRefTable.nodeEntry
  rw [XRefTable.find_updateDict]
  by_cases hn : n = nr
  · simp only [hn, if_true]
    cases h : XRefTable.find x nr with
    | none => simp
    | some e =>
      cases e with
      | broken => simp [XRefEntry.mapDict]
      | object o => cases o <;> simp [XRefEntry.mapDict]
  · simp only [hn, if_false]

theorem XRefTable.nodeEntry_updateDict_same (x : XRefTable) (nr : Nat) (f : Dict → Dict)
    (key : String) (hf : ∀ d, Dict.Find (f d) key = Dict.Find d key) (n : Nat) :
    XRefTable.nodeEntry (XRefTable.updateDict x nr f) n key = XRefTable.nodeEntry x n key := by
  rw [XRefTable.nodeEntry_updateDict]
  split
  · unfold XRefTable.nodeEntry
    cases h : XRefTable.find x n with
    | none => simp
    | some e =>
      cases e with
      | broken => simp
      | object o => cases o <;> simp [hf]
  · rfl

theorem writePageDict_sameKidsCount (cfg : Config) (ctx ctx' : Context) (indRef : IndirectRef)
    (pageDict : Dict) (h : writePageDict cfg ctx indRef pageDict = (ctx', .ok ())) :
    SameKidsCount ctx.xRefTable ctx'.xRefTable := by
  obtain ⟨hx, _, _⟩ := writePageDict_ok cfg ctx ctx' indRef pageDict h
  rw [hx]
  split
  · intro n
    exact ⟨XRefTable.nodeEntry_updateDict_same _ _ _ _
        (fun d => Dict.Find_Delete d "Annots" "Kids" (by decide)) n,
      XRefTable.nodeEntry_updateDict_same _ _ _ _
        (fun d => Dict.Find_Delete d "Annots" "Count" (by decide)) n⟩
  · exact SameKidsCount.unchanged _

theorem writeKidsWith_sameKidsCount (cfg : Config)
    (recur : Context → IndirectRef → Int → Context × Except Failure Unit)
    (hrec : ∀ ctx r pc ctx', recur ctx r pc = (ctx', .ok ()) →
      SameKidsCount ctx.xRefTable ctx'.xRefTable)
    (kids : List Object) (ctx ctx' : Context) (pc : Int)
    (h : writeKidsWith cfg recur ctx kids pc = (ctx', .ok ())) :
    SameKidsCount ctx.xRefTable ctx'.xRefTable := by
  induction kids generalizing ctx with
  | nil =>
    simp [writeKidsWith] at h
    subst h
    exact SameKidsCount.unchanged _
  | cons obj rest ih =>
    unfold writeKidsWith at h
    split at h
    · simp at h
    · next ctx1 heq =>
      have := pageNodeDict_fst ctx obj; rw [heq] at this
      simp at this; subst this; exact ih _ h
    · next ctx1 d indRef heq =>
      obtain ⟨h1, _, _, _, _⟩ := pageNodeDict_some ctx ctx1 obj d indRef heq
      subst h1
      simp only [] at h
      split at h
      · simp at h
      · next ctx2 heq2 =>
        have e1 : SameKidsCount ctx1.xRefTable ctx2.xRefTable := by
          split at heq2
          · exact hrec _ _ _ _ heq2
          · split at heq2
            · exact writePageDict_sameKidsCount _ _ _ _ _ heq2
            · simp at heq2
        exact e1.comp (ih _ h)

theorem writePagesDictBody_sameKidsCount (cfg : Config)
    (recur : Context → IndirectRef → Int → Context × Except Failure Unit)
    (hrec : ∀ ctx r pc ctx', recur ctx r pc = (ctx', .ok ()) →
      SameKidsCount ctx.xRefTable ctx'.xRefTable)
    (ctx ctx' : Context) (indRef : IndirectRef) (pc : Int)
    (h : writePagesDictBody cfg recur ctx indRef pc = (ctx', .ok ())) :
    SameKidsCount ctx.xRefTable ctx'.xRefTable := by
  obtain ⟨_, dict, c, hd, hc, hcases⟩ := writePagesDictBody_ok cfg recur ctx ctx' indRef pc h
  rcases hcases with ⟨_, he⟩ | ⟨_, kidsArrayOrig, ctx1, dict1, pc1, ctx2, ctx3, kidsArray, ctx4,
    hk, hprep, hw, hes, _, hkids, he⟩
  · subst he; exact SameKidsCount.unchanged _
  · rw [XRefTable.DereferenceDict_eq_some] at hd
    rw [Dict.ArrayEntry_eq_some] at hk
    obtain ⟨hx2, _, _⟩ := writeDictObject_ok _ _ _ _ _ _ hw
    obtain ⟨hx3, _, _⟩ := writePageEntries_ok _ _ _ _ _ _ hes
    have h34 := writeKidsWith_sameKidsCount cfg recur hrec kidsArray ctx3 ctx4 pc1 hkids
    rw [hx3, hx2] at h34
    -- the table after preparation: object `indRef` still holds a dictionary,
    -- every other object is untouched
    have h1 : ∀ n key, n ≠ indRef.objectNumber →
        XRefTable.nodeEntry ctx1.xRefTable n key = XRefTable.nodeEntry ctx.xRefTable n key := by
      intro n key hn
      obtain ⟨_, _, hp⟩ := prepare_ok _ _ _ _ _ _ _ _ _ hprep
      rcases hp with ⟨_, hp, _, _⟩ | ⟨_, kid, _, hp, _⟩
      · rw [hp]
      · rw [hp]; simp [XRefTable.nodeEntry_updateDict, hn]
    have h1' : ∃ d1, XRefTable.find ctx1.xRefTable indRef.objectNumber =
        some (.object (.dict d1)) := by
      obtain ⟨_, _, hp⟩ := prepare_ok _ _ _ _ _ _ _ _ _ hprep
      rcases hp with ⟨_, hp, _, _⟩ | ⟨_, kid, _, hp, _⟩
      · rw [hp]; exact ⟨dict, hd⟩
      · rw [hp]; simp [XRefTable.find_updateDict, hd, XRefEntry.mapDict]
    obtain ⟨d1, hd1⟩ := h1'
    have h4 : ∃ d4, XRefTable.find ctx4.xRefTable indRef.objectNumber =
        some (.object (.dict d4)) := by
      have := (h34 indRef.objectNumber).1
      unfold XRefTable.nodeEntry at this
      rw [hd1] at this
      cases hf : XRefTable.find ctx4.xRefTable indRef.objectNumber with
      | none => simp [hf] at this
      | some e =>
        cases e with
        | broken => simp [hf] at this
        | object o => cases o <;> simp [hf] at this; exact ⟨_, rfl⟩
    obtain ⟨d4, hd4⟩ := h4
    subst he
    intro n
    by_cases hn : n = indRef.objectNumber
    · subst hn
      simp only [XRefTable.nodeEntry_updateDict, if_true, hd4]
      simp [XRefTable.nodeEntry, hd, Dict.Find_Update, Object.isNil, hk, hc]
    · simp only [XRefTable.nodeEntry_updateDict, hn, if_false]
      exact ⟨((h34 n).1).trans (h1 n _ hn), ((h34 n).2).trans (h1 n _ hn)⟩

theorem writePagesDict_sameKidsCount (cfg : Config) (fuel : Nat) (ctx ctx' : Context)
    (indRef : IndirectRef) (pc : Int)
    (h : writePagesDict cfg fuel ctx indRef pc = (ctx', .ok ())) :
    SameKidsCount ctx.xRefTable ctx'.xRefTable := by
  induction fuel generalizing ctx ctx' indRef pc with
  | zero =>
    exact writePagesDictBody_sameKidsCount cfg _ (fun _ _ _ _ hh => by simp at hh) _ _ _ _ h
  | succ n ih =>
    exact writePagesDictBody_sameKidsCount cfg _ (fun c r p c' hh => ih c c' r p hh) _ _ _ _ h


/-- C2: after a successful `writePagesDict` (in extraction mode, and also outside
it) every object of the table, hence the root and every internal node the pass
visited, holds the same `Kids` and the same `Count` as before the call. -/
theorem writePagesDict_restores_on_success (cfg : Config) (fuel : Nat) (ctx ctx' : Context)
    (indRef : IndirectRef) (pageCount : Int)
    (h : writePagesDict cfg fuel ctx indRef pageCount = (ctx', .ok ())) :
    ∀ n, XRefTable.nodeEntry ctx'.xRefTable n "Kids" = XRefTable.nodeEntry ctx.xRefTable n "Kids" ∧
      XRefTable.nodeEntry ctx'.xRefTable n "Count" =
        XRefTable.nodeEntry ctx.xRefTable n "Count" :=
  writePagesDict_sameKidsCount cfg fuel ctx ctx' indRef pageCount h

/-- C2 at the 3-leaf document: extraction of ordinal 2 succeeds, the root is
written with `Kids = [3 0 R]`, `Count = 1`, and afterwards holds its three kids
and `Count = 3` again. -/
theorem writePagesDict_restores_on_success_witness :
    (writePagesDict (exampleConfig 2 (fun _ => false) true) 1 (startContext threeLeafDoc)
      ⟨1, 0⟩ 0).2 = .ok () ∧
    (writePagesDict (exampleConfig 2 (fun _ => false) true) 1 (startContext threeLeafDoc)
      ⟨1, 0⟩ 0).1.out.head? =
        some (.record 1 0 (examplePages 1 [.indirectRef 3 0])) ∧
    XRefTable.nodeEntry threeLeafDoc 1 "Kids" =
      some (some (.array [.indirectRef 2 0, .indirectRef 3 0, .indirectRef 4 0])) ∧
    XRefTable.nodeEntry threeLeafDoc 1 "Count" = some (some (.integer 3)) ∧
    (XRefTable.nodeEntry (writePagesDict (exampleConfig 2 (fun _ => false) true) 1
        (startContext threeLeafDoc) ⟨1, 0⟩ 0).1.xRefTable 1 "Kids" =
        XRefTable.nodeEntry (startContext threeLeafDoc).xRefTable 1 "Kids" ∧
      XRefTable.nodeEntry (writePagesDict (exampleConfig 2 (fun _ => false) true) 1
        (startContext threeLeafDoc) ⟨1, 0⟩ 0).1.xRefTable 1 "Count" =
        XRefTable.nodeEntry (startContext threeLeafDoc).xRefTable 1 "Count") :=
  ⟨rfl, rfl, rfl, rfl,
    writePagesDict_restores_on_success (exampleConfig 2 (fun _ => false) true) 1
      (startContext threeLeafDoc) _ ⟨1, 0⟩ 0 rfl 1⟩

/-! ## Page trees in the table -/

mutual
theorem PageTree.leafCount_nonneg : ∀ T : PageTree, 0 ≤ T.leafCount
  | .null => by simp [PageTree.leafCount]
  | .page _ _ _ => by simp [PageTree.leafCount]
  | .pages _ _ _ kids => by
    simp only [PageTree.leafCount]; exact PageTree.leafCounts_nonneg kids
theorem PageTree.leafCounts_nonneg : ∀ ks : List PageTree, 0 ≤ PageTree.leafCounts ks
  | [] => by simp [PageTree.leafCounts]
  | k :: ks => by
    have h1 := PageTree.leafCount_nonneg k
    have h2 := PageTree.leafCounts_nonneg ks
    simp only [PageTree.leafCounts]; omega
end

mutual
theorem PageTree.InTable_congr (x x' : XRefTable) :
    ∀ T : PageTree, (∀ n ∈ T.objNrs, XRefTable.find x' n = XRefTable.find x n) →
      T.InTable x → T.InTable x'
  | .null => fun _ _ => trivial
  | .page nr gen d => fun hf h => by
    simp only [PageTree.InTable] at h ⊢
    rw [hf nr (by simp [PageTree.objNrs])]
    exact h
  | .pages nr gen d kids => fun hf h => by
    simp only [PageTree.InTable] at h ⊢
    rw [hf nr (by simp [PageTree.objNrs])]
    exact ⟨h.1, h.2.1, h.2.2.1,
      PageTree.InTableList_congr x x' kids
        (fun n hn => hf n (by simp [PageTree.objNrs, hn])) h.2.2.2⟩
theorem PageTree.InTableList_congr (x x' : XRefTable) :
    ∀ ks : List PageTree, (∀ n ∈ PageTree.objNrsList ks, XRefTable.find x' n = XRefTable.find x n) →
      PageTree.InTableList x ks → PageTree.InTableList x' ks
  | [] => fun _ _ => trivial
  | k :: ks => fun hf h => by
    simp only [PageTree.InTableList] at h ⊢
    exact ⟨PageTree.InTable_congr x x' k (fun n hn => hf n (by simp [PageTree.objNrsList, hn])) h.1,
      PageTree.InTableList_congr x x' ks
        (fun n hn => hf n (by simp [PageTree.objNrsList, hn])) h.2⟩
end

/-! ## Locating the kid of an ordinal -/

theorem PageTree.objNrs_subset_of_mem {k : PageTree} {ks : List PageTree} (h : k ∈ ks) :
    ∀ n ∈ k.objNrs, n ∈ PageTree.objNrsList ks := by
  induction ks with
  | nil => simp at h
  | cons a as ih =>
    intro n hn
    simp only [PageTree.objNrsList, List.mem_append]
    rcases List.mem_cons.1 h with h | h
    · subst h; exact Or.inl hn
    · exact Or.inr (ih h n hn)

theorem PageTree.InTable_of_mem {x : XRefTable} {k : PageTree} {ks : List PageTree}
    (h : k ∈ ks) (hin : PageTree.InTableList x ks) : k.InTable x := by
  induction ks with
  | nil => simp at h
  | cons a as ih =>
    simp only [PageTree.InTableList] at hin
    rcases List.mem_cons.1 h with h | h
    · subst h; exact hin.1
    · exact ih h hin.2

theorem PageTree.CountsOK_of_mem {k : PageTree} {ks : List PageTree}
    (h : k ∈ ks) (hin : PageTree.CountsOKList ks) : k.CountsOK := by
  induction ks with
  | nil => simp at h
  | cons a as ih =>
    simp only [PageTree.CountsOKList] at hin
    rcases List.mem_cons.1 h with h | h
    · subst h; exact hin.1
    · exact ih h hin.2

theorem PageTree.nodup_of_mem {k : PageTree} {ks : List PageTree} (h : k ∈ ks)
    (hn : (PageTree.objNrsList ks).Nodup) : k.objNrs.Nodup := by
  induction ks with
  | nil => simp at h
  | cons a as ih =>
    simp only [PageTree.objNrsList, List.nodup_append] at hn
    rcases List.mem_cons.1 h with h | h
    · subst h; exact hn.1
    · exact ih h hn.2.1

theorem PageTree.selectKid_spec (t : Int) (kids : List PageTree) (c : Int)
    (h1 : c < t) (h2 : t ≤ c + PageTree.leafCounts kids) :
    ∃ k cb, PageTree.selectKid t kids c = some (k, cb) ∧ k ∈ kids ∧ cb < t ∧
      t ≤ cb + k.leafCount := by
  induction kids generalizing c with
  | nil => simp [PageTree.leafCounts] at h2; omega
  | cons a as ih =>
    simp only [PageTree.leafCounts] at h2
    unfold PageTree.selectKid
    by_cases hlt : c + a.leafCount < t
    · obtain ⟨k, cb, hs, hm, hb1, hb2⟩ := ih (c + a.leafCount) hlt (by omega)
      exact ⟨k, cb, by simp [hlt, hs], List.mem_cons_of_mem _ hm, hb1, hb2⟩
    · exact ⟨a, c, by simp [hlt], List.mem_cons_self _ _, h1, by omega⟩

theorem PageTree.extractLogKids_eq (cfg : Config) (kids : List PageTree) (c : Int) :
    PageTree.extractLogKids cfg kids c =
      match PageTree.selectKid cfg.extractPageNr kids c with
      | some (k, cb) => k.extractLog cfg cb
      | none => [] := by
  induction kids generalizing c with
  | nil => simp [PageTree.extractLogKids, PageTree.selectKid]
  | cons a as ih =>
    unfold PageTree.extractLogKids PageTree.selectKid
    by_cases hlt : c + a.leafCount < cfg.extractPageNr
    · simp only [hlt, if_true]; exact ih _
    · simp only [hlt, if_false]

theorem XRefTable.DereferenceDict_of_find {x : XRefTable} {nr : Nat} (gen : Nat) {d : Dict}
    (h : XRefTable.find x nr = some (.object (.dict d))) :
    XRefTable.DereferenceDict x ⟨nr, gen⟩ = some (some d) :=
  (XRefTable.DereferenceDict_eq_some x ⟨nr, gen⟩ d).2 h

/-- On the references to the trees `kids`, held by the table with correct counts,
`locateKidForPageNumber` returns the reference to the kid that `selectKid`
selects; the counter is left at the ordinal for a leaf and at the number of
leaves before the kid for an internal node. -/
theorem locateKidForPageNumber_tree (cfg : Config) (ctx : Context) (pn : Int)
    (kids : List PageTree) (c : Int)
    (hin : PageTree.InTableList ctx.xRefTable kids) (hc : PageTree.CountsOKList kids)
    (h1 : c < cfg.extractPageNr) (h2 : cfg.extractPageNr ≤ c + PageTree.leafCounts kids) :
    ∃ k cb, PageTree.selectKid cfg.extractPageNr kids c = some (k, cb) ∧
      locateKidForPageNumber cfg ctx (kids.map PageTree.ref) c pn =
        ((match k with | .pages _ _ _ _ => cb | _ => cfg.extractPageNr), .ok k.ref) ∧
      (∀ nr gen d, k = .page nr gen d → cb + 1 = cfg.extractPageNr) ∧ k ≠ .null := by
  induction kids generalizing c with
  | nil => simp [PageTree.leafCounts] at h2; omega
  | cons a as ih =>
    simp only [PageTree.leafCounts] at h2
    simp only [PageTree.InTableList] at hin
    simp only [PageTree.CountsOKList] at hc
    cases a with
    | null =>
      simp only [PageTree.leafCount, add_zero] at h2
      obtain ⟨k, cb, hs, hl, hp, hk⟩ := ih c hin.2 hc.2 h1 (by omega)
      refine ⟨k, cb, ?_, ?_, hp, hk⟩
      · simp [PageTree.selectKid, PageTree.leafCount, h1, hs]
      · simpa [locateKidForPageNumber, PageTree.ref] using hl
    | page nr gen d =>
      simp only [PageTree.leafCount] at h2
      have hd := XRefTable.DereferenceDict_of_find gen hin.1.1
      by_cases hlt : c + 1 < cfg.extractPageNr
      · obtain ⟨k, cb, hs, hl, hp, hk⟩ := ih (c + 1) hin.2 hc.2 hlt (by omega)
        refine ⟨k, cb, ?_, ?_, hp, hk⟩
        · simp [PageTree.selectKid, PageTree.leafCount, hlt, hs]
        · have hne : ¬ c + 1 = cfg.extractPageNr := by omega
          simpa [locateKidForPageNumber, PageTree.ref, hd, hin.1.2, hne] using hl
      · have heq : c + 1 = cfg.extractPageNr := by omega
        refine ⟨.page nr gen d, c, ?_, ?_, fun _ _ _ _ => heq, by simp⟩
        · simp [PageTree.selectKid, PageTree.leafCount, hlt]
        · simp [locateKidForPageNumber, PageTree.ref, hd, hin.1.2, heq]
    | pages nr gen d kids' =>
      simp only [PageTree.leafCount] at h2
      simp only [PageTree.InTable] at hin
      simp only [PageTree.CountsOK] at hc
      have hd := XRefTable.DereferenceDict_of_find gen hin.1.1
      by_cases hlt : c + PageTree.leafCounts kids' < cfg.extractPageNr
      · obtain ⟨k, cb, hs, hl, hp, hk⟩ := ih _ hin.2 hc.2 hlt (by omega)
        refine ⟨k, cb, ?_, ?_, hp, hk⟩
        · simp [PageTree.selectKid, PageTree.leafCount, hlt, hs]
        · simpa [locateKidForPageNumber, PageTree.ref, hd, hin.1.2.1, hc.1.1, hlt] using hl
      · refine ⟨.pages nr gen d kids', c, ?_, ?_, by simp, by simp⟩
        · simp [PageTree.selectKid, PageTree.leafCount, hlt]
        · simp [locateKidForPageNumber, PageTree.ref, hd, hin.1.2.1, hc.1.1, hlt]

/-! ## The extraction pass over a tree (C3, C7) -/

/-- Inversion of a successful `writeKidsWith` on a non-empty sequence. -/
theorem writeKidsWith_cons_ok (cfg : Config)
    (recur : Context → IndirectRef → Int → Context × Except Failure Unit)
    (ctx ctx' : Context) (obj : Object) (rest : List Object) (pc : Int)
    (h : writeKidsWith cfg recur ctx (obj :: rest) pc = (ctx', .ok ())) :
    (pageNodeDict ctx obj = (ctx, .ok none) ∧ writeKidsWith cfg recur ctx rest pc = (ctx', .ok ())) ∨
    ∃ d r ctx2, pageNodeDict ctx obj = (ctx, .ok (some (d, r))) ∧
      ((Dict.Type d = some "Pages" ∧ recur ctx r pc = (ctx2, .ok ())) ∨
        (Dict.Type d = some "Page" ∧ writePageDict cfg ctx r d = (ctx2, .ok ()))) ∧
      writeKidsWith cfg recur ctx2 rest pc = (ctx', .ok ()) := by
  unfold writeKidsWith at h
  split at h
  · simp at h
  · next ctx1 heq =>
    have := pageNodeDict_fst ctx obj; rw [heq] at this
    simp at this; subst this
    exact Or.inl ⟨heq, h⟩
  · next ctx1 d indRef heq =>
    have := pageNodeDict_fst ctx obj; rw [heq] at this
    simp at this; subst this
    simp only [] at h
    split at h
    · simp at h
    · next ctx2 heq2 =>
      refine Or.inr ⟨d, indRef, ctx2, heq, ?_, h⟩
      split at heq2
      · next ht => exact Or.inl ⟨ht, heq2⟩
      · split at heq2
        · next ht => exact Or.inr ⟨ht, heq2⟩
        · simp at heq2

theorem pageNodeDict_of_find (ctx : Context) (nr gen : Nat) (d : Dict) (t : String)
    (hf : XRefTable.find ctx.xRefTable nr = some (.object (.dict d)))
    (ht : Dict.Type d = some t) (hw : ctx.HasWriteOffset nr = false) :
    pageNodeDict ctx (.indirectRef nr gen) = (ctx, .ok (some (d, ⟨nr, gen⟩))) := by
  simp [pageNodeDict, hw, XRefTable.DereferenceDict_of_find gen hf, ht]

theorem PageTree.leafCount_pos_ne_null {k : PageTree} (h : k ≠ .null) :
    ∃ nr gen d, k = .page nr gen d ∨ ∃ kids, k = .pages nr gen d kids := by
  cases k with
  | null => exact absurd rfl h
  | page nr gen d => exact ⟨nr, gen, d, Or.inl rfl⟩
  | pages nr gen d kids => exact ⟨nr, gen, d, Or.inr ⟨kids, rfl⟩⟩

theorem Context.HasWriteOffset_cons (ctx ctx' : Context) (nr off n : Nat)
    (ht : ctx'.table = (nr, off) :: ctx.table) (hne : n ≠ nr)
    (hw : ctx.HasWriteOffset n = false) : ctx'.HasWriteOffset n = false := by
  unfold Context.HasWriteOffset at hw ⊢
  rw [ht]
  simp only [List.any_cons, hw, Bool.or_false]
  simpa using fun h => hne h.symm

theorem entryEvents_congr (d d' : Dict) (dn : String) (es : List (String × PageAttr))
    (h : ∀ e ∈ es, Dict.Find d' e.1 = Dict.Find d e.1) :
    entryEvents d' dn es = entryEvents d dn es := by
  induction es with
  | nil => rfl
  | cons e es ih =>
    obtain ⟨en, a⟩ := e
    have h1 := h (en, a) (List.mem_cons_self _ _)
    simp only [] at h1
    simp only [entryEvents, h1, ih (fun e he => h e (List.mem_cons_of_mem _ he))]

theorem entryEvents_singleKidRecord (d : Dict) (kid : Object) :
    entryEvents (singleKidRecord d kid) "pagesDict" pagesDictEntries =
      entryEvents d "pagesDict" pagesDictEntries := by
  apply entryEvents_congr
  intro e he
  have hk : ∀ k : String, k ≠ "Kids" → k ≠ "Count" →
      Dict.Find (singleKidRecord d kid) k = Dict.Find d k := by
    intro k h1 h2
    unfold singleKidRecord
    rw [Dict.Find_Update _ _ _ _ (by rfl), if_neg h2, Dict.Find_Update _ _ _ _ (by rfl), if_neg h1]
  simp only [pagesDictEntries, List.mem_cons, List.mem_singleton, List.not_mem_nil, or_false] at he
  rcases he with he | he | he | he <;> subst he <;> exact hk _ (by decide) (by decide)

/-- One step of the induction for the extraction pass: if the recursive call
writes the extraction log for every tree, so does the body. -/
theorem writePagesDictBody_extractLog (cfg : Config)
    (recur : Context → IndirectRef → Int → Context × Except Failure Unit)
    (hrec : ∀ nr gen d kids (ctx ctx' : Context) (c : Int),
      (PageTree.pages nr gen d kids).InTable ctx.xRefTable →
      (PageTree.pages nr gen d kids).CountsOK →
      (PageTree.pages nr gen d kids).objNrs.Nodup →
      (∀ n ∈ (PageTree.pages nr gen d kids).objNrs, ctx.HasWriteOffset n = false) →
      c < cfg.extractPageNr → cfg.extractPageNr ≤ c + PageTree.leafCounts kids →
      recur ctx ⟨nr, gen⟩ c = (ctx', .ok ()) →
      ctx'.out = ctx.out ++ (PageTree.pages nr gen d kids).extractLog cfg c)
    (hpos : 0 < cfg.extractPageNr)
    (nr gen : Nat) (d : Dict) (kids : List PageTree) (ctx ctx' : Context) (c : Int)
    (hin : (PageTree.pages nr gen d kids).InTable ctx.xRefTable)
    (hc : (PageTree.pages nr gen d kids).CountsOK)
    (hnd : (PageTree.pages nr gen d kids).objNrs.Nodup)
    (hun : ∀ n ∈ (PageTree.pages nr gen d kids).objNrs, ctx.HasWriteOffset n = false)
    (h1 : c < cfg.extractPageNr) (h2 : cfg.extractPageNr ≤ c + PageTree.leafCounts kids)
    (h : writePagesDictBody cfg recur ctx ⟨nr, gen⟩ c = (ctx', .ok ())) :
    ctx'.out = ctx.out ++ (PageTree.pages nr gen d kids).extractLog cfg c := by
  simp only [PageTree.InTable] at hin
  simp only [PageTree.CountsOK] at hc
  simp only [PageTree.objNrs, List.nodup_cons] at hnd
  simp only [PageTree.objNrs, List.mem_cons, forall_eq_or_imp] at hun
  obtain ⟨hfind, htype, hkids, hinl⟩ := hin
  obtain ⟨_, dict, c0, hd, hcount, hcases⟩ := writePagesDictBody_ok cfg recur ctx ctx' _ c h
  rw [XRefTable.DereferenceDict_eq_some] at hd
  simp only [] at hd
  rw [hfind] at hd
  simp only [Option.some.injEq, XRefEntry.object.injEq, Object.dict.injEq] at hd
  subst hd
  rw [hc.1] at hcount
  simp only [Option.some.injEq, Object.integer.injEq] at hcount
  subst hcount
  rcases hcases with ⟨h0, _⟩ | ⟨_, kidsArrayOrig, ctx1, dict1, pc1, ctx2, ctx3, kidsArray, ctx4,
    hk, hprep, hw, hes, hk2, hkw, he⟩
  · omega
  rw [Dict.ArrayEntry_eq_some, hkids] at hk
  simp only [Option.some.injEq, Object.array.injEq] at hk
  subst hk
  obtain ⟨hpt, hpo, hp⟩ := prepare_ok _ _ _ _ _ _ _ _ _ hprep
  rcases hp with ⟨hneg, _⟩ | ⟨_, kid, hloc, hctx1, hdict1⟩
  · exact absurd hpos hneg
  obtain ⟨k, cb, hsel, hloc', hpage, hnull⟩ :=
    locateKidForPageNumber_tree cfg ctx cfg.extractPageNr kids c hinl hc.2 h1 h2
  rw [hloc'] at hloc
  simp only [Prod.mk.injEq, Except.ok.injEq] at hloc
  obtain ⟨hpc1, hkid⟩ := hloc
  subst hkid
  obtain ⟨k', cb', hsel', hmem, hb1, hb2⟩ := PageTree.selectKid_spec _ kids c h1 h2
  rw [hsel] at hsel'
  simp only [Option.some.injEq, Prod.mk.injEq] at hsel'
  obtain ⟨hk', hcb'⟩ := hsel'
  subst hk' hcb'
  obtain ⟨hx2, ht2, ho2⟩ := writeDictObject_ok _ _ _ _ _ _ hw
  obtain ⟨hx3, ht3, ho3⟩ := writePageEntries_ok _ _ _ _ _ _ hes
  have hk2' : kidsArray = [k.ref] := by
    rw [hdict1, Dict.ArrayEntry_eq_some, Dict.Find_Update _ _ _ _ (by rfl)] at hk2
    simp only [show ¬ ("Kids" = "Count") by decide, if_false] at hk2
    rw [Dict.Find_Update _ _ _ _ (by rfl)] at hk2
    simpa using hk2.symm
  subst hk2'
  -- the table after preparation differs from the original one at `nr` only
  have hx1 : ∀ n, n ≠ nr → XRefTable.find ctx3.xRefTable n = XRefTable.find ctx.xRefTable n := by
    intro n hn
    rw [hx3, hx2, hctx1]
    simp [XRefTable.find_updateDict, hn]
  have hsub := PageTree.objNrs_subset_of_mem hmem
  have hkin : k.InTable ctx3.xRefTable :=
    PageTree.InTable_congr ctx.xRefTable ctx3.xRefTable k
      (fun n hn => hx1 n (fun e => hnd.1 (e ▸ hsub n hn)))
      (PageTree.InTable_of_mem hmem hinl)
  have hkun : ∀ n ∈ k.objNrs, ctx3.HasWriteOffset n = false := by
    intro n hn
    have hne : n ≠ nr := fun e => hnd.1 (e ▸ hsub n hn)
    exact Context.HasWriteOffset_cons ctx1 ctx3 nr ctx1.offset n (by rw [ht3, ht2]) hne
      (by simpa [Context.HasWriteOffset, hpt] using hun.2 n (hsub n hn))
  have hlog : (PageTree.pages nr gen d kids).extractLog cfg c =
      .record nr gen dict1 :: (entryEvents dict1 "pagesDict" pagesDictEntries ++
        k.extractLog cfg cb) := by
    have := entryEvents_singleKidRecord d k.ref
    simp only [singleKidRecord] at this
    simp only [PageTree.extractLog, PageTree.selectRef, hsel, PageTree.extractLogKids_eq,
      singleKidRecord, hdict1, this]
  have hout4 : ctx4.out = ctx3.out ++ k.extractLog cfg cb := by
    rcases writeKidsWith_cons_ok cfg recur ctx3 ctx4 k.ref [] pc1 hkw with ⟨hskip, _⟩ |
      ⟨dk, r, ctxk, hpn, hstep, hrest⟩
    · -- the selected kid is neither nil nor written
      cases k with
      | null => exact absurd rfl hnull
      | page nk gk dk' =>
        simp only [PageTree.InTable] at hkin
        rw [PageTree.ref, pageNodeDict_of_find ctx3 nk gk dk' _ hkin.1 hkin.2
          (hkun nk (by simp [PageTree.objNrs]))] at hskip
        simp at hskip
      | pages nk gk dk' kk =>
        simp only [PageTree.InTable] at hkin
        rw [PageTree.ref, pageNodeDict_of_find ctx3 nk gk dk' _ hkin.1 hkin.2.1
          (hkun nk (by simp [PageTree.objNrs]))] at hskip
        simp at hskip
    · simp only [writeKidsWith, Prod.mk.injEq, and_true] at hrest
      subst hrest
      cases k with
      | null => exact absurd rfl hnull
      | page nk gk dk' =>
        simp only [PageTree.InTable] at hkin
        rw [PageTree.ref, pageNodeDict_of_find ctx3 nk gk dk' _ hkin.1 hkin.2
          (hkun nk (by simp [PageTree.objNrs]))] at hpn
        simp only [Prod.mk.injEq, Except.ok.injEq, Option.some.injEq, true_and] at hpn
        obtain ⟨hdk, hr⟩ := hpn
        subst hdk hr
        rcases hstep with ⟨ht, _⟩ | ⟨_, hwp⟩
        · rw [hkin.2] at ht; simp at ht
        · obtain ⟨_, _, ho⟩ := writePageDict_ok _ _ _ _ _ hwp
          rw [ho]; simp [PageTree.extractLog, pageRecord]
      | pages nk gk dk' kk =>
        simp only [PageTree.InTable] at hkin
        have hkin' : (PageTree.pages nk gk dk' kk).InTable ctx3.xRefTable := by
          simp only [PageTree.InTable]; exact hkin
        rw [PageTree.ref, pageNodeDict_of_find ctx3 nk gk dk' _ hkin.1 hkin.2.1
          (hkun nk (by simp [PageTree.objNrs]))] at hpn
        simp only [Prod.mk.injEq, Except.ok.injEq, Option.some.injEq, true_and] at hpn
        obtain ⟨hdk, hr⟩ := hpn
        subst hdk hr
        rcases hstep with ⟨_, hrc⟩ | ⟨ht, _⟩
        · simp only [] at hpc1
          subst hpc1
          simp only [PageTree.leafCount] at hb2
          exact hrec nk gk dk' kk ctx3 ctxk cb hkin' (PageTree.CountsOK_of_mem hmem hc.2)
            (PageTree.nodup_of_mem hmem hnd.2) hkun hb1 hb2 hrc
        · rw [hkin.2.1] at ht; simp at ht
  subst he
  simp only []
  rw [hout4, ho3, ho2, hpo, hlog]
  simp


/-- The extraction pass over a tree held by the table with correct counts, none
of whose nodes is written, for an ordinal inside the tree: a successful
`writePagesDict` appends the extraction log of the tree. -/
theorem writePagesDict_extractLog (cfg : Config) (hpos : 0 < cfg.extractPageNr) (fuel : Nat) :
    ∀ nr gen d kids (ctx ctx' : Context) (c : Int),
      (PageTree.pages nr gen d kids).InTable ctx.xRefTable →
      (PageTree.pages nr gen d kids).CountsOK →
      (PageTree.pages nr gen d kids).objNrs.Nodup →
      (∀ n ∈ (PageTree.pages nr gen d kids).objNrs, ctx.HasWriteOffset n = false) →
      c < cfg.extractPageNr → cfg.extractPageNr ≤ c + PageTree.leafCounts kids →
      writePagesDict cfg fuel ctx ⟨nr, gen⟩ c = (ctx', .ok ()) →
      ctx'.out = ctx.out ++ (PageTree.pages nr gen d kids).extractLog cfg c := by
  induction fuel with
  | zero =>
    intro nr gen d kids ctx ctx' c hin hc hnd hun h1 h2 h
    exact writePagesDictBody_extractLog cfg _
      (fun _ _ _ _ _ _ _ _ _ _ _ _ _ hh => by simp at hh) hpos nr gen d kids ctx ctx' c
      hin hc hnd hun h1 h2 h
  | succ n ih =>
    intro nr gen d kids ctx ctx' c hin hc hnd hun h1 h2 h
    exact writePagesDictBody_extractLog cfg _ ih hpos nr gen d kids ctx ctx' c
      hin hc hnd hun h1 h2 h

/-! ## The path to a leaf -/

theorem recordEvents_append (a b : List Event) :
    recordEvents (a ++ b) = recordEvents a ++ recordEvents b := by
  induction a with
  | nil => rfl
  | cons e es ih => cases e <;> simp [recordEvents, ih]

theorem recordEvents_entryEvents (d : Dict) (dn : String) (es : List (String × PageAttr)) :
    recordEvents (entryEvents d dn es) = [] := by
  induction es with
  | nil => rfl
  | cons e es ih =>
    obtain ⟨en, a⟩ := e
    simp only [entryEvents]
    split
    · exact ih
    · split
      · exact ih
      · simpa [recordEvents] using ih

theorem PageTree.pathToKids_eq (t : Int) (kids : List PageTree) (c : Int) :
    PageTree.pathToKids t kids c =
      match PageTree.selectKid t kids c with
      | some (k, cb) => k.pathTo t cb
      | none => [] := by
  induction kids generalizing c with
  | nil => simp [PageTree.pathToKids, PageTree.selectKid]
  | cons a as ih =>
    unfold PageTree.pathToKids PageTree.selectKid
    by_cases hlt : c + a.leafCount < t
    · simp only [hlt, if_true]; exact ih _
    · simp only [hlt, if_false]

theorem PageTree.selectRef_eq_head (t : Int) (kids : List PageTree) (c : Int) :
    PageTree.selectRef t kids c =
      (match PageTree.pathToKids t kids c with | next :: _ => next.ref | [] => .null) := by
  rw [PageTree.pathToKids_eq]
  unfold PageTree.selectRef
  cases h : PageTree.selectKid t kids c with
  | none => rfl
  | some p =>
    obtain ⟨k, cb⟩ := p
    cases k <;> simp [PageTree.pathTo, PageTree.ref]

mutual
theorem PageTree.recordEvents_extractLog (cfg : Config) :
    ∀ (T : PageTree) (c : Int),
      recordEvents (T.extractLog cfg c) = pathRecords cfg (T.pathTo cfg.extractPageNr c)
  | .null, _ => by simp [PageTree.extractLog, PageTree.pathTo, recordEvents, pathRecords]
  | .page nr gen d, _ => by
    simp [PageTree.extractLog, PageTree.pathTo, recordEvents, pathRecords,
      recordEvents_entryEvents]
  | .pages nr gen d kids, c => by
    simp only [PageTree.extractLog, PageTree.pathTo, recordEvents, pathRecords,
      recordEvents_append, recordEvents_entryEvents, List.nil_append,
      PageTree.recordEvents_extractLogKids cfg kids c, PageTree.selectRef_eq_head]
theorem PageTree.recordEvents_extractLogKids (cfg : Config) :
    ∀ (ks : List PageTree) (c : Int),
      recordEvents (PageTree.extractLogKids cfg ks c) =
        pathRecords cfg (PageTree.pathToKids cfg.extractPageNr ks c)
  | [], _ => by simp [PageTree.extractLogKids, PageTree.pathToKids, recordEvents, pathRecords]
  | k :: ks, c => by
    simp only [PageTree.extractLogKids, PageTree.pathToKids]
    split
    · exact PageTree.recordEvents_extractLogKids cfg ks _
    · exact PageTree.recordEvents_extractLog cfg k c
end

mutual
theorem PageTree.length_leaves : ∀ T : PageTree, (T.leaves.length : Int) = T.leafCount
  | .null => by simp [PageTree.leaves, PageTree.leafCount]
  | .page _ _ _ => by simp [PageTree.leaves, PageTree.leafCount]
  | .pages _ _ _ kids => by
    simp only [PageTree.leaves, PageTree.leafCount]; exact PageTree.length_leavesList kids
theorem PageTree.length_leavesList :
    ∀ ks : List PageTree, ((PageTree.leavesList ks).length : Int) = PageTree.leafCounts ks
  | [] => by simp [PageTree.leavesList, PageTree.leafCounts]
  | k :: ks => by
    have h1 := PageTree.length_leaves k
    have h2 := PageTree.length_leavesList ks
    simp only [PageTree.leavesList, PageTree.leafCounts, List.length_append]
    push_cast
    omega
end

mutual
/-- The path to ordinal `t` ends at the leaf with that ordinal. -/
theorem PageTree.getLast_pathTo (t : Int) :
    ∀ (T : PageTree) (c : Int), c < t → t ≤ c + T.leafCount →
      (T.pathTo t c).getLast? = T.leaves[(t - c - 1).toNat]?
  | .null, c => fun h1 h2 => by simp [PageTree.leafCount] at h2; omega
  | .page nr gen d, c => fun h1 h2 => by
    simp only [PageTree.leafCount] at h2
    have : (t - c - 1).toNat = 0 := by omega
    simp [PageTree.pathTo, PageTree.leaves, this]
  | .pages nr gen d kids, c => fun h1 h2 => by
    simp only [PageTree.leafCount] at h2
    have h := PageTree.getLast_pathToKids t kids c h1 h2
    simp only [PageTree.pathTo, PageTree.leaves]
    rw [← h.1]
    cases hp : PageTree.pathToKids t kids c with
    | nil => exact absurd hp h.2
    | cons a as => simp
theorem PageTree.getLast_pathToKids (t : Int) :
    ∀ (ks : List PageTree) (c : Int), c < t → t ≤ c + PageTree.leafCounts ks →
      (PageTree.pathToKids t ks c).getLast? = (PageTree.leavesList ks)[(t - c - 1).toNat]? ∧
        PageTree.pathToKids t ks c ≠ []
  | [], c => fun h1 h2 => by simp [PageTree.leafCounts] at h2; omega
  | k :: ks, c => fun h1 h2 => by
    simp only [PageTree.leafCounts] at h2
    have hl := PageTree.length_leaves k
    have hnn := PageTree.leafCount_nonneg k
    simp only [PageTree.pathToKids, PageTree.leavesList]
    split
    · next hlt =>
      have ih := PageTree.getLast_pathToKids t ks (c + k.leafCount) hlt (by omega)
      refine ⟨?_, ih.2⟩
      rw [ih.1, List.getElem?_append_right (by omega)]
      congr 1
      omega
    · next hge =>
      have ih := PageTree.getLast_pathTo t k c h1 (by omega)
      refine ⟨?_, ?_⟩
      · rw [ih, List.getElem?_append_left (by omega)]
      · cases k with
        | null => simp [PageTree.leafCount] at hge h2; omega
        | page _ _ _ => simp [PageTree.pathTo]
        | pages _ _ _ _ => simp [PageTree.pathTo]
end

/-! ## Extraction writes the path to the leaf (C3) -/

theorem Context.HasWriteOffset_of_table_nil (ctx : Context) (h : ctx.table = []) (n : Nat) :
    ctx.HasWriteOffset n = false := by
  simp [Context.HasWriteOffset, h]

/-- C3: for a tree-shaped page tree held by the table, with correct counts, and
a target ordinal `1 ≤ t ≤` the root's leaf count, a successful `writePagesDict`
on the root with `ExtractPageNr = t`, counter 0 and an empty written-set appends
a log whose records are, in this order, exactly those of the path from the root
to the `t`-th leaf in document order: every internal node of the path with `Kids`
holding only the reference to the next node of the path and `Count = 1`, then
the leaf; no other record is written. -/
theorem writePagesDict_extracts_path (cfg : Config) (fuel : Nat) (nr gen : Nat) (d : Dict)
    (kids : List PageTree) (ctx ctx' : Context)
    (hin : (PageTree.pages nr gen d kids).InTable ctx.xRefTable)
    (hc : (PageTree.pages nr gen d kids).CountsOK)
    (hnd : (PageTree.pages nr gen d kids).objNrs.Nodup)
    (hw : ctx.table = [])
    (h1 : 1 ≤ cfg.extractPageNr)
    (h2 : cfg.extractPageNr ≤ (PageTree.pages nr gen d kids).leafCount)
    (h : writePagesDict cfg fuel ctx ⟨nr, gen⟩ 0 = (ctx', .ok ())) :
    ∃ new, ctx'.out = ctx.out ++ new ∧
      recordEvents new =
        pathRecords cfg ((PageTree.pages nr gen d kids).pathTo cfg.extractPageNr 0) ∧
      ((PageTree.pages nr gen d kids).pathTo cfg.extractPageNr 0).getLast? =
        (PageTree.pages nr gen d kids).leaves[(cfg.extractPageNr - 1).toNat]? := by
  have h2' : cfg.extractPageNr ≤ 0 + PageTree.leafCounts kids := by
    simpa [PageTree.leafCount] using h2
  refine ⟨_, writePagesDict_extractLog cfg (by omega) fuel nr gen d kids ctx ctx' 0 hin hc hnd
    (fun n _ => Context.HasWriteOffset_of_table_nil ctx hw n) (by omega) h2' h,
    PageTree.recordEvents_extractLog cfg _ 0, ?_⟩
  have := PageTree.getLast_pathTo cfg.extractPageNr (PageTree.pages nr gen d kids) 0 (by omega)
    (by omega)
  simpa using this

theorem twoLevelTree_inTable : twoLevelTree.InTable twoLevelDoc := by
  simp [twoLevelTree, twoLevelDoc, PageTree.InTable, PageTree.InTableList, XRefTable.find,
    examplePages, examplePage, Dict.Type, Dict.Find, PageTree.ref]

theorem twoLevelTree_countsOK : twoLevelTree.CountsOK := by
  simp [twoLevelTree, PageTree.CountsOK, PageTree.CountsOKList, examplePages, Dict.Find,
    PageTree.leafCounts, PageTree.leafCount]

theorem twoLevelTree_nodup : twoLevelTree.objNrs.Nodup := by
  simp [twoLevelTree, PageTree.objNrs, PageTree.objNrsList]

/-- C3 at the two-level document, ordinal 3: the records written are the root
with `Kids = [5 0 R]`, subtree B with `Kids = [6 0 R]`, both with `Count = 1`,
and leaf 6. -/
theorem writePagesDict_extracts_path_witness :
    twoLevelTree.InTable (startContext twoLevelDoc).xRefTable ∧ twoLevelTree.CountsOK ∧
    twoLevelTree.objNrs.Nodup ∧
    (writePagesDict (exampleConfig 3 (fun _ => false) false) 1 (startContext twoLevelDoc)
      ⟨1, 0⟩ 0).2 = .ok () ∧
    pathRecords (exampleConfig 3 (fun _ => false) false) (twoLevelTree.pathTo 3 0) =
      [.record 1 0 (examplePages 1 [.indirectRef 5 0]),
       .record 5 0 (examplePages 1 [.indirectRef 6 0]),
       .record 6 0 (examplePage 5)] ∧
    ∃ new, (writePagesDict (exampleConfig 3 (fun _ => false) false) 1
        (startContext twoLevelDoc) ⟨1, 0⟩ 0).1.out = (startContext twoLevelDoc).out ++ new ∧
      recordEvents new =
        pathRecords (exampleConfig 3 (fun _ => false) false) (twoLevelTree.pathTo 3 0) ∧
      (twoLevelTree.pathTo 3 0).getLast? = twoLevelTree.leaves[((3 : Int) - 1).toNat]? :=
  ⟨twoLevelTree_inTable, twoLevelTree_countsOK, twoLevelTree_nodup, rfl, rfl,
    writePagesDict_extracts_path (exampleConfig 3 (fun _ => false) false) 1 1 0 _ _
      (startContext twoLevelDoc) _ twoLevelTree_inTable twoLevelTree_countsOK
      twoLevelTree_nodup rfl (by decide) (by decide) rfl⟩

/-! ## Inheritable attributes (C7) -/

theorem entryEvents_eq_filterMap (d : Dict) (dn : String) (es : List (String × PageAttr)) :
    entryEvents d dn es = (es.map Prod.fst).filterMap (definedEntry d dn) := by
  induction es with
  | nil => rfl
  | cons e es ih =>
    obtain ⟨en, a⟩ := e
    simp only [entryEvents, List.map_cons, List.filterMap_cons, definedEntry]
    cases Dict.Find d en with
    | none => simpa using ih
    | some o =>
      by_cases hn : o.isNil = true
      · simpa [hn] using ih
      · simpa [hn] using ih

theorem entryEvents_pagesDictEntries (d : Dict) :
    entryEvents d "pagesDict" pagesDictEntries =
      ["Resources", "MediaBox", "CropBox", "Rotate"].filterMap (definedEntry d "pagesDict") := by
  rw [entryEvents_eq_filterMap]
  rfl

/-- C7: (1) in a successful extraction pass over a tree-shaped page tree with
correct counts, for a valid ordinal, the log is the extraction log of the tree:
for every internal node on the path to the leaf the node's record, then the
attribute events of the node, then the log of the next node of the path.
(2) Outside extraction mode a successful `writePagesDict` on a node with non-zero
`Count` appends the node's record, then the attribute events of the node, and
then what `writeKids` appends for its `Kids`. (3) The attribute events of a node
are those of `Resources`, `MediaBox`, `CropBox`, `Rotate`, in this order, each
if the node defines it, and no other. -/
theorem writePagesDict_inheritable_attributes :
    (∀ (cfg : Config) (fuel nr gen : Nat) (d : Dict) (kids : List PageTree)
        (ctx ctx' : Context),
      (PageTree.pages nr gen d kids).InTable ctx.xRefTable →
      (PageTree.pages nr gen d kids).CountsOK →
      (PageTree.pages nr gen d kids).objNrs.Nodup →
      ctx.table = [] →
      1 ≤ cfg.extractPageNr →
      cfg.extractPageNr ≤ (PageTree.pages nr gen d kids).leafCount →
      writePagesDict cfg fuel ctx ⟨nr, gen⟩ 0 = (ctx', .ok ()) →
      ctx'.out = ctx.out ++ (PageTree.pages nr gen d kids).extractLog cfg 0) ∧
    (∀ (cfg : Config) (fuel : Nat) (ctx ctx' : Context) (indRef : IndirectRef)
        (pageCount : Int) (dict : Dict),
      ¬ 0 < cfg.extractPageNr →
      XRefTable.DereferenceDict ctx.xRefTable indRef = some (some dict) →
      Dict.Find dict "Count" ≠ some (.integer 0) →
      writePagesDict cfg (fuel + 1) ctx indRef pageCount = (ctx', .ok ()) →
      ∃ kidsArray ctx3 ctx4, Dict.ArrayEntry dict "Kids" = some kidsArray ∧
        ctx3.out = ctx.out ++
          .record indRef.objectNumber indRef.generationNumber dict ::
            entryEvents dict "pagesDict" pagesDictEntries ∧
        writeKids cfg fuel ctx3 kidsArray pageCount = (ctx4, .ok ()) ∧
        ctx'.out = ctx4.out) ∧
    (∀ d : Dict, entryEvents d "pagesDict" pagesDictEntries =
      ["Resources", "MediaBox", "CropBox", "Rotate"].filterMap (definedEntry d "pagesDict")) := by
  refine ⟨?_, ?_, entryEvents_pagesDictEntries⟩
  · intro cfg fuel nr gen d kids ctx ctx' hin hc hnd hw h1 h2 h
    have h2' : cfg.extractPageNr ≤ 0 + PageTree.leafCounts kids := by
      simpa [PageTree.leafCount] using h2
    exact writePagesDict_extractLog cfg (by omega) fuel nr gen d kids ctx ctx' 0 hin hc hnd
      (fun n _ => Context.HasWriteOffset_of_table_nil ctx hw n) (by omega) h2' h
  · intro cfg fuel ctx ctx' indRef pageCount dict hoff hd hcnt h
    obtain ⟨_, dict', c, hd', hc, hcases⟩ :=
      writePagesDictBody_ok cfg (writePagesDict cfg fuel) ctx ctx' indRef pageCount h
    rw [hd] at hd'
    simp only [Option.some.injEq] at hd'
    subst hd'
    rcases hcases with ⟨h0, _⟩ | ⟨_, kidsArrayOrig, ctx1, dict1, pc1, ctx2, ctx3, kidsArray, ctx4,
      hk, hprep, hw, hes, hk2, hkw, he⟩
    · rw [hc, h0] at hcnt; exact absurd rfl hcnt
    obtain ⟨_, hpo, hp⟩ := prepare_ok _ _ _ _ _ _ _ _ _ hprep
    rcases hp with ⟨_, hctx1, hdict1, hpc1⟩ | ⟨hpos, _⟩
    · subst hctx1 hdict1 hpc1
      obtain ⟨_, _, ho2⟩ := writeDictObject_ok _ _ _ _ _ _ hw
      obtain ⟨_, _, ho3⟩ := writePageEntries_ok _ _ _ _ _ _ hes
      rw [hk] at hk2
      simp only [Option.some.injEq] at hk2
      subst hk2
      refine ⟨kidsArrayOrig, ctx3, ctx4, hk, ?_, hkw, ?_⟩
      · rw [ho3, ho2]; simp
      · rw [he]
    · exact absurd hpos hoff

/-- C7 at the two-level document: extraction of ordinal 3 emits `Rotate` (the
inheritable attribute that `examplePages` defines) for the root and for subtree
B, each after the node's record and before the next node; the ordinary pass over
the 3-leaf document emits the root's record, `Rotate`, and then its three
leaves. -/
theorem writePagesDict_inheritable_attributes_witness :
    (writePagesDict (exampleConfig 3 (fun _ => false) false) 1 (startContext twoLevelDoc)
      ⟨1, 0⟩ 0).1.out =
      [.record 1 0 (examplePages 1 [.indirectRef 5 0]),
       .entry "pagesDict" "Rotate" (.integer 90),
       .record 5 0 (examplePages 1 [.indirectRef 6 0]),
       .entry "pagesDict" "Rotate" (.integer 90),
       .record 6 0 (examplePage 5),
       .entry "pageDict" "MediaBox"
         (.array [.integer 0, .integer 0, .integer 612, .integer 792]),
       .entry "pageDict" "Annots" (.array [])] ∧
    (writePagesDict (exampleConfig 3 (fun _ => false) false) 1 (startContext twoLevelDoc)
      ⟨1, 0⟩ 0).1.out =
      (startContext twoLevelDoc).out ++
        twoLevelTree.extractLog (exampleConfig 3 (fun _ => false) false) 0 ∧
    ∃ kidsArray ctx3 ctx4,
      Dict.ArrayEntry (examplePages 3 [.indirectRef 2 0, .indirectRef 3 0, .indirectRef 4 0])
        "Kids" = some kidsArray ∧
      ctx3.out = (startContext threeLeafDoc).out ++
        .record 1 0 (examplePages 3 [.indirectRef 2 0, .indirectRef 3 0, .indirectRef 4 0]) ::
          entryEvents (examplePages 3 [.indirectRef 2 0, .indirectRef 3 0, .indirectRef 4 0])
            "pagesDict" pagesDictEntries ∧
      writeKids (exampleConfig 0 (fun _ => false) false) 0 ctx3 kidsArray 0 = (ctx4, .ok ()) ∧
      (writePagesDict (exampleConfig 0 (fun _ => false) false) 1 (startContext threeLeafDoc)
        ⟨1, 0⟩ 0).1.out = ctx4.out :=
  ⟨rfl,
   writePagesDict_inheritable_attributes.1 (exampleConfig 3 (fun _ => false) false) 1 1 0 _ _
      (startContext twoLevelDoc) _ twoLevelTree_inTable twoLevelTree_countsOK
      twoLevelTree_nodup rfl (by decide) (by decide) rfl,
   writePagesDict_inheritable_attributes.2.1 (exampleConfig 0 (fun _ => false) false) 0
      (startContext threeLeafDoc) _ ⟨1, 0⟩ 0 _ (by decide) rfl (by simp [examplePages, Dict.Find])
      rfl⟩

/-! ## Trimmed trees: counts and leaves -/

theorem Dict.Find_trimmedRecord (d : Dict) (count : Int) (arr : List Object) (k : String) :
    Dict.Find (trimmedRecord d count arr) k =
      if k = "Kids" then some (.array arr)
      else if k = "Count" then some (.integer count) else Dict.Find d k := by
  unfold trimmedRecord
  rw [Dict.Find_Update _ _ _ _ (by rfl), Dict.Find_Update _ _ _ _ (by rfl)]

mutual
theorem PageTree.objNrs_trim (sel : Int → Bool) :
    ∀ (T : PageTree) (c : Int), ∀ n ∈ (T.trim sel c).objNrs, n ∈ T.objNrs
  | .null, _ => by simp [PageTree.trim]
  | .page _ _ _, _ => by simp [PageTree.trim]
  | .pages nr gen d kids, c => by
    intro n hn
    simp only [PageTree.trim, PageTree.objNrs, List.mem_cons] at hn ⊢
    rcases hn with hn | hn
    · exact Or.inl hn
    · exact Or.inr (PageTree.objNrsList_trimKids sel kids c n hn)
theorem PageTree.objNrsList_trimKids (sel : Int → Bool) :
    ∀ (ks : List PageTree) (c : Int),
      ∀ n ∈ PageTree.objNrsList (PageTree.trimKids sel ks c), n ∈ PageTree.objNrsList ks
  | [], _ => by simp [PageTree.trimKids]
  | .null :: ks, c => by
    intro n hn
    simp only [PageTree.trimKids] at hn
    simp only [PageTree.objNrsList, List.mem_append]
    exact Or.inr (PageTree.objNrsList_trimKids sel ks c n hn)
  | .page nr gen d :: ks, c => by
    intro n hn
    simp only [PageTree.trimKids] at hn
    simp only [PageTree.objNrsList, List.mem_append]
    split at hn
    · simp only [PageTree.objNrsList, List.mem_append] at hn
      rcases hn with hn | hn
      · exact Or.inl hn
      · exact Or.inr (PageTree.objNrsList_trimKids sel ks _ n hn)
    · exact Or.inr (PageTree.objNrsList_trimKids sel ks _ n hn)
  | .pages nr gen d kids :: ks, c => by
    intro n hn
    simp only [PageTree.trimKids] at hn
    simp only [PageTree.objNrsList, List.mem_append]
    split at hn
    · simp only [PageTree.objNrsList, List.mem_append] at hn
      rcases hn with hn | hn
      · exact Or.inl (PageTree.objNrs_trim sel (.pages nr gen d kids) c n hn)
      · exact Or.inr (PageTree.objNrsList_trimKids sel ks _ n hn)
    · exact Or.inr (PageTree.objNrsList_trimKids sel ks _ n hn)
end

mutual
theorem PageTree.CountsOK_trim (sel : Int → Bool) :
    ∀ (T : PageTree) (c : Int), (T.trim sel c).CountsOK
  | .null, _ => by simp [PageTree.trim, PageTree.CountsOK]
  | .page _ _ _, _ => by simp [PageTree.trim, PageTree.CountsOK]
  | .pages nr gen d kids, c => by
    simp only [PageTree.trim, PageTree.CountsOK]
    refine ⟨?_, PageTree.CountsOKList_trimKids sel kids c⟩
    rw [Dict.Find_trimmedRecord]
    simp
theorem PageTree.CountsOKList_trimKids (sel : Int → Bool) :
    ∀ (ks : List PageTree) (c : Int), PageTree.CountsOKList (PageTree.trimKids sel ks c)
  | [], _ => by simp [PageTree.trimKids, PageTree.CountsOKList]
  | .null :: ks, c => by
    simp only [PageTree.trimKids]; exact PageTree.CountsOKList_trimKids sel ks c
  | .page nr gen d :: ks, c => by
    simp only [PageTree.trimKids]
    split
    · simp only [PageTree.CountsOKList, PageTree.CountsOK, true_and]
      exact PageTree.CountsOKList_trimKids sel ks _
    · exact PageTree.CountsOKList_trimKids sel ks _
  | .pages nr gen d kids :: ks, c => by
    simp only [PageTree.trimKids]
    split
    · simp only [PageTree.CountsOKList]
      exact ⟨PageTree.CountsOK_trim sel (.pages nr gen d kids) c,
        PageTree.CountsOKList_trimKids sel ks _⟩
    · exact PageTree.CountsOKList_trimKids sel ks _
end

theorem selectLeaves_append (sel : Int → Bool) (a b : List PageTree) (c : Int) :
    selectLeaves sel c (a ++ b) = selectLeaves sel c a ++ selectLeaves sel (c + a.length) b := by
  induction a generalizing c with
  | nil => simp [selectLeaves]
  | cons x xs ih =>
    have e : c + ((xs.length + 1 : Nat) : Int) = c + 1 + (xs.length : Int) := by push_cast; omega
    rw [List.cons_append]
    simp only [selectLeaves, List.length_cons]
    rw [ih, e]
    split <;> simp

theorem PageTree.leavesList_trimKids (sel : Int → Bool) :
    ∀ (ks : List PageTree) (c : Int),
      PageTree.leavesList (PageTree.trimKids sel ks c) = selectLeaves sel c (PageTree.leavesList ks)
  | [], _ => by simp [PageTree.trimKids, PageTree.leavesList, selectLeaves]
  | .null :: ks, c => by
    simp only [PageTree.trimKids, PageTree.leavesList, PageTree.leaves, List.nil_append]
    exact PageTree.leavesList_trimKids sel ks c
  | .page nr gen d :: ks, c => by
    have h2 := PageTree.leavesList_trimKids sel ks (c + 1)
    simp only [PageTree.trimKids, PageTree.leavesList, PageTree.leaves, List.singleton_append,
      selectLeaves]
    split
    · simp [PageTree.leavesList, PageTree.leaves, h2]
    · exact h2
  | .pages nr gen d kids :: ks, c => by
    have h1 := PageTree.leavesList_trimKids sel kids c
    have h2 := PageTree.leavesList_trimKids sel ks (c + PageTree.leafCounts kids)
    have hl := PageTree.length_leavesList kids
    have hl' := PageTree.length_leavesList (PageTree.trimKids sel kids c)
    simp only [PageTree.trimKids, PageTree.leavesList, PageTree.leaves, selectLeaves_append]
    rw [hl, ← h2, ← h1]
    split
    · simp only [PageTree.leavesList, PageTree.trim, PageTree.leaves]
    · next hz =>
      have : (PageTree.leavesList (PageTree.trimKids sel kids c)).length = 0 := by
        have := PageTree.leafCounts_nonneg (PageTree.trimKids sel kids c)
        omega
      rw [List.length_eq_zero] at this
      rw [this]; rfl

theorem length_selectLeaves (sel : Int → Bool) (c : Int) (ls : List PageTree) :
    (selectLeaves sel c ls).length =
      ((List.range ls.length).filter (fun (i : Nat) => sel (c + 1 + (i : Int)))).length := by
  induction ls generalizing c with
  | nil => simp [selectLeaves]
  | cons l ls ih =>
    simp only [selectLeaves, List.length_cons, List.range_succ_eq_map, List.filter_cons,
      List.filter_map, List.length_map]
    have e : ∀ i : Nat, c + 1 + ((i + 1 : Nat) : Int) = c + 1 + 1 + (i : Int) := by
      intro i; push_cast; omega
    have hf : ((fun (i : Nat) => sel (c + 1 + (i : Int))) ∘ Nat.succ) =
        (fun i : Nat => sel (c + 1 + 1 + (i : Int))) := funext (fun i => by
          simp only [Function.comp, Nat.succ_eq_add_one]; rw [e])
    rw [hf]
    by_cases h : sel (c + 1) = true
    · simp [h, ih]
    · simp [h, ih]

/-! ## The trim transform over a tree (C4, C5) -/

mutual
theorem PageTree.TrimmedInTable_congr (x x' : XRefTable) (sel : Int → Bool) :
    ∀ (T : PageTree) (c : Int), (∀ n ∈ T.objNrs, XRefTable.find x' n = XRefTable.find x n) →
      T.TrimmedInTable x sel c → T.TrimmedInTable x' sel c
  | .null, _ => fun _ _ => trivial
  | .page nr gen d, _ => fun hf h => by
    simp only [PageTree.TrimmedInTable] at h ⊢
    exact PageTree.InTable_congr x x' _ hf h
  | .pages nr gen d kids, c => fun hf h => by
    simp only [PageTree.TrimmedInTable] at h ⊢
    refine ⟨PageTree.InTable_congr x x' _
      (fun n hn => hf n (PageTree.objNrs_trim sel _ c n hn)) h.1,
      PageTree.TrimmedInTableList_congr x x' sel kids c
        (fun n hn => hf n (by simp [PageTree.objNrs, hn])) h.2⟩
theorem PageTree.TrimmedInTableList_congr (x x' : XRefTable) (sel : Int → Bool) :
    ∀ (ks : List PageTree) (c : Int),
      (∀ n ∈ PageTree.objNrsList ks, XRefTable.find x' n = XRefTable.find x n) →
      PageTree.TrimmedInTableList x sel ks c → PageTree.TrimmedInTableList x' sel ks c
  | [], _ => fun _ _ => trivial
  | k :: ks, c => fun hf h => by
    simp only [PageTree.TrimmedInTableList] at h ⊢
    exact ⟨PageTree.TrimmedInTable_congr x x' sel k c
        (fun n hn => hf n (by simp [PageTree.objNrsList, hn])) h.1,
      PageTree.TrimmedInTableList_congr x x' sel ks _
        (fun n hn => hf n (by simp [PageTree.objNrsList, hn])) h.2⟩
end

theorem XRefTable.Dereference_eq_dict (x : XRefTable) (r : IndirectRef) (d : Dict) :
    XRefTable.Dereference x r = some (.dict d) ↔
      XRefTable.find x r.objectNumber = some (.object (.dict d)) := by
  unfold XRefTable.Dereference
  cases h : XRefTable.find x r.objectNumber with
  | none => simp
  | some e =>
    cases e with
    | broken => simp
    | object o => simp

/-- Inversion of a successful `trimPagesDictBody`. -/
theorem trimPagesDictBody_ok (cfg : Config)
    (recur : Context → IndirectRef → Int → Context × Int × Except Failure Int)
    (ctx ctx' : Context) (indRef : IndirectRef) (pc pc' cnt : Int)
    (h : trimPagesDictBody cfg recur ctx indRef pc = (ctx', pc', .ok cnt)) :
    ∃ dict i kidsArray ctx1 arr,
      XRefTable.find ctx.xRefTable indRef.objectNumber = some (.object (.dict dict)) ∧
      Dict.Find dict "Count" = some (.integer i) ∧
      Dict.Find dict "Kids" = some (.array kidsArray) ∧
      trimKidsWith cfg recur ctx kidsArray pc 0 [] = (ctx1, pc', .ok (cnt, arr)) ∧
      ctx' = { ctx1 with
        xRefTable := ctx1.xRefTable.updateDict indRef.objectNumber (fun d =>
          Dict.Update (Dict.Update d "Count" (.integer cnt)) "Kids" (.array arr)) } := by
  unfold trimPagesDictBody at h
  simp only [] at h
  split at h
  · simp at h
  · simp at h
  · next dict hd =>
    rw [XRefTable.Dereference_eq_dict] at hd
    split at h
    · simp at h
    · next i hc =>
      split at h
      · simp at h
      · next kidsArray hk =>
        rw [Dict.ArrayEntry_eq_some] at hk
        split at h
        · simp at h
        · next ctx1 pc1 count arr heq =>
          simp only [Prod.mk.injEq, Except.ok.injEq] at h
          obtain ⟨h1, h2, h3⟩ := h
          subst h2 h3
          exact ⟨dict, i, kidsArray, ctx1, arr, hd, hc, hk, heq, h1.symm⟩
    · simp at h
  · simp at h

/-- Inversion of a successful `trimKidsWith` on a non-empty sequence. -/
theorem trimKidsWith_cons_ok (cfg : Config)
    (recur : Context → IndirectRef → Int → Context × Int × Except Failure Int)
    (ctx ctx' : Context) (obj : Object) (rest : List Object) (pc pc' count : Int)
    (arr : List Object) (res : Int × List Object)
    (h : trimKidsWith cfg recur ctx (obj :: rest) pc count arr = (ctx', pc', .ok res)) :
    (pageNodeDict ctx obj = (ctx, .ok none) ∧
      trimKidsWith cfg recur ctx rest pc count arr = (ctx', pc', .ok res)) ∨
    ∃ d r, pageNodeDict ctx obj = (ctx, .ok (some (d, r))) ∧
      ((Dict.Type d = some "Pages" ∧ ∃ ctx2 pc2 tc, recur ctx r pc = (ctx2, pc2, .ok tc) ∧
          ((tc > 0 ∧ trimKidsWith cfg recur ctx2 rest pc2 (count + tc) (arr ++ [obj]) =
              (ctx', pc', .ok res)) ∨
            (¬ tc > 0 ∧ trimKidsWith cfg recur ctx2 rest pc2 count arr = (ctx', pc', .ok res)))) ∨
        (Dict.Type d = some "Page" ∧
          ((cfg.extractPage (pc + 1) = true ∧
              trimKidsWith cfg recur ctx rest (pc + 1) (count + 1) (arr ++ [obj]) =
                (ctx', pc', .ok res)) ∨
            (cfg.extractPage (pc + 1) = false ∧
              trimKidsWith cfg recur ctx rest (pc + 1) count arr = (ctx', pc', .ok res))))) := by
  unfold trimKidsWith at h
  split at h
  · simp at h
  · next ctx1 heq =>
    have := pageNodeDict_fst ctx obj; rw [heq] at this
    simp at this; subst this
    exact Or.inl ⟨heq, h⟩
  · next ctx1 d indRef heq =>
    have := pageNodeDict_fst ctx obj; rw [heq] at this
    simp at this; subst this
    refine Or.inr ⟨d, indRef, heq, ?_⟩
    split at h
    · next ht =>
      left
      refine ⟨ht, ?_⟩
      split at h
      · simp at h
      · next ctx2 pc2 tc heq2 =>
        refine ⟨ctx2, pc2, tc, heq2, ?_⟩
        split at h
        · next hpos => exact Or.inl ⟨hpos, h⟩
        · next hneg => exact Or.inr ⟨hneg, h⟩
    · split at h
      · next ht =>
        right
        refine ⟨ht, ?_⟩
        split at h
        · next hs => exact Or.inl ⟨hs, h⟩
        · next hs => exact Or.inr ⟨by simpa using hs, h⟩
      · simp at h

theorem Dict.Type_trimmedRecord (d : Dict) (count : Int) (arr : List Object) :
    Dict.Type (trimmedRecord d count arr) = Dict.Type d := by
  unfold Dict.Type
  rw [Dict.Find_trimmedRecord]
  simp

/-- The loop of `trimPagesDict` over the kids of a tree node: if the recursive
call trims every tree, the loop retains `trimKids` and leaves the trimmed
version of every kid in the table. -/
theorem trimKidsWith_tree (cfg : Config)
    (recur : Context → IndirectRef → Int → Context × Int × Except Failure Int)
    (hrec : ∀ nr gen d kids (ctx ctx' : Context) (c c' cnt : Int),
      (PageTree.pages nr gen d kids).InTable ctx.xRefTable →
      (PageTree.pages nr gen d kids).objNrs.Nodup →
      (∀ n ∈ (PageTree.pages nr gen d kids).objNrs, ctx.HasWriteOffset n = false) →
      recur ctx ⟨nr, gen⟩ c = (ctx', c', .ok cnt) →
      (PageTree.pages nr gen d kids).TrimmedInTable ctx'.xRefTable cfg.extractPage c ∧
        cnt = PageTree.leafCounts (PageTree.trimKids cfg.extractPage kids c) ∧
        c' = c + PageTree.leafCounts kids ∧
        (∀ n, n ∉ (PageTree.pages nr gen d kids).objNrs →
          XRefTable.find ctx'.xRefTable n = XRefTable.find ctx.xRefTable n) ∧
        ctx'.table = ctx.table) :
    ∀ (kids : List PageTree) (ctx ctx' : Context) (pc pc' count count' : Int)
      (arr arr' : List Object),
      PageTree.InTableList ctx.xRefTable kids →
      (PageTree.objNrsList kids).Nodup →
      (∀ n ∈ PageTree.objNrsList kids, ctx.HasWriteOffset n = false) →
      trimKidsWith cfg recur ctx (kids.map PageTree.ref) pc count arr =
        (ctx', pc', .ok (count', arr')) →
      PageTree.TrimmedInTableList ctx'.xRefTable cfg.extractPage kids pc ∧
        PageTree.InTableList ctx'.xRefTable (PageTree.trimKids cfg.extractPage kids pc) ∧
        count' = count + PageTree.leafCounts (PageTree.trimKids cfg.extractPage kids pc) ∧
        arr' = arr ++ (PageTree.trimKids cfg.extractPage kids pc).map PageTree.ref ∧
        pc' = pc + PageTree.leafCounts kids ∧
        (∀ n, n ∉ PageTree.objNrsList kids →
          XRefTable.find ctx'.xRefTable n = XRefTable.find ctx.xRefTable n) ∧
        ctx'.table = ctx.table := by
  intro kids
  induction kids with
  | nil =>
    intro ctx ctx' pc pc' count count' arr arr' _ _ _ h
    simp only [List.map_nil, trimKidsWith, Prod.mk.injEq, Except.ok.injEq] at h
    obtain ⟨h1, h2, h3, h4⟩ := h
    subst h1 h2 h3 h4
    simp [PageTree.TrimmedInTableList, PageTree.trimKids, PageTree.InTableList,
      PageTree.leafCounts]
  | cons k ks ih =>
    intro ctx ctx' pc pc' count count' arr arr' hin hnd hun h
    simp only [PageTree.InTableList] at hin
    simp only [PageTree.objNrsList, List.nodup_append] at hnd
    simp only [PageTree.objNrsList, List.mem_append] at hun
    obtain ⟨hndk, hndks, hdisj⟩ := hnd
    simp only [List.map_cons] at h
    cases k with
    | null =>
      rcases trimKidsWith_cons_ok _ _ _ _ _ _ _ _ _ _ _ h with ⟨_, hrest⟩ | ⟨d, r, hpn, _⟩
      · obtain ⟨a1, a2, a3, a4, a5, a6, a7⟩ := ih ctx ctx' pc pc' count count' arr arr' hin.2
          hndks (fun n hn => hun n (Or.inr hn)) hrest
        refine ⟨?_, ?_, ?_, ?_, ?_, ?_, a7⟩
        · simpa [PageTree.TrimmedInTableList, PageTree.TrimmedInTable, PageTree.leafCount]
            using a1
        · simpa [PageTree.trimKids] using a2
        · simpa [PageTree.trimKids] using a3
        · simpa [PageTree.trimKids] using a4
        · simpa [PageTree.leafCounts, PageTree.leafCount] using a5
        · intro n hn
          exact a6 n (by simpa [PageTree.objNrsList, PageTree.objNrs] using hn)
      · simp [PageTree.ref, pageNodeDict] at hpn
    | page nk gk dk =>
      have hk := hin.1
      simp only [PageTree.InTable] at hk
      have hunk : ctx.HasWriteOffset nk = false := hun nk (Or.inl (by simp [PageTree.objNrs]))
      have hpn' := pageNodeDict_of_find ctx nk gk dk _ hk.1 hk.2 hunk
      have hnk : nk ∉ PageTree.objNrsList ks := fun hm =>
        hdisj (by simp [PageTree.objNrs]) hm
      rcases trimKidsWith_cons_ok _ _ _ _ _ _ _ _ _ _ _ h with ⟨hskip, _⟩ | ⟨d, r, hpn, hcase⟩
      · rw [PageTree.ref, hpn'] at hskip; simp at hskip
      · rw [PageTree.ref, hpn'] at hpn
        simp only [Prod.mk.injEq, Except.ok.injEq, Option.some.injEq, true_and] at hpn
        obtain ⟨hd, hr⟩ := hpn
        subst hd hr
        rcases hcase with ⟨ht, _⟩ | ⟨_, hsel⟩
        · rw [hk.2] at ht; simp at ht
        · rcases hsel with ⟨hs, hrest⟩ | ⟨hs, hrest⟩
          · obtain ⟨a1, a2, a3, a4, a5, a6, a7⟩ := ih ctx ctx' (pc + 1) pc' (count + 1) count'
              (arr ++ [PageTree.ref (.page nk gk dk)]) arr' hin.2 hndks
              (fun n hn => hun n (Or.inr hn)) hrest
            have hk' : (PageTree.page nk gk dk).InTable ctx'.xRefTable := by
              simp only [PageTree.InTable]; rw [a6 nk hnk]; exact hk
            refine ⟨?_, ?_, ?_, ?_, ?_, ?_, a7⟩
            · simp only [PageTree.TrimmedInTableList, PageTree.TrimmedInTable,
                PageTree.leafCount]
              exact ⟨hk', a1⟩
            · simp only [PageTree.trimKids, hs, if_true, PageTree.InTableList]
              exact ⟨hk', a2⟩
            · simp only [PageTree.trimKids, hs, if_true, PageTree.leafCounts,
                PageTree.leafCount]
              omega
            · simp only [PageTree.trimKids, hs, if_true, List.map_cons]
              rw [a4]; simp
            · simp only [PageTree.leafCounts, PageTree.leafCount]; omega
            · intro n hn
              exact a6 n (fun hm => hn (by simp [PageTree.objNrsList, hm]))
          · obtain ⟨a1, a2, a3, a4, a5, a6, a7⟩ := ih ctx ctx' (pc + 1) pc' count count'
              arr arr' hin.2 hndks (fun n hn => hun n (Or.inr hn)) hrest
            have hk' : (PageTree.page nk gk dk).InTable ctx'.xRefTable := by
              simp only [PageTree.InTable]; rw [a6 nk hnk]; exact hk
            refine ⟨?_, ?_, ?_, ?_, ?_, ?_, a7⟩
            · simp only [PageTree.TrimmedInTableList, PageTree.TrimmedInTable,
                PageTree.leafCount]
              exact ⟨hk', a1⟩
            · simpa [PageTree.trimKids, hs] using a2
            · simpa [PageTree.trimKids, hs] using a3
            · simpa [PageTree.trimKids, hs] using a4
            · simp only [PageTree.leafCounts, PageTree.leafCount]; omega
            · intro n hn
              exact a6 n (fun hm => hn (by simp [PageTree.objNrsList, hm]))
    | pages nk gk dk kk =>
      have hk := hin.1
      simp only [PageTree.InTable] at hk
      have hunk : ctx.HasWriteOffset nk = false := hun nk (Or.inl (by simp [PageTree.objNrs]))
      have hpn' := pageNodeDict_of_find ctx nk gk dk _ hk.1 hk.2.1 hunk
      rcases trimKidsWith_cons_ok _ _ _ _ _ _ _ _ _ _ _ h with ⟨hskip, _⟩ | ⟨d, r, hpn, hcase⟩
      · rw [PageTree.ref, hpn'] at hskip; simp at hskip
      · rw [PageTree.ref, hpn'] at hpn
        simp only [Prod.mk.injEq, Except.ok.injEq, Option.some.injEq, true_and] at hpn
        obtain ⟨hd, hr⟩ := hpn
        subst hd hr
        rcases hcase with ⟨_, ctx2, pc2, tc, hrc, hcont⟩ | ⟨ht, _⟩
        · obtain ⟨b1, b2, b3, b4, b5⟩ := hrec nk gk dk kk ctx ctx2 pc pc2 tc hin.1 hndk
            (fun n hn => hun n (Or.inl hn)) hrc
          have hin2 : PageTree.InTableList ctx2.xRefTable ks :=
            PageTree.InTableList_congr ctx.xRefTable ctx2.xRefTable ks
              (fun n hn => b4 n (fun hm => hdisj hm hn)) hin.2
          have hun2 : ∀ n ∈ PageTree.objNrsList ks, ctx2.HasWriteOffset n = false := by
            intro n hn
            have := hun n (Or.inr hn)
            simpa [Context.HasWriteOffset, b5] using this
          have key : ∀ (cnt0 : Int) (arr0 : List Object),
              trimKidsWith cfg recur ctx2 (ks.map PageTree.ref) pc2 cnt0 arr0 =
                (ctx', pc', .ok (count', arr')) →
              (PageTree.pages nk gk dk kk).TrimmedInTable ctx'.xRefTable cfg.extractPage pc ∧
              PageTree.TrimmedInTableList ctx'.xRefTable cfg.extractPage ks
                (pc + PageTree.leafCounts kk) ∧
              PageTree.InTableList ctx'.xRefTable
                (PageTree.trimKids cfg.extractPage ks (pc + PageTree.leafCounts kk)) ∧
              count' = cnt0 + PageTree.leafCounts
                (PageTree.trimKids cfg.extractPage ks (pc + PageTree.leafCounts kk)) ∧
              arr' = arr0 ++ (PageTree.trimKids cfg.extractPage ks
                (pc + PageTree.leafCounts kk)).map PageTree.ref ∧
              pc' = pc + PageTree.leafCounts kk + PageTree.leafCounts ks ∧
              (∀ n, n ∉ PageTree.objNrsList (.pages nk gk dk kk :: ks) →
                XRefTable.find ctx'.xRefTable n = XRefTable.find ctx.xRefTable n) ∧
              ctx'.table = ctx.table := by
            intro cnt0 arr0 hrest
            obtain ⟨a1, a2, a3, a4, a5, a6, a7⟩ := ih ctx2 ctx' pc2 pc' cnt0 count' arr0 arr'
              hin2 hndks hun2 hrest
            subst b3
            refine ⟨?_, a1, a2, a3, a4, a5, ?_, a7.trans b5⟩
            · exact PageTree.TrimmedInTable_congr ctx2.xRefTable ctx'.xRefTable _ _ pc
                (fun n hn => a6 n (fun hm => hdisj hn hm)) b1
            · intro n hn
              simp only [PageTree.objNrsList, List.mem_append, not_or] at hn
              rw [a6 n hn.2, b4 n hn.1]
          subst b2
          rcases hcont with ⟨hpos, hrest⟩ | ⟨hneg, hrest⟩
          · obtain ⟨c1, c2, c3, c4, c5, c6, c7, c8⟩ := key _ _ hrest
            have c1' := c1
            simp only [PageTree.TrimmedInTable] at c1'
            refine ⟨?_, ?_, ?_, ?_, ?_, c7, c8⟩
            · simp only [PageTree.TrimmedInTableList, PageTree.leafCount]
              exact ⟨c1, c2⟩
            · simp only [PageTree.trimKids, hpos, if_true, PageTree.InTableList]
              exact ⟨c1'.1, c3⟩
            · simp only [PageTree.trimKids, hpos, if_true, PageTree.leafCounts,
                PageTree.trim, PageTree.leafCount]
              omega
            · simp only [PageTree.trimKids, hpos, if_true, List.map_cons, PageTree.trim,
                PageTree.ref]
              rw [c5]; simp [PageTree.ref]
            · simp only [PageTree.leafCounts, PageTree.leafCount]; omega
          · obtain ⟨c1, c2, c3, c4, c5, c6, c7, c8⟩ := key _ _ hrest
            refine ⟨?_, ?_, ?_, ?_, ?_, c7, c8⟩
            · simp only [PageTree.TrimmedInTableList, PageTree.leafCount]
              exact ⟨c1, c2⟩
            · simpa [PageTree.trimKids, hneg] using c3
            · simpa [PageTree.trimKids, hneg] using c4
            · simpa [PageTree.trimKids, hneg] using c5
            · simp only [PageTree.leafCounts, PageTree.leafCount]; omega
        · rw [hk.2.1] at ht; simp at ht

/-- One step of the induction for the trim transform. -/
theorem trimPagesDictBody_tree (cfg : Config)
    (recur : Context → IndirectRef → Int → Context × Int × Except Failure Int)
    (hrec : ∀ nr gen d kids (ctx ctx' : Context) (c c' cnt : Int),
      (PageTree.pages nr gen d kids).InTable ctx.xRefTable →
      (PageTree.pages nr gen d kids).objNrs.Nodup →
      (∀ n ∈ (PageTree.pages nr gen d kids).objNrs, ctx.HasWriteOffset n = false) →
      recur ctx ⟨nr, gen⟩ c = (ctx', c', .ok cnt) →
      (PageTree.pages nr gen d kids).TrimmedInTable ctx'.xRefTable cfg.extractPage c ∧
        cnt = PageTree.leafCounts (PageTree.trimKids cfg.extractPage kids c) ∧
        c' = c + PageTree.leafCounts kids ∧
        (∀ n, n ∉ (PageTree.pages nr gen d kids).objNrs →
          XRefTable.find ctx'.xRefTable n = XRefTable.find ctx.xRefTable n) ∧
        ctx'.table = ctx.table)
    (nr gen : Nat) (d : Dict) (kids : List PageTree) (ctx ctx' : Context) (c c' cnt : Int)
    (hin : (PageTree.pages nr gen d kids).InTable ctx.xRefTable)
    (hnd : (PageTree.pages nr gen d kids).objNrs.Nodup)
    (hun : ∀ n ∈ (PageTree.pages nr gen d kids).objNrs, ctx.HasWriteOffset n = false)
    (h : trimPagesDictBody cfg recur ctx ⟨nr, gen⟩ c = (ctx', c', .ok cnt)) :
    (PageTree.pages nr gen d kids).TrimmedInTable ctx'.xRefTable cfg.extractPage c ∧
      cnt = PageTree.leafCounts (PageTree.trimKids cfg.extractPage kids c) ∧
      c' = c + PageTree.leafCounts kids ∧
      (∀ n, n ∉ (PageTree.pages nr gen d kids).objNrs →
        XRefTable.find ctx'.xRefTable n = XRefTable.find ctx.xRefTable n) ∧
      ctx'.table = ctx.table := by
  simp only [PageTree.InTable] at hin
  simp only [PageTree.objNrs, List.nodup_cons] at hnd
  simp only [PageTree.objNrs, List.mem_cons, forall_eq_or_imp] at hun
  obtain ⟨hfind, htype, hkids, hinl⟩ := hin
  obtain ⟨dict, i, kidsArray, ctx1, arr, hd, _, hk, hloop, he⟩ :=
    trimPagesDictBody_ok cfg recur ctx ctx' _ c c' cnt h
  simp only [] at hd
  rw [hfind] at hd
  simp only [Option.some.injEq, XRefEntry.object.injEq, Object.dict.injEq] at hd
  subst hd
  rw [hkids] at hk
  simp only [Option.some.injEq, Object.array.injEq] at hk
  subst hk
  obtain ⟨a1, a2, a3, a4, a5, a6, a7⟩ := trimKidsWith_tree cfg recur hrec kids ctx ctx1 c c' 0 cnt
    [] arr hinl hnd.2 hun.2 hloop
  simp only [zero_add] at a3
  simp only [List.nil_append] at a4
  subst a3 a4
  have hx : ∀ n, n ≠ nr → XRefTable.find ctx'.xRefTable n = XRefTable.find ctx1.xRefTable n := by
    intro n hn
    rw [he]
    simp [XRefTable.find_updateDict, hn]
  have hnr : XRefTable.find ctx'.xRefTable nr = some (.object (.dict (trimmedRecord d
      (PageTree.leafCounts (PageTree.trimKids cfg.extractPage kids c))
      ((PageTree.trimKids cfg.extractPage kids c).map PageTree.ref)))) := by
    rw [he]
    simp [XRefTable.find_updateDict, a6 nr hnd.1, hfind, XRefEntry.mapDict, trimmedRecord]
  refine ⟨?_, rfl, a5, ?_, ?_⟩
  · simp only [PageTree.TrimmedInTable, PageTree.trim, PageTree.InTable]
    refine ⟨⟨hnr, ?_, ?_, ?_⟩, ?_⟩
    · rw [Dict.Type_trimmedRecord]; exact htype
    · rw [Dict.Find_trimmedRecord]; simp
    · exact PageTree.InTableList_congr ctx1.xRefTable ctx'.xRefTable _
        (fun n hn => hx n (fun e => hnd.1 (e ▸ PageTree.objNrsList_trimKids _ kids c n hn))) a2
    · exact PageTree.TrimmedInTableList_congr ctx1.xRefTable ctx'.xRefTable _ kids c
        (fun n hn => hx n (fun e => hnd.1 (e ▸ hn))) a1
  · intro n hn
    simp only [PageTree.objNrs, List.mem_cons, not_or] at hn
    rw [hx n hn.1, a6 n hn.2]
  · rw [he]; exact a7

/-- The trim transform over a tree held by the table, none of whose nodes is
written: a successful `trimPagesDict` leaves the trimmed version of every node in
the table, returns the number of selected leaves and advances the counter by the
number of leaves. -/
theorem trimPagesDict_tree (cfg : Config) (fuel : Nat) :
    ∀ nr gen d kids (ctx ctx' : Context) (c c' cnt : Int),
      (PageTree.pages nr gen d kids).InTable ctx.xRefTable →
      (PageTree.pages nr gen d kids).objNrs.Nodup →
      (∀ n ∈ (PageTree.pages nr gen d kids).objNrs, ctx.HasWriteOffset n = false) →
      trimPagesDict cfg fuel ctx ⟨nr, gen⟩ c = (ctx', c', .ok cnt) →
      (PageTree.pages nr gen d kids).TrimmedInTable ctx'.xRefTable cfg.extractPage c ∧
        cnt = PageTree.leafCounts (PageTree.trimKids cfg.extractPage kids c) ∧
        c' = c + PageTree.leafCounts kids ∧
        (∀ n, n ∉ (PageTree.pages nr gen d kids).objNrs →
          XRefTable.find ctx'.xRefTable n = XRefTable.find ctx.xRefTable n) ∧
        ctx'.table = ctx.table := by
  induction fuel with
  | zero =>
    intro nr gen d kids ctx ctx' c c' cnt hin hnd hun h
    exact trimPagesDictBody_tree cfg _ (fun _ _ _ _ _ _ _ _ _ _ _ _ hh => by simp at hh)
      nr gen d kids ctx ctx' c c' cnt hin hnd hun h
  | succ n ih =>
    intro nr gen d kids ctx ctx' c c' cnt hin hnd hun h
    exact trimPagesDictBody_tree cfg _ ih nr gen d kids ctx ctx' c c' cnt hin hnd hun h

/-! ## The trim transform returns -/

mutual
theorem PageTree.HasCount_of_countsOK : ∀ T : PageTree, T.CountsOK → T.HasCount
  | .null => fun _ => trivial
  | .page _ _ _ => fun _ => trivial
  | .pages _ _ _ kids => fun h => by
    simp only [PageTree.CountsOK] at h
    simp only [PageTree.HasCount]
    exact ⟨⟨_, h.1⟩, PageTree.HasCountList_of_countsOK kids h.2⟩
theorem PageTree.HasCountList_of_countsOK :
    ∀ ks : List PageTree, PageTree.CountsOKList ks → PageTree.HasCountList ks
  | [] => fun _ => trivial
  | k :: ks => fun h => by
    simp only [PageTree.CountsOKList] at h
    simp only [PageTree.HasCountList]
    exact ⟨PageTree.HasCount_of_countsOK k h.1, PageTree.HasCountList_of_countsOK ks h.2⟩
end

/-- The loop of `trimPagesDict` over the kids of a tree node returns a result if
the recursive call does on every kid of at most `bound` levels. -/
theorem trimKidsWith_total (cfg : Config)
    (recur : Context → IndirectRef → Int → Context × Int × Except Failure Int) (bound : Nat)
    (hrecT : ∀ nr gen d kids (ctx ctx' : Context) (c c' cnt : Int),
      (PageTree.pages nr gen d kids).InTable ctx.xRefTable →
      (PageTree.pages nr gen d kids).objNrs.Nodup →
      (∀ n ∈ (PageTree.pages nr gen d kids).objNrs, ctx.HasWriteOffset n = false) →
      recur ctx ⟨nr, gen⟩ c = (ctx', c', .ok cnt) →
      (∀ n, n ∉ (PageTree.pages nr gen d kids).objNrs →
          XRefTable.find ctx'.xRefTable n = XRefTable.find ctx.xRefTable n) ∧
        ctx'.table = ctx.table)
    (hrecOK : ∀ nr gen d kids (ctx : Context) (c : Int),
      (PageTree.pages nr gen d kids).InTable ctx.xRefTable →
      (PageTree.pages nr gen d kids).objNrs.Nodup →
      (∀ n ∈ (PageTree.pages nr gen d kids).objNrs, ctx.HasWriteOffset n = false) →
      (PageTree.pages nr gen d kids).HasCount →
      (PageTree.pages nr gen d kids).levels ≤ bound →
      ∃ ctx' c' cnt, recur ctx ⟨nr, gen⟩ c = (ctx', c', .ok cnt)) :
    ∀ (kids : List PageTree) (ctx : Context) (pc count : Int) (arr : List Object),
      PageTree.InTableList ctx.xRefTable kids →
      (PageTree.objNrsList kids).Nodup →
      (∀ n ∈ PageTree.objNrsList kids, ctx.HasWriteOffset n = false) →
      PageTree.HasCountList kids →
      PageTree.levelsList kids ≤ bound →
      ∃ ctx' pc' count' arr',
        trimKidsWith cfg recur ctx (kids.map PageTree.ref) pc count arr =
          (ctx', pc', .ok (count', arr')) := by
  intro kids
  induction kids with
  | nil =>
    intro ctx pc count arr _ _ _ _ _
    exact ⟨ctx, pc, count, arr, by simp [trimKidsWith]⟩
  | cons k ks ih =>
    intro ctx pc count arr hin hnd hun hcnt hlev
    simp only [PageTree.InTableList] at hin
    simp only [PageTree.objNrsList, List.nodup_append] at hnd
    simp only [PageTree.HasCountList] at hcnt
    simp only [PageTree.levelsList, max_le_iff] at hlev
    have hunk : ∀ n ∈ k.objNrs, ctx.HasWriteOffset n = false :=
      fun n hn => hun n (by simp [PageTree.objNrsList, hn])
    have huns : ∀ n ∈ PageTree.objNrsList ks, ctx.HasWriteOffset n = false :=
      fun n hn => hun n (by simp [PageTree.objNrsList, hn])
    cases k with
    | null =>
      simp only [List.map_cons, PageTree.ref]
      unfold trimKidsWith
      simp only [pageNodeDict]
      exact ih ctx pc count arr hin.2 hnd.2.1 huns hcnt.2 hlev.2
    | page nr gen d =>
      have hk := hin.1
      simp only [PageTree.InTable] at hk
      have hp := pageNodeDict_of_find ctx nr gen d "Page" hk.1 hk.2
        (hunk nr (by simp [PageTree.objNrs]))
      simp only [List.map_cons, PageTree.ref]
      unfold trimKidsWith
      rw [hp]
      have hnp : ¬ (some "Page" = some "Pages") := by decide
      simp only [hk.2, hnp, if_false, if_true]
      split
      · exact ih ctx _ _ _ hin.2 hnd.2.1 huns hcnt.2 hlev.2
      · exact ih ctx _ _ _ hin.2 hnd.2.1 huns hcnt.2 hlev.2
    | pages nr gen d kk =>
      have hk := hin.1
      have hk' := hk
      simp only [PageTree.InTable] at hk'
      have hp := pageNodeDict_of_find ctx nr gen d "Pages" hk'.1 hk'.2.1
        (hunk nr (by simp [PageTree.objNrs]))
      obtain ⟨ctx2, pc2, cnt, hr⟩ := hrecOK nr gen d kk ctx pc hk hnd.1 hunk hcnt.1 hlev.1
      obtain ⟨hframe, htab⟩ := hrecT nr gen d kk ctx ctx2 pc pc2 cnt hk hnd.1 hunk hr
      have hin2 : PageTree.InTableList ctx2.xRefTable ks := by
        apply PageTree.InTableList_congr ctx.xRefTable ctx2.xRefTable ks _ hin.2
        intro n hn
        exact hframe n (fun hmem => hnd.2.2 hmem hn)
      have hun2 : ∀ n ∈ PageTree.objNrsList ks, ctx2.HasWriteOffset n = false := by
        intro n hn
        have := huns n hn
        simpa [Context.HasWriteOffset, htab] using this
      simp only [List.map_cons, PageTree.ref]
      unfold trimKidsWith
      rw [hp]
      simp only [hk'.2.1, if_true, hr]
      split
      · exact ih ctx2 _ _ _ hin2 hnd.2.1 hun2 hcnt.2 hlev.2
      · exact ih ctx2 _ _ _ hin2 hnd.2.1 hun2 hcnt.2 hlev.2


/-- One step of the argument that the trim transform returns. -/
theorem trimPagesDictBody_total (cfg : Config)
    (recur : Context → IndirectRef → Int → Context × Int × Except Failure Int) (bound : Nat)
    (hrecT : ∀ nr gen d kids (ctx ctx' : Context) (c c' cnt : Int),
      (PageTree.pages nr gen d kids).InTable ctx.xRefTable →
      (PageTree.pages nr gen d kids).objNrs.Nodup →
      (∀ n ∈ (PageTree.pages nr gen d kids).objNrs, ctx.HasWriteOffset n = false) →
      recur ctx ⟨nr, gen⟩ c = (ctx', c', .ok cnt) →
      (∀ n, n ∉ (PageTree.pages nr gen d kids).objNrs →
          XRefTable.find ctx'.xRefTable n = XRefTable.find ctx.xRefTable n) ∧
        ctx'.table = ctx.table)
    (hrecOK : ∀ nr gen d kids (ctx : Context) (c : Int),
      (PageTree.pages nr gen d kids).InTable ctx.xRefTable →
      (PageTree.pages nr gen d kids).objNrs.Nodup →
      (∀ n ∈ (PageTree.pages nr gen d kids).objNrs, ctx.HasWriteOffset n = false) →
      (PageTree.pages nr gen d kids).HasCount →
      (PageTree.pages nr gen d kids).levels ≤ bound →
      ∃ ctx' c' cnt, recur ctx ⟨nr, gen⟩ c = (ctx', c', .ok cnt))
    (nr gen : Nat) (d : Dict) (kids : List PageTree) (ctx : Context) (c : Int)
    (hin : (PageTree.pages nr gen d kids).InTable ctx.xRefTable)
    (hnd : (PageTree.pages nr gen d kids).objNrs.Nodup)
    (hun : ∀ n ∈ (PageTree.pages nr gen d kids).objNrs, ctx.HasWriteOffset n = false)
    (hcnt : (PageTree.pages nr gen d kids).HasCount)
    (hlev : (PageTree.pages nr gen d kids).levels ≤ bound + 1) :
    ∃ ctx' c' cnt, trimPagesDictBody cfg recur ctx ⟨nr, gen⟩ c = (ctx', c', .ok cnt) := by
  simp only [PageTree.InTable] at hin
  obtain ⟨hfind, _, hkids, hinL⟩ := hin
  simp only [PageTree.objNrs, List.nodup_cons] at hnd
  simp only [PageTree.objNrs, List.mem_cons, forall_eq_or_imp] at hun
  simp only [PageTree.HasCount] at hcnt
  obtain ⟨⟨n, hn⟩, hcntL⟩ := hcnt
  simp only [PageTree.levels, add_le_add_iff_right] at hlev
  obtain ⟨ctx1, pc1, count, arr, hl⟩ := trimKidsWith_total cfg recur bound hrecT hrecOK kids ctx c
    0 [] hinL hnd.2 hun.2 hcntL hlev
  have hd : XRefTable.Dereference ctx.xRefTable ⟨nr, gen⟩ = some (.dict d) :=
    (XRefTable.Dereference_eq_dict _ _ _).2 hfind
  have hka : Dict.ArrayEntry d "Kids" = some (kids.map PageTree.ref) :=
    (Dict.ArrayEntry_eq_some _ _ _).2 hkids
  unfold trimPagesDictBody
  simp only [hd, hn, hka, hl]
  exact ⟨_, _, _, rfl⟩

/-- The trim transform returns a result on every tree held by the table whose
internal nodes carry an integer `Count`, as soon as the nesting bound covers the
levels of the tree. -/
theorem trimPagesDict_total (cfg : Config) (fuel : Nat) :
    ∀ nr gen d kids (ctx : Context) (c : Int),
      (PageTree.pages nr gen d kids).InTable ctx.xRefTable →
      (PageTree.pages nr gen d kids).objNrs.Nodup →
      (∀ n ∈ (PageTree.pages nr gen d kids).objNrs, ctx.HasWriteOffset n = false) →
      (PageTree.pages nr gen d kids).HasCount →
      (PageTree.pages nr gen d kids).levels ≤ fuel + 1 →
      ∃ ctx' c' cnt, trimPagesDict cfg fuel ctx ⟨nr, gen⟩ c = (ctx', c', .ok cnt) := by
  induction fuel with
  | zero =>
    intro nr gen d kids ctx c hin hnd hun hcnt hlev
    exact trimPagesDictBody_total cfg _ 0
      (fun _ _ _ _ _ _ _ _ _ _ _ _ hh => by simp at hh)
      (fun _ _ _ _ _ _ _ _ _ _ hl => by simp [PageTree.levels] at hl)
      nr gen d kids ctx c hin hnd hun hcnt hlev
  | succ m ih =>
    intro nr gen d kids ctx c hin hnd hun hcnt hlev
    exact trimPagesDictBody_total cfg _ (m + 1)
      (fun nr gen d kids ctx ctx' c c' cnt h1 h2 h3 h4 =>
        let r := trimPagesDict_tree cfg m nr gen d kids ctx ctx' c c' cnt h1 h2 h3 h4
        ⟨r.2.2.2.1, r.2.2.2.2⟩)
      ih nr gen d kids ctx c hin hnd hun hcnt hlev

theorem threeLevelTree_inTable : threeLevelTree.InTable threeLevelDoc := by
  simp [threeLevelTree, threeLevelDoc, PageTree.InTable, PageTree.InTableList, XRefTable.find,
    examplePages, examplePage, Dict.Type, Dict.Find, PageTree.ref]

theorem threeLevelTree_countsOK : threeLevelTree.CountsOK := by
  simp [threeLevelTree, PageTree.CountsOK, PageTree.CountsOKList, examplePages, Dict.Find,
    PageTree.leafCounts, PageTree.leafCount]

theorem threeLevelTree_nodup : threeLevelTree.objNrs.Nodup := by
  simp [threeLevelTree, PageTree.objNrs, PageTree.objNrsList]

theorem threeLevelTree_hasCount : threeLevelTree.HasCount :=
  PageTree.HasCount_of_countsOK threeLevelTree threeLevelTree_countsOK

/-! ## Counts after trimming (C4) -/

/-- Every kid that `trimKids` retains is a leaf or an internal node with a
positive number of leaves. -/
theorem PageTree.mem_trimKids (sel : Int → Bool) :
    ∀ (ks : List PageTree) (c : Int) (k' : PageTree), k' ∈ PageTree.trimKids sel ks c →
      (∃ nr gen d, k' = .page nr gen d) ∨
        ∃ nr gen d kk, k' = .pages nr gen d kk ∧ 0 < PageTree.leafCounts kk
  | [], _, k' => by simp [PageTree.trimKids]
  | .null :: ks, c, k' => by
    simp only [PageTree.trimKids]
    exact PageTree.mem_trimKids sel ks c k'
  | .page nr gen d :: ks, c, k' => by
    simp only [PageTree.trimKids]
    split
    · intro h
      rcases List.mem_cons.1 h with h | h
      · exact Or.inl ⟨nr, gen, d, h⟩
      · exact PageTree.mem_trimKids sel ks _ k' h
    · exact PageTree.mem_trimKids sel ks _ k'
  | .pages nr gen d kids :: ks, c, k' => by
    simp only [PageTree.trimKids]
    split
    · next hpos =>
      intro h
      rcases List.mem_cons.1 h with h | h
      · exact Or.inr ⟨nr, gen, _, _, by rw [h, PageTree.trim], hpos⟩
      · exact PageTree.mem_trimKids sel ks _ k' h
    · exact PageTree.mem_trimKids sel ks _ k'

theorem noEmptyKid_of_trim (x : XRefTable) (sel : Int → Bool) (nr gen : Nat) (d : Dict)
    (kids : List PageTree) (c : Int)
    (h : ((PageTree.pages nr gen d kids).trim sel c).InTable x) : NoEmptyKid x nr := by
  intro dn kidsArray kid nk gk dk hfn _ hkn hmem hkid hfk htk
  simp only [PageTree.trim, PageTree.InTable] at h
  obtain ⟨hf, _, hk, hl⟩ := h
  rw [hf] at hfn
  simp only [Option.some.injEq, XRefEntry.object.injEq, Object.dict.injEq] at hfn
  subst hfn
  rw [hk] at hkn
  simp only [Option.some.injEq, Object.array.injEq] at hkn
  subst hkn
  obtain ⟨k', hk'mem, hk'⟩ := List.mem_map.1 hmem
  have hin := PageTree.InTable_of_mem hk'mem hl
  have hc := PageTree.CountsOK_of_mem hk'mem (PageTree.CountsOKList_trimKids sel kids c)
  rcases PageTree.mem_trimKids sel kids c k' hk'mem with ⟨n1, g1, d1, e⟩ | ⟨n1, g1, d1, kk, e, hpos⟩
  · subst e
    simp only [PageTree.ref] at hk'
    rw [hkid] at hk'
    simp only [Object.indirectRef.injEq] at hk'
    simp only [PageTree.InTable] at hin
    rw [hk'.1, hfk] at hin
    simp only [Option.some.injEq, XRefEntry.object.injEq, Object.dict.injEq] at hin
    rw [hin.1, hin.2] at htk
    simp at htk
  · subst e
    simp only [PageTree.ref] at hk'
    rw [hkid] at hk'
    simp only [Object.indirectRef.injEq] at hk'
    simp only [PageTree.InTable] at hin
    simp only [PageTree.CountsOK] at hc
    rw [hk'.1, hfk] at hin
    simp only [Option.some.injEq, XRefEntry.object.injEq, Object.dict.injEq] at hin
    rw [hin.1, hc.1]
    simp only [ne_eq, Option.some.injEq, Object.integer.injEq]
    omega

mutual
theorem PageTree.noEmptyKid_of_trimmed (x : XRefTable) (sel : Int → Bool) :
    ∀ (T : PageTree) (c : Int), T.TrimmedInTable x sel c → ∀ n ∈ T.objNrs, NoEmptyKid x n
  | .null, _ => fun _ n hn => by simp [PageTree.objNrs] at hn
  | .page nr gen d, _ => fun h n hn => by
    simp only [PageTree.objNrs, List.mem_singleton] at hn
    subst hn
    simp only [PageTree.TrimmedInTable, PageTree.InTable] at h
    intro dn _ _ _ _ _ hfn htn
    rw [h.1] at hfn
    simp only [Option.some.injEq, XRefEntry.object.injEq, Object.dict.injEq] at hfn
    rw [← hfn, h.2] at htn
    simp at htn
  | .pages nr gen d kids, c => fun h n hn => by
    simp only [PageTree.TrimmedInTable] at h
    simp only [PageTree.objNrs, List.mem_cons] at hn
    rcases hn with hn | hn
    · subst hn
      exact noEmptyKid_of_trim x sel _ gen d kids c h.1
    · exact PageTree.noEmptyKid_of_trimmedList x sel kids c h.2 n hn
theorem PageTree.noEmptyKid_of_trimmedList (x : XRefTable) (sel : Int → Bool) :
    ∀ (ks : List PageTree) (c : Int), PageTree.TrimmedInTableList x sel ks c →
      ∀ n ∈ PageTree.objNrsList ks, NoEmptyKid x n
  | [], _ => fun _ n hn => by simp [PageTree.objNrsList] at hn
  | k :: ks, c => fun h n hn => by
    simp only [PageTree.TrimmedInTableList] at h
    simp only [PageTree.objNrsList, List.mem_append] at hn
    rcases hn with hn | hn
    · exact PageTree.noEmptyKid_of_trimmed x sel k c h.1 n hn
    · exact PageTree.noEmptyKid_of_trimmedList x sel ks _ h.2 n hn
end

/-- What a successful `trimPagesDict` on the root of a tree leaves in the table:
a tree at the root in which every internal node's `Count` is the number of leaves
below it, and no `Kids` sequence of a node of the original tree (retained or
dropped) refers to an internal node whose `Count` is 0. -/
theorem trimPagesDict_counts_of_ok (cfg : Config) (fuel : Nat) (nr gen : Nat) (d : Dict)
    (kids : List PageTree) (ctx ctx' : Context) (c c' cnt : Int)
    (hin : (PageTree.pages nr gen d kids).InTable ctx.xRefTable)
    (hnd : (PageTree.pages nr gen d kids).objNrs.Nodup)
    (hw : ctx.table = [])
    (h : trimPagesDict cfg fuel ctx ⟨nr, gen⟩ c = (ctx', c', .ok cnt)) :
    (∃ T' : PageTree, T'.InTable ctx'.xRefTable ∧ T'.ref = .indirectRef nr gen ∧ T'.CountsOK) ∧
    ∀ n ∈ (PageTree.pages nr gen d kids).objNrs, NoEmptyKid ctx'.xRefTable n := by
  obtain ⟨a1, _, _, _, _⟩ := trimPagesDict_tree cfg fuel nr gen d kids ctx ctx' c c' cnt hin hnd
    (fun n _ => Context.HasWriteOffset_of_table_nil ctx hw n) h
  refine ⟨⟨(PageTree.pages nr gen d kids).trim cfg.extractPage c, ?_, ?_, ?_⟩, ?_⟩
  · simp only [PageTree.TrimmedInTable] at a1; exact a1.1
  · simp [PageTree.trim, PageTree.ref]
  · exact PageTree.CountsOK_trim _ _ _
  · exact PageTree.noEmptyKid_of_trimmed _ _ _ c a1

/-- C4: for a tree-shaped page tree held by the table whose internal nodes carry
an integer `Count` (whatever its value), every selection and every nesting bound
that covers the levels of the tree, `trimPagesDict` on the root with an empty
written-set succeeds, and after it the table holds at the root a tree in which
every internal node's `Count` is the number of leaves below it, and no `Kids`
sequence of a node of the original tree (retained or dropped) refers to an
internal node whose `Count` is 0. -/
theorem trimPagesDict_counts (cfg : Config) (fuel : Nat) (nr gen : Nat) (d : Dict)
    (kids : List PageTree) (ctx : Context) (c : Int)
    (hin : (PageTree.pages nr gen d kids).InTable ctx.xRefTable)
    (hnd : (PageTree.pages nr gen d kids).objNrs.Nodup)
    (hw : ctx.table = [])
    (hcnt : (PageTree.pages nr gen d kids).HasCount)
    (hfuel : (PageTree.pages nr gen d kids).levels ≤ fuel + 1) :
    ∃ ctx' c' cnt, trimPagesDict cfg fuel ctx ⟨nr, gen⟩ c = (ctx', c', .ok cnt) ∧
      (∃ T' : PageTree, T'.InTable ctx'.xRefTable ∧ T'.ref = .indirectRef nr gen ∧
        T'.CountsOK) ∧
      ∀ n ∈ (PageTree.pages nr gen d kids).objNrs, NoEmptyKid ctx'.xRefTable n := by
  obtain ⟨ctx', c', cnt, h⟩ := trimPagesDict_total cfg fuel nr gen d kids ctx c hin hnd
    (fun n _ => Context.HasWriteOffset_of_table_nil ctx hw n) hcnt hfuel
  exact ⟨ctx', c', cnt, h,
    trimPagesDict_counts_of_ok cfg fuel nr gen d kids ctx ctx' c c' cnt hin hnd hw h⟩

/-- C4 at the three-level document, keeping ordinal 2 only: with nesting bound 2
the call succeeds; the subtree of object 2 is dropped (the `Count` of the nodes 2
and 3 becomes 0) and the root ends with `Kids = [6 0 R]`, `Count = 1`. -/
theorem trimPagesDict_counts_witness :
    threeLevelTree.levels = 3 ∧
    (trimPagesDict (exampleConfig 0 (fun i => decide (i = 2)) true) 2
      (startContext threeLevelDoc) ⟨1, 0⟩ 0).2 = (2, .ok 1) ∧
    XRefTable.nodeEntry (trimPagesDict (exampleConfig 0 (fun i => decide (i = 2)) true) 2
      (startContext threeLevelDoc) ⟨1, 0⟩ 0).1.xRefTable 1 "Kids" =
        some (some (.array [.indirectRef 6 0])) ∧
    XRefTable.nodeEntry (trimPagesDict (exampleConfig 0 (fun i => decide (i = 2)) true) 2
      (startContext threeLevelDoc) ⟨1, 0⟩ 0).1.xRefTable 1 "Count" = some (some (.integer 1)) ∧
    XRefTable.nodeEntry (trimPagesDict (exampleConfig 0 (fun i => decide (i = 2)) true) 2
      (startContext threeLevelDoc) ⟨1, 0⟩ 0).1.xRefTable 2 "Count" = some (some (.integer 0)) ∧
    XRefTable.nodeEntry (trimPagesDict (exampleConfig 0 (fun i => decide (i = 2)) true) 2
      (startContext threeLevelDoc) ⟨1, 0⟩ 0).1.xRefTable 3 "Count" = some (some (.integer 0)) ∧
    (∃ ctx' c' cnt,
      trimPagesDict (exampleConfig 0 (fun i => decide (i = 2)) true) 2
        (startContext threeLevelDoc) ⟨1, 0⟩ 0 = (ctx', c', .ok cnt) ∧
      (∃ T' : PageTree, T'.InTable ctx'.xRefTable ∧ T'.ref = .indirectRef 1 0 ∧
        T'.CountsOK) ∧
      ∀ n ∈ threeLevelTree.objNrs, NoEmptyKid ctx'.xRefTable n) :=
  ⟨by decide, rfl, rfl, rfl, rfl, rfl,
    trimPagesDict_counts (exampleConfig 0 (fun i => decide (i = 2)) true) 2 1 0 _ _
      (startContext threeLevelDoc) 0 threeLevelTree_inTable threeLevelTree_nodup rfl
      threeLevelTree_hasCount (by decide)⟩

/-- What a successful `trimPagesDict` on the root of a tree, started with counter
0, leaves and returns: the leaves of the tree at the root are the original leaves
with a selected ordinal, the count returned is the number of selected ordinals
and the counter ends at the number of leaves. -/
theorem trimPagesDict_selects_of_ok (cfg : Config) (fuel : Nat) (nr gen : Nat) (d : Dict)
    (kids : List PageTree) (ctx ctx' : Context) (c' cnt : Int)
    (hin : (PageTree.pages nr gen d kids).InTable ctx.xRefTable)
    (hnd : (PageTree.pages nr gen d kids).objNrs.Nodup)
    (hw : ctx.table = [])
    (h : trimPagesDict cfg fuel ctx ⟨nr, gen⟩ 0 = (ctx', c', .ok cnt)) :
    (∃ T' : PageTree, T'.InTable ctx'.xRefTable ∧ T'.ref = .indirectRef nr gen ∧
      T'.leaves = selectLeaves cfg.extractPage 0 (PageTree.pages nr gen d kids).leaves) ∧
    cnt = (((List.range (PageTree.pages nr gen d kids).leaves.length).filter
      (fun (i : Nat) => cfg.extractPage ((i : Int) + 1))).length : Int) ∧
    c' = ((PageTree.pages nr gen d kids).leaves.length : Int) := by
  obtain ⟨a1, a2, a3, _, _⟩ := trimPagesDict_tree cfg fuel nr gen d kids ctx ctx' 0 c' cnt hin hnd
    (fun n _ => Context.HasWriteOffset_of_table_nil ctx hw n) h
  refine ⟨⟨(PageTree.pages nr gen d kids).trim cfg.extractPage 0, ?_, ?_, ?_⟩, ?_, ?_⟩
  · simp only [PageTree.TrimmedInTable] at a1; exact a1.1
  · simp [PageTree.trim, PageTree.ref]
  · simp only [PageTree.trim, PageTree.leaves]
    exact PageTree.leavesList_trimKids _ kids 0
  · rw [a2, ← PageTree.length_leavesList, PageTree.leavesList_trimKids, length_selectLeaves]
    simp only [PageTree.leaves, zero_add]
    congr 3
    funext i
    rw [add_comm]
  · rw [a3, zero_add, PageTree.leaves, PageTree.length_leavesList]

/-- C5: for a tree-shaped page tree held by the table with `N` leaves, whose
internal nodes carry an integer `Count`, every selection and every nesting bound
that covers the levels of the tree, `trimPagesDict` on the root with counter 0
and an empty written-set succeeds, and after it the table holds at the root a
tree whose leaves, in document order, are the original leaves with a selected
1-based ordinal, in their original order; the returned count is the number of
selected ordinals in `1..N`, and the counter ends at `N`. -/
theorem trimPagesDict_selects (cfg : Config) (fuel : Nat) (nr gen : Nat) (d : Dict)
    (kids : List PageTree) (ctx : Context)
    (hin : (PageTree.pages nr gen d kids).InTable ctx.xRefTable)
    (hnd : (PageTree.pages nr gen d kids).objNrs.Nodup)
    (hw : ctx.table = [])
    (hcnt : (PageTree.pages nr gen d kids).HasCount)
    (hfuel : (PageTree.pages nr gen d kids).levels ≤ fuel + 1) :
    ∃ ctx' c' cnt, trimPagesDict cfg fuel ctx ⟨nr, gen⟩ 0 = (ctx', c', .ok cnt) ∧
      (∃ T' : PageTree, T'.InTable ctx'.xRefTable ∧ T'.ref = .indirectRef nr gen ∧
        T'.leaves = selectLeaves cfg.extractPage 0 (PageTree.pages nr gen d kids).leaves) ∧
      cnt = (((List.range (PageTree.pages nr gen d kids).leaves.length).filter
        (fun (i : Nat) => cfg.extractPage ((i : Int) + 1))).length : Int) ∧
      c' = ((PageTree.pages nr gen d kids).leaves.length : Int) := by
  obtain ⟨ctx', c', cnt, h⟩ := trimPagesDict_total cfg fuel nr gen d kids ctx 0 hin hnd
    (fun n _ => Context.HasWriteOffset_of_table_nil ctx hw n) hcnt hfuel
  exact ⟨ctx', c', cnt, h,
    trimPagesDict_selects_of_ok cfg fuel nr gen d kids ctx ctx' c' cnt hin hnd hw h⟩

/-- C5 at the three-level document, keeping ordinal 1 only: with nesting bound 2
the call succeeds, the count returned is 1, the counter ends at 2, and the only
leaf left is leaf 4, the first leaf. -/
theorem trimPagesDict_selects_witness :
    selectLeaves (fun i => decide (i = 1)) 0 threeLevelTree.leaves =
      [.page 4 0 (examplePage 3)] ∧
    (trimPagesDict (exampleConfig 0 (fun i => decide (i = 1)) true) 2
      (startContext threeLevelDoc) ⟨1, 0⟩ 0).2 = (2, .ok 1) ∧
    (∃ ctx' c' cnt,
      trimPagesDict (exampleConfig 0 (fun i => decide (i = 1)) true) 2
        (startContext threeLevelDoc) ⟨1, 0⟩ 0 = (ctx', c', .ok cnt) ∧
      (∃ T' : PageTree, T'.InTable ctx'.xRefTable ∧ T'.ref = .indirectRef 1 0 ∧
        T'.leaves = selectLeaves (exampleConfig 0 (fun i => decide (i = 1)) true).extractPage 0
          threeLevelTree.leaves) ∧
      cnt = (((List.range threeLevelTree.leaves.length).filter
        (fun (i : Nat) => (exampleConfig 0 (fun i => decide (i = 1)) true).extractPage
          ((i : Int) + 1))).length : Int) ∧
      c' = (threeLevelTree.leaves.length : Int)) :=
  ⟨rfl, rfl,
    trimPagesDict_selects (exampleConfig 0 (fun i => decide (i = 1)) true) 2 1 0 _ _
      (startContext threeLevelDoc) threeLevelTree_inTable threeLevelTree_nodup rfl
      threeLevelTree_hasCount (by decide)⟩

/-! ## Empty internal node (C13) -/

/-- C13: on an unwritten node whose `Count` is 0 `writePagesDict` returns success
and the context unchanged (written-set, offset, statistics, write log and table,
hence the node's `Kids` and `Count`), in extraction mode and outside it, for
every recursion bound and whatever the `Kids` entry holds, also when it is
missing or not an array. -/
theorem writePagesDict_emptyCount (cfg : Config) (fuel : Nat) (ctx : Context)
    (indRef : IndirectRef) (pageCount : Int) (dict : Dict)
    (hw : ctx.HasWriteOffset indRef.objectNumber = false)
    (hd : XRefTable.DereferenceDict ctx.xRefTable indRef = some (some dict))
    (hc : Dict.Find dict "Count" = some (.integer 0)) :
    writePagesDict cfg fuel ctx indRef pageCount = (ctx, .ok ()) := by
  cases fuel <;> simp [writePagesDict, writePagesDictBody, hw, hd, hc]

/-- C13 at the empty root of `emptyDoc`, which has no `Kids` entry, in extraction
mode. -/
theorem writePagesDict_emptyCount_witness :
    (startContext emptyDoc).HasWriteOffset 1 = false ∧
    XRefTable.DereferenceDict (startContext emptyDoc).xRefTable ⟨1, 0⟩ = some (some emptyPages) ∧
    Dict.Find emptyPages "Count" = some (.integer 0) ∧
    Dict.Find emptyPages "Kids" = none ∧
    writePagesDict (exampleConfig 1 (fun _ => false) true) 0 (startContext emptyDoc) ⟨1, 0⟩ 0 =
      (startContext emptyDoc, .ok ()) :=
  ⟨rfl, rfl, rfl, rfl,
    writePagesDict_emptyCount (exampleConfig 1 (fun _ => false) true) 0 (startContext emptyDoc)
      ⟨1, 0⟩ 0 emptyPages rfl rfl rfl⟩

/-! ## Null kids and fail-fast dispatch (C14, C16) -/

theorem writeKidsWith_cons (cfg : Config)
    (recur : Context → IndirectRef → Int → Context × Except Failure Unit)
    (ctx : Context) (obj : Object) (rest : List Object) (pc : Int) :
    writeKidsWith cfg recur ctx (obj :: rest) pc =
      match pageNodeDict ctx obj with
      | (ctx1, .error f) => (ctx1, .error f)
      | (ctx1, .ok none) => writeKidsWith cfg recur ctx1 rest pc
      | (ctx1, .ok (some (d, indRef))) =>
        match (if Dict.Type d = some "Pages" then recur ctx1 indRef pc
          else if Dict.Type d = some "Page" then writePageDict cfg ctx1 indRef d
          else (ctx1, .error (.err (.writeKidsUnexpectedType ((Dict.Type d).getD ""))))) with
        | (ctx2, .error f) => (ctx2, .error f)
        | (ctx2, .ok ()) => writeKidsWith cfg recur ctx2 rest pc := by
  rw [writeKidsWith]
  try rfl

theorem writeKidsWith_filter_nil (cfg : Config)
    (recur : Context → IndirectRef → Int → Context × Except Failure Unit)
    (arr : List Object) (ctx : Context) (pc : Int) :
    writeKidsWith cfg recur ctx arr pc =
      writeKidsWith cfg recur ctx (arr.filter (fun o => !o.isNil)) pc := by
  induction arr generalizing ctx with
  | nil => rfl
  | cons obj rest ih =>
    by_cases hn : obj.isNil = true
    · have e : (obj :: rest).filter (fun o => !o.isNil) = rest.filter (fun o => !o.isNil) := by
        simp [List.filter_cons, hn]
      rw [e, ← ih, writeKidsWith_cons]
      cases obj with
      | null => simp [pageNodeDict]
      | integer i => simp [Object.isNil] at hn
      | name s => simp [Object.isNil] at hn
      | array a => simp [Object.isNil] at hn
      | dict d => simp [Object.isNil] at hn
      | indirectRef nr gen => simp [Object.isNil] at hn
    · have e : (obj :: rest).filter (fun o => !o.isNil) =
          obj :: rest.filter (fun o => !o.isNil) := by
        simp [List.filter_cons, hn]
      rw [e, writeKidsWith_cons, writeKidsWith_cons]
      split
      · rfl
      · exact ih _
      · split
        · rfl
        · exact ih _

/-- C14: `writeKids` on a `Kids` sequence returns the same result and the same
final context (write log, written-set, offset, statistics, table) as `writeKids`
on the sequence without its nil entries. -/
theorem writeKids_skips_nil (cfg : Config) (fuel : Nat) (ctx : Context) (arr : List Object)
    (pageCount : Int) :
    writeKids cfg fuel ctx arr pageCount =
      writeKids cfg fuel ctx (arr.filter (fun o => !o.isNil)) pageCount :=
  writeKidsWith_filter_nil cfg (writePagesDict cfg fuel) arr ctx pageCount

theorem writeKidsWith_append (cfg : Config)
    (recur : Context → IndirectRef → Int → Context × Except Failure Unit)
    (pre post : List Object) (ctx : Context) (pc : Int) :
    writeKidsWith cfg recur ctx (pre ++ post) pc =
      match writeKidsWith cfg recur ctx pre pc with
      | (ctx1, .error f) => (ctx1, .error f)
      | (ctx1, .ok ()) => writeKidsWith cfg recur ctx1 post pc := by
  induction pre generalizing ctx with
  | nil => simp [writeKidsWith]
  | cons obj rest ih =>
    rw [List.cons_append, writeKidsWith_cons, writeKidsWith_cons]
    split
    · rfl
    · exact ih _
    · split
      · rfl
      · exact ih _

theorem writeKids_out_grows (cfg : Config) (fuel : Nat) (ctx : Context) (arr : List Object)
    (pc : Int) : ∃ new, (writeKids cfg fuel ctx arr pc).1.out = ctx.out ++ new := by
  obtain ⟨new, h, _⟩ := writeKidsWith_writesOnce cfg (writePagesDict cfg fuel)
    (fun c r p _ => writePagesDict_writesOnce_all cfg fuel c r p) arr ctx pc
  exact ⟨new, h⟩

/-- C16: if `writeKids` succeeds on the kids before position `k` and the kid at
position `k` fails (in `pageNodeDict`, by its type tag, or in `writePagesDict` or
`writePageDict`), then `writeKids` on the whole sequence returns exactly that
error and the context in which the kid at position `k` failed, whatever follows
position `k`: no later kid is resolved or written; the log written for the kids
before position `k` is a prefix of the final log. -/
theorem writeKids_fail_fast (cfg : Config) (fuel : Nat) (ctx ctx1 ctx2 : Context)
    (pre post : List Object) (kid : Object) (pageCount : Int) (f : Failure)
    (hpre : writeKids cfg fuel ctx pre pageCount = (ctx1, .ok ()))
    (hkid : writeKids cfg fuel ctx1 [kid] pageCount = (ctx2, .error f)) :
    writeKids cfg fuel ctx (pre ++ kid :: post) pageCount = (ctx2, .error f) ∧
    (∃ new1, ctx1.out = ctx.out ++ new1) ∧ (∃ new2, ctx2.out = ctx1.out ++ new2) := by
  refine ⟨?_, ?_, ?_⟩
  · unfold writeKids at hpre hkid ⊢
    rw [writeKidsWith_append, hpre]
    simp only []
    have := writeKidsWith_append cfg (writePagesDict cfg fuel) [kid] post ctx1 pageCount
    simp only [List.singleton_append] at this
    rw [this, hkid]
  · have := writeKids_out_grows cfg fuel ctx pre pageCount
    rw [hpre] at this; exact this
  · have := writeKids_out_grows cfg fuel ctx1 [kid] pageCount
    rw [hkid] at this; exact this

/-- C16 at `orphanDoc` with a third kid: leaf 2 is written, leaf 3 fails for its
missing `Parent`, and the kid after it is not touched. -/
theorem writeKids_fail_fast_witness :
    (writeKids (exampleConfig 0 (fun _ => false) false) 0 (startContext orphanDoc)
      [.indirectRef 2 0] 0).2 = .ok () ∧
    (writeKids (exampleConfig 0 (fun _ => false) false) 0
      (writeKids (exampleConfig 0 (fun _ => false) false) 0 (startContext orphanDoc)
        [.indirectRef 2 0] 0).1 [.indirectRef 3 0] 0).2 =
        .error (.err .writePageDictMissingParent) ∧
    (writeKids (exampleConfig 0 (fun _ => false) false) 0 (startContext orphanDoc)
      ([.indirectRef 2 0] ++ .indirectRef 3 0 :: [.integer 5]) 0).2 =
        .error (.err .writePageDictMissingParent) ∧
    (writeKids (exampleConfig 0 (fun _ => false) false) 0 (startContext orphanDoc)
      ([.indirectRef 2 0] ++ .indirectRef 3 0 :: [.integer 5]) 0).1.table = [(3, 24), (2, 0)] :=
  ⟨rfl, rfl,
    congrArg Prod.snd (writeKids_fail_fast (exampleConfig 0 (fun _ => false) false) 0
      (startContext orphanDoc) _ _ [.indirectRef 2 0] [.integer 5] (.indirectRef 3 0) 0 _
      rfl rfl).1,
    rfl⟩

/-! ## The entry table of the leaf writer (C18) -/

/-- C18 fails as stated: the table that `writePageDict` walks does not have 23
entries. -/
theorem pageDictEntries_not_23 :
    ¬ (pageDictEntries.length = 23 ∧ (pageDictEntries.map Prod.fst).Nodup) :=
  fun h => absurd h.1 (by decide)

/-- C18, amended: the table of page-level attributes that `writePageDict` walks
in order for every leaf has exactly 28 entries with pairwise distinct attribute
names. -/
theorem pageDictEntries_28 :
    pageDictEntries.length = 28 ∧ (pageDictEntries.map Prod.fst).Nodup := by
  refine ⟨rfl, ?_⟩
  decide

/-! ## Annotations of a leaf (C17) -/

theorem Dict.Find_Delete_self (d : Dict) (k : String) : Dict.Find (Dict.Delete d k) k = none := by
  induction d with
  | nil => rfl
  | cons e rest ih =>
    obtain ⟨a, b⟩ := e
    simp only [Dict.Delete] at ih ⊢
    by_cases hak : a = k
    · simp [hak, ih, List.filter_cons]
    · simp [Dict.Find, hak, ih, List.filter_cons]

/-- What `writePageEntries` appends, however it ends: attribute events of entries
that the dictionary binds to a non-nil object, and statistic kinds of such
entries of the table. -/
theorem writePageEntries_all (cfg : Config) (d : Dict) (dn : String)
    (es : List (String × PageAttr)) (ctx : Context) :
    ∃ new s, (writePageEntries cfg d dn ctx es).1.out = ctx.out ++ new ∧
      (writePageEntries cfg d dn ctx es).1.stats = ctx.stats ++ s ∧
      (∀ e ∈ new, ∃ en o, e = .entry dn en o ∧ Dict.Find d en = some o) ∧
      (∀ a ∈ s, ∃ en o, (en, a) ∈ es ∧ Dict.Find d en = some o) := by
  induction es generalizing ctx with
  | nil => exact ⟨[], [], by simp [writePageEntries], by simp [writePageEntries], by simp, by simp⟩
  | cons e es ih =>
    obtain ⟨en, a⟩ := e
    have h1 : ∃ new s, (writePageEntry cfg ctx d dn en a).1.out = ctx.out ++ new ∧
        (writePageEntry cfg ctx d dn en a).1.stats = ctx.stats ++ s ∧
        (∀ e ∈ new, ∃ o, e = .entry dn en o ∧ Dict.Find d en = some o) ∧
        (∀ a' ∈ s, a' = a ∧ ∃ o, Dict.Find d en = some o) := by
      unfold writePageEntry writeEntry
      cases hf : Dict.Find d en with
      | none => exact ⟨[], [], by simp [Object.isNil_null], by simp [Object.isNil_null], by simp,
          by simp⟩
      | some o =>
        by_cases hn : o.isNil = true
        · exact ⟨[], [], by simp [hn, Object.isNil_null], by simp [hn, Object.isNil_null],
            by simp, by simp⟩
        · by_cases he : cfg.entryFails ctx.offset dn en = true
          · exact ⟨[], [], by simp [hn, he], by simp [hn, he], by simp, by simp⟩
          · exact ⟨[.entry dn en o], [a], by simp [hn, he], by simp [hn, he], by simp, by simp⟩
    unfold writePageEntries
    split
    · next ctx1 f heq =>
      rw [heq] at h1
      obtain ⟨new, s, ho, hs, hn, ha⟩ := h1
      refine ⟨new, s, ho, hs, ?_, ?_⟩
      · intro e he
        obtain ⟨o, h⟩ := hn e he
        exact ⟨en, o, h⟩
      · intro a' ha'
        obtain ⟨e1, o, h⟩ := ha a' ha'
        exact ⟨en, o, by simp [e1], h⟩
    · next ctx1 heq =>
      rw [heq] at h1
      obtain ⟨new, s, ho, hs, hn, ha⟩ := h1
      obtain ⟨new2, s2, ho2, hs2, hn2, ha2⟩ := ih ctx1
      simp only [] at ho hs
      refine ⟨new ++ new2, s ++ s2, by rw [ho2, ho]; simp, by rw [hs2, hs]; simp, ?_, ?_⟩
      · intro e he
        rcases List.mem_append.1 he with he | he
        · obtain ⟨o, h⟩ := hn e he
          exact ⟨en, o, h⟩
        · exact hn2 e he
      · intro a' ha'
        rcases List.mem_append.1 ha' with ha' | ha'
        · obtain ⟨e1, o, h⟩ := ha a' ha'
          exact ⟨en, o, by simp [e1], h⟩
        · obtain ⟨en', o, hm, h⟩ := ha2 a' ha'
          exact ⟨en', o, List.mem_cons_of_mem _ hm, h⟩

/-- What `writePageDict` appends, however it ends: at most one record, the
leaf's record `pageRecord cfg pageDict`, then attribute events and statistic
kinds of entries that this record binds. -/
theorem writePageDict_all (cfg : Config) (ctx : Context) (indRef : IndirectRef)
    (pageDict : Dict) :
    ∃ new s, (writePageDict cfg ctx indRef pageDict).1.out = ctx.out ++ new ∧
      (writePageDict cfg ctx indRef pageDict).1.stats = ctx.stats ++ s ∧
      (∀ e ∈ new,
        e = .record indRef.objectNumber indRef.generationNumber (pageRecord cfg pageDict) ∨
        ∃ en o, e = .entry "pageDict" en o ∧ Dict.Find (pageRecord cfg pageDict) en = some o) ∧
      (∀ a ∈ s, ∃ en o, (en, a) ∈ pageDictEntries ∧
        Dict.Find (pageRecord cfg pageDict) en = some o) := by
  have key : ∀ (ctx0 : Context) (pd : Dict), ctx0.out = ctx.out → ctx0.stats = ctx.stats →
      ∃ new s,
        (match writeDictObject cfg ctx0 indRef.objectNumber indRef.generationNumber pd with
          | (ctx1, .error f) => (ctx1, Except.error f)
          | (ctx1, .ok ()) =>
            match Dict.IndirectRefEntry pd "Parent" with
            | none => (ctx1, .error (.err .writePageDictMissingParent))
            | some _ => writePageEntries cfg pd "pageDict" ctx1 pageDictEntries).1.out =
          ctx.out ++ new ∧
        (match writeDictObject cfg ctx0 indRef.objectNumber indRef.generationNumber pd with
          | (ctx1, .error f) => (ctx1, Except.error f)
          | (ctx1, .ok ()) =>
            match Dict.IndirectRefEntry pd "Parent" with
            | none => (ctx1, .error (.err .writePageDictMissingParent))
            | some _ => writePageEntries cfg pd "pageDict" ctx1 pageDictEntries).1.stats =
          ctx.stats ++ s ∧
        (∀ e ∈ new, e = .record indRef.objectNumber indRef.generationNumber pd ∨
          ∃ en o, e = .entry "pageDict" en o ∧ Dict.Find pd en = some o) ∧
        (∀ a ∈ s, ∃ en o, (en, a) ∈ pageDictEntries ∧ Dict.Find pd en = some o) := by
    intro ctx0 pd ho hs
    unfold writeDictObject
    by_cases hf : cfg.recordFails ctx0.offset indRef.objectNumber = true
    · exact ⟨[], [], by simp [hf, ho], by simp [hf, hs], by simp, by simp⟩
    · simp only [hf, Bool.false_eq_true, if_false]
      cases Dict.IndirectRefEntry pd "Parent" with
      | none =>
        exact ⟨[.record indRef.objectNumber indRef.generationNumber pd], [], by simp [ho],
          by simp [hs], by simp, by simp⟩
      | some r =>
        simp only []
        obtain ⟨new, s, h1, h2, h3, h4⟩ := writePageEntries_all cfg pd "pageDict" pageDictEntries
          { ctx0 with
            table := (indRef.objectNumber, ctx0.offset) :: ctx0.table
            offset := ctx0.offset + cfg.recordSize indRef.objectNumber indRef.generationNumber pd
            out := ctx0.out ++ [.record indRef.objectNumber indRef.generationNumber pd] }
        refine ⟨.record indRef.objectNumber indRef.generationNumber pd :: new, s, ?_, ?_, ?_, h4⟩
        · rw [h1]; simp [ho]
        · rw [h2]; simp [hs]
        · intro e he
          rcases List.mem_cons.1 he with he | he
          · exact Or.inl he
          · exact Or.inr (h3 e he)
  unfold writePageDict
  exact key _ _ (by split <;> rfl) (by split <;> rfl)


theorem writePageEntries_ok_mem (cfg : Config) (d : Dict) (dn : String)
    (es : List (String × PageAttr)) (ctx ctx' : Context)
    (h : writePageEntries cfg d dn ctx es = (ctx', .ok ()))
    (en : String) (a : PageAttr) (o : Object) (hm : (en, a) ∈ es)
    (hf : Dict.Find d en = some o) (hn : o.isNil = false) :
    .entry dn en o ∈ ctx'.out ∧ a ∈ ctx'.stats := by
  induction es generalizing ctx with
  | nil => simp at hm
  | cons e es ih =>
    obtain ⟨en1, a1⟩ := e
    unfold writePageEntries at h
    split at h
    · simp at h
    · next ctx1 heq =>
      rcases List.mem_cons.1 hm with hm | hm
      · simp only [Prod.mk.injEq] at hm
        obtain ⟨e1, e2⟩ := hm
        subst e1 e2
        have h1 : .entry dn en o ∈ ctx1.out ∧ a ∈ ctx1.stats := by
          unfold writePageEntry writeEntry at heq
          by_cases he : cfg.entryFails ctx.offset dn en = true
          · simp [hf, hn, he] at heq
          · simp [hf, hn, he] at heq
            subst heq
            simp
        obtain ⟨new, s, ho, hs, _, _⟩ := writePageEntries_all cfg d dn es ctx1
        rw [h] at ho hs
        simp only [] at ho hs
        rw [ho, hs]
        exact ⟨List.mem_append_left _ h1.1, List.mem_append_left _ h1.2⟩
      · exact ih ctx1 h hm

/-- C17 fails as stated: under a profile that is not reduced, the leaf
`annotsOrphanPage` carries `Annots`, its record is handed to the record writer
with `Annots`, but `writePageDict` returns the missing-parent error before the
attribute walk: no `Annots` attribute is emitted and no statistic is recorded. -/
theorem writePageDict_annots_not_emitted :
    (exampleConfig 0 (fun _ => false) false).reducedFeatureSet = false ∧
    Dict.Find annotsOrphanPage "Annots" = some (.array [.indirectRef 8 0]) ∧
    (writePageDict (exampleConfig 0 (fun _ => false) false) (startContext annotsOrphanDoc)
      ⟨3, 0⟩ annotsOrphanPage).2 = .error (.err .writePageDictMissingParent) ∧
    (writePageDict (exampleConfig 0 (fun _ => false) false) (startContext annotsOrphanDoc)
      ⟨3, 0⟩ annotsOrphanPage).1.out = [.record 3 0 annotsOrphanPage] ∧
    (writePageDict (exampleConfig 0 (fun _ => false) false) (startContext annotsOrphanDoc)
      ⟨3, 0⟩ annotsOrphanPage).1.stats = [] ∧
    Event.entry "pageDict" "Annots" (.array [.indirectRef 8 0]) ∉
      (writePageDict (exampleConfig 0 (fun _ => false) false) (startContext annotsOrphanDoc)
        ⟨3, 0⟩ annotsOrphanPage).1.out := by
  refine ⟨rfl, rfl, rfl, rfl, rfl, ?_⟩
  have h : (writePageDict (exampleConfig 0 (fun _ => false) false)
      (startContext annotsOrphanDoc) ⟨3, 0⟩ annotsOrphanPage).1.out =
      [.record 3 0 annotsOrphanPage] := rfl
  rw [h]
  simp

/-- C17, amended: (1) under the reduced feature set, however `writePageDict`
ends, every record it hands to the record writer has no `Annots` entry, no
`Annots` attribute is emitted and no `Annots` statistic is recorded, whether or
not the leaf carried `Annots`. (2) Under a profile that is not reduced, an
`Annots` entry of the leaf (bound to a non-nil object) is in every record handed
to the record writer, and when the call succeeds the `Annots` attribute is
emitted and its statistic recorded. -/
theorem writePageDict_annots :
    (∀ (cfg : Config) (ctx : Context) (indRef : IndirectRef) (pageDict : Dict),
      cfg.reducedFeatureSet = true →
      ∃ new s, (writePageDict cfg ctx indRef pageDict).1.out = ctx.out ++ new ∧
        (writePageDict cfg ctx indRef pageDict).1.stats = ctx.stats ++ s ∧
        (∀ nr gen d, Event.record nr gen d ∈ new → Dict.Find d "Annots" = none) ∧
        (∀ dn o, Event.entry dn "Annots" o ∉ new) ∧
        PageAttr.PageAnnots ∉ s) ∧
    (∀ (cfg : Config) (ctx : Context) (indRef : IndirectRef) (pageDict : Dict) (o : Object),
      cfg.reducedFeatureSet = false →
      Dict.Find pageDict "Annots" = some o → o.isNil = false →
      (∃ new, (writePageDict cfg ctx indRef pageDict).1.out = ctx.out ++ new ∧
        ∀ nr gen d, Event.record nr gen d ∈ new → Dict.Find d "Annots" = some o) ∧
      ((writePageDict cfg ctx indRef pageDict).2 = .ok () →
        Event.record indRef.objectNumber indRef.generationNumber pageDict ∈
          (writePageDict cfg ctx indRef pageDict).1.out ∧
        Event.entry "pageDict" "Annots" o ∈ (writePageDict cfg ctx indRef pageDict).1.out ∧
        PageAttr.PageAnnots ∈ (writePageDict cfg ctx indRef pageDict).1.stats)) := by
  constructor
  · intro cfg ctx indRef pageDict hr
    obtain ⟨new, s, ho, hs, hn, ha⟩ := writePageDict_all cfg ctx indRef pageDict
    have hpr : pageRecord cfg pageDict = Dict.Delete pageDict "Annots" := by
      simp [pageRecord, hr]
    rw [hpr] at hn ha
    refine ⟨new, s, ho, hs, ?_, ?_, ?_⟩
    · intro nr gen d hm
      rcases hn _ hm with h | ⟨en, o, h, _⟩
      · simp only [Event.record.injEq] at h
        rw [h.2.2]
        exact Dict.Find_Delete_self _ _
      · simp at h
    · intro dn o hm
      rcases hn _ hm with h | ⟨en, o', h, hf⟩
      · simp at h
      · simp only [Event.entry.injEq] at h
        rw [← h.2.1, Dict.Find_Delete_self] at hf
        simp at hf
    · intro hm
      obtain ⟨en, o, hmem, hf⟩ := ha _ hm
      have hen : en = "Annots" := by
        simp only [pageDictEntries, List.mem_cons, Prod.mk.injEq, List.mem_singleton,
          List.not_mem_nil, or_false] at hmem
        rcases hmem with h | h | h | h | h | h | h | h | h | h | h | h | h | h | h | h | h | h |
          h | h | h | h | h | h | h | h | h | h <;> first | exact h.1 | (exact absurd h.2 (by decide))
      rw [hen, Dict.Find_Delete_self] at hf
      simp at hf
  · intro cfg ctx indRef pageDict o hr hf hnil
    have hpr : pageRecord cfg pageDict = pageDict := by simp [pageRecord, hr]
    constructor
    · obtain ⟨new, s, ho, _, hn, _⟩ := writePageDict_all cfg ctx indRef pageDict
      rw [hpr] at hn
      refine ⟨new, ho, ?_⟩
      intro nr gen d hm
      rcases hn _ hm with h | ⟨en, o', h, _⟩
      · simp only [Event.record.injEq] at h
        rw [h.2.2]
        exact hf
      · simp at h
    · intro hok
      have hex : ∃ ctx', writePageDict cfg ctx indRef pageDict = (ctx', .ok ()) :=
        ⟨(writePageDict cfg ctx indRef pageDict).1, by rw [← hok]⟩
      obtain ⟨ctx', hrun⟩ := hex
      obtain ⟨_, _, ho⟩ := writePageDict_ok cfg ctx ctx' indRef pageDict hrun
      rw [hrun]
      simp only []
      simp only [hr, Bool.false_eq_true, if_false] at ho
      unfold writePageDict at hrun
      simp only [hr, Bool.false_eq_true, if_false] at hrun
      split at hrun
      · simp at hrun
      · next ctx1 heq =>
        split at hrun
        · simp at hrun
        · have hm := writePageEntries_ok_mem cfg pageDict "pageDict" pageDictEntries ctx1 _ hrun
            "Annots" .PageAnnots o (by simp [pageDictEntries]) hf hnil
          refine ⟨?_, hm.1, hm.2⟩
          rw [ho]
          simp

/-- C17 amended, at leaves of `threeLeafDoc` (which carry `Annots` and `Parent`):
under the reduced feature set the record of leaf 3 has no `Annots` and only
`MediaBox` is emitted; under the other profile the call succeeds and `Annots` is
in the record, emitted and counted. -/
theorem writePageDict_annots_witness :
    (writePageDict (exampleConfig 0 (fun _ => false) true) (startContext threeLeafDoc) ⟨3, 0⟩
      (examplePage 1)).1.out =
      [.record 3 0 [("Type", .name "Page"), ("Parent", .indirectRef 1 0),
          ("MediaBox", .array [.integer 0, .integer 0, .integer 612, .integer 792])],
        .entry "pageDict" "MediaBox"
          (.array [.integer 0, .integer 0, .integer 612, .integer 792])] ∧
    (∃ new s,
      (writePageDict (exampleConfig 0 (fun _ => false) true) (startContext threeLeafDoc) ⟨3, 0⟩
        (examplePage 1)).1.out = (startContext threeLeafDoc).out ++ new ∧
      (writePageDict (exampleConfig 0 (fun _ => false) true) (startContext threeLeafDoc) ⟨3, 0⟩
        (examplePage 1)).1.stats = (startContext threeLeafDoc).stats ++ s ∧
      (∀ nr gen d, Event.record nr gen d ∈ new → Dict.Find d "Annots" = none) ∧
      (∀ dn o, Event.entry dn "Annots" o ∉ new) ∧
      PageAttr.PageAnnots ∉ s) ∧
    Dict.Find (examplePage 1) "Annots" = some (.array []) ∧
    (writePageDict (exampleConfig 0 (fun _ => false) false) (startContext threeLeafDoc) ⟨3, 0⟩
      (examplePage 1)).2 = .ok () ∧
    (Event.record 3 0 (examplePage 1) ∈
        (writePageDict (exampleConfig 0 (fun _ => false) false) (startContext threeLeafDoc)
          ⟨3, 0⟩ (examplePage 1)).1.out ∧
      Event.entry "pageDict" "Annots" (.array []) ∈
        (writePageDict (exampleConfig 0 (fun _ => false) false) (startContext threeLeafDoc)
          ⟨3, 0⟩ (examplePage 1)).1.out ∧
      PageAttr.PageAnnots ∈
        (writePageDict (exampleConfig 0 (fun _ => false) false) (startContext threeLeafDoc)
          ⟨3, 0⟩ (examplePage 1)).1.stats) :=
  ⟨rfl,
    writePageDict_annots.1 (exampleConfig 0 (fun _ => false) true) (startContext threeLeafDoc)
      ⟨3, 0⟩ (examplePage 1) rfl,
    rfl, rfl,
    (writePageDict_annots.2 (exampleConfig 0 (fun _ => false) false)
      (startContext threeLeafDoc) ⟨3, 0⟩ (examplePage 1) (.array []) rfl rfl rfl).2 rfl⟩

/-! ## Locating the kid of a target ordinal over unbounded integers -/

theorem kidsLeaves_append (x : XRefTable) (a b : List Object) :
    kidsLeaves x (a ++ b) = kidsLeaves x a + kidsLeaves x b := by
  induction a with
  | nil => simp [kidsLeaves]
  | cons k ks ih => simp [kidsLeaves, ih, add_assoc]

/-- Inversion of a successful `locateKidForPageNumber`. -/
theorem locateKidForPageNumber_ok (cfg : Config) (ctx : Context) (pn : Int)
    (kids : List Object) (c c' : Int) (kid : Object)
    (h : locateKidForPageNumber cfg ctx kids c pn = (c', .ok kid)) :
    ∃ pre post nr gen d, kids = pre ++ kid :: post ∧ kid = .indirectRef nr gen ∧
      XRefTable.DereferenceDict ctx.xRefTable ⟨nr, gen⟩ = some (some d) ∧
      ((Dict.Type d = some "Pages" ∧ c' = c + kidsLeaves ctx.xRefTable pre ∧
          (c < cfg.extractPageNr → c' < cfg.extractPageNr) ∧
          cfg.extractPageNr ≤ c' + (kidCount ctx.xRefTable kid).getD 0) ∨
        (Dict.Type d = some "Page" ∧ c' = cfg.extractPageNr ∧
          c' = c + kidsLeaves ctx.xRefTable pre + 1)) := by
  induction kids generalizing c with
  | nil => simp [locateKidForPageNumber] at h
  | cons obj rest ih =>
    cases obj with
    | null =>
      simp only [locateKidForPageNumber] at h
      obtain ⟨pre, post, nr, gen, d, hk, hkid, hd, hcase⟩ := ih c h
      refine ⟨.null :: pre, post, nr, gen, d, by simp [hk], hkid, hd, ?_⟩
      simpa [kidsLeaves, kidCount] using hcase
    | integer i => simp [locateKidForPageNumber] at h
    | name s => simp [locateKidForPageNumber] at h
    | array a => simp [locateKidForPageNumber] at h
    | dict d0 => simp [locateKidForPageNumber] at h
    | indirectRef nr gen =>
      simp only [locateKidForPageNumber] at h
      split at h
      · simp at h
      · simp at h
      · next d hd =>
        split at h
        · simp at h
        · next dictType hty =>
          have hkc : ∀ n, kidCount ctx.xRefTable (.indirectRef nr gen) = n →
              n = (match Dict.Type d with
                | some dictType =>
                  if dictType = "Pages" then
                    match Dict.Find d "Count" with
                    | some (.integer n) => some n
                    | _ => none
                  else if dictType = "Page" then some 1
                  else none
                | none => none) := by
            intro n hn
            rw [← hn]
            simp only [kidCount, hd]
          split at h
          · next hpages =>
            subst hpages
            split at h
            · simp at h
            · next pCount hcount =>
              have hk1 : kidCount ctx.xRefTable (.indirectRef nr gen) = some pCount := by
                rw [hkc _ rfl, hty]
                simp [hcount]
              split at h
              · next hlt =>
                obtain ⟨pre, post, nr1, gen1, d1, hk, hkid, hd1, hcase⟩ := ih (c + pCount) h
                refine ⟨.indirectRef nr gen :: pre, post, nr1, gen1, d1, by simp [hk], hkid, hd1, ?_⟩
                simp only [kidsLeaves, hk1, Option.getD_some]
                rcases hcase with ⟨a1, a2, a3, a4⟩ | ⟨a1, a2, a3⟩
                · exact Or.inl ⟨a1, by omega, fun _ => a3 hlt, a4⟩
                · exact Or.inr ⟨a1, a2, by omega⟩
              · next hge =>
                simp only [Prod.mk.injEq, Except.ok.injEq] at h
                obtain ⟨h1, h2⟩ := h
                subst h1 h2
                refine ⟨[], rest, nr, gen, d, by simp, rfl, hd, Or.inl ⟨hty, ?_, ?_, ?_⟩⟩
                · simp [kidsLeaves]
                · exact fun hc => hc
                · rw [hk1]
                  simp only [Option.getD_some]
                  omega
            · simp at h
          · next hnp =>
            split at h
            · next hpage =>
              subst hpage
              have hk1 : kidCount ctx.xRefTable (.indirectRef nr gen) = some 1 := by
                rw [hkc _ rfl, hty]
                simp
              split at h
              · next heq =>
                simp only [Prod.mk.injEq, Except.ok.injEq] at h
                obtain ⟨h1, h2⟩ := h
                subst h1 h2
                refine ⟨[], rest, nr, gen, d, by simp, rfl, hd, Or.inr ⟨hty, heq, ?_⟩⟩
                simp [kidsLeaves]
              · next hne =>
                obtain ⟨pre, post, nr1, gen1, d1, hk, hkid, hd1, hcase⟩ := ih (c + 1) h
                refine ⟨.indirectRef nr gen :: pre, post, nr1, gen1, d1, by simp [hk], hkid, hd1, ?_⟩
                simp only [kidsLeaves, hk1, Option.getD_some]
                rcases hcase with ⟨a1, a2, a3, a4⟩ | ⟨a1, a2, a3⟩
                · exact Or.inl ⟨a1, by omega, fun hc => a3 (by omega), a4⟩
                · exact Or.inr ⟨a1, a2, by omega⟩
            · simp at h


/-- Every kid resolving, a call started below the target either succeeds or
exhausts the sequence with the counter at `c` plus the sum, which is then below
the target. -/
theorem locateKidForPageNumber_total (cfg : Config) (ctx : Context) (pn : Int)
    (kids : List Object) (c : Int)
    (hres : ∀ k ∈ kids, (kidCount ctx.xRefTable k).isSome = true)
    (hc : c < cfg.extractPageNr) :
    (∃ c' kid, locateKidForPageNumber cfg ctx kids c pn = (c', .ok kid)) ∨
    (locateKidForPageNumber cfg ctx kids c pn =
        (c + kidsLeaves ctx.xRefTable kids,
          .error (.err (.locateKidUnable (c + kidsLeaves ctx.xRefTable kids) pn))) ∧
      c + kidsLeaves ctx.xRefTable kids < cfg.extractPageNr) := by
  induction kids generalizing c with
  | nil => exact Or.inr ⟨by simp [locateKidForPageNumber, kidsLeaves], by simpa [kidsLeaves] using hc⟩
  | cons obj rest ih =>
    have hobj := hres obj (List.mem_cons_self _ _)
    have hrest : ∀ k ∈ rest, (kidCount ctx.xRefTable k).isSome = true :=
      fun k hk => hres k (List.mem_cons_of_mem _ hk)
    cases obj with
    | null =>
      simp only [locateKidForPageNumber, kidsLeaves, kidCount, Option.getD_some, zero_add]
      exact ih c hrest hc
    | integer i => simp [kidCount] at hobj
    | name s => simp [kidCount] at hobj
    | array a => simp [kidCount] at hobj
    | dict d0 => simp [kidCount] at hobj
    | indirectRef nr gen =>
      simp only [kidCount] at hobj
      simp only [locateKidForPageNumber, kidsLeaves, kidCount]
      split at hobj
      · next d hd =>
        rw [hd]
        simp only []
        split at hobj
        · next dictType hty =>
          rw [hty]
          simp only []
          by_cases hp : dictType = "Pages"
          · simp only [hp, if_true] at hobj ⊢
            split at hobj
            · next n hcount =>
              rw [hcount]
              simp only [Option.getD_some]
              by_cases hlt : c + n < cfg.extractPageNr
              · simp only [hlt, if_true]
                rcases ih (c + n) hrest hlt with h | ⟨h1, h2⟩
                · exact Or.inl h
                · refine Or.inr ⟨?_, by omega⟩
                  rw [h1, add_assoc]
              · simp only [hlt, if_false]
                exact Or.inl ⟨_, _, rfl⟩
            · simp at hobj
          · simp only [hp, if_false] at hobj ⊢
            by_cases hq : dictType = "Page"
            · simp only [hq, if_true, Option.getD_some]
              by_cases heq : c + 1 = cfg.extractPageNr
              · simp only [heq, if_true]
                exact Or.inl ⟨_, _, rfl⟩
              · simp only [heq, if_false]
                rcases ih (c + 1) hrest (by omega) with h | ⟨h1, h2⟩
                · exact Or.inl h
                · refine Or.inr ⟨?_, by omega⟩
                  rw [h1, add_assoc]
            · simp [hq] at hobj
        · simp at hobj
      · simp at hobj

theorem kidsLeaves_nonneg (x : XRefTable) (kids : List Object)
    (h : ∀ k ∈ kids, 0 ≤ (kidCount x k).getD 0) : 0 ≤ kidsLeaves x kids := by
  induction kids with
  | nil => simp [kidsLeaves]
  | cons k ks ih =>
    simp only [kidsLeaves]
    have h1 := h k (List.mem_cons_self _ _)
    have h2 := ih (fun k hk => h k (List.mem_cons_of_mem _ hk))
    omega

/-- Over unbounded integers: for every Kids sequence whose non-nil kids all
resolve to internal nodes with an integer `Count` or to leaves, every counter `c`
and every target `t = ExtractPageNr > c` (whatever the `pageNumber` argument): if
the walk fails with the not-found error then `t` is greater than `c` plus the sum
over the kids (`Count` for an internal kid, 1 for a leaf), the counter is left at
`c` plus that sum and the error reports that counter; and if no kid has a
negative `Count`, the walk fails with the not-found error whenever `t` is greater
than `c` plus the sum. -/
theorem locateKidForPageNumber_notFound (cfg : Config) (ctx : Context) (pn : Int)
    (kids : List Object) (c : Int)
    (hres : ∀ k ∈ kids, (kidCount ctx.xRefTable k).isSome = true)
    (hc : c < cfg.extractPageNr) :
    (isNotFound (locateKidForPageNumber cfg ctx kids c pn).2 = true →
      c + kidsLeaves ctx.xRefTable kids < cfg.extractPageNr ∧
      locateKidForPageNumber cfg ctx kids c pn =
        (c + kidsLeaves ctx.xRefTable kids,
          .error (.err (.locateKidUnable (c + kidsLeaves ctx.xRefTable kids) pn)))) ∧
    ((∀ k ∈ kids, 0 ≤ (kidCount ctx.xRefTable k).getD 0) →
      (isNotFound (locateKidForPageNumber cfg ctx kids c pn).2 = true ↔
        c + kidsLeaves ctx.xRefTable kids < cfg.extractPageNr)) := by
  have hfwd : isNotFound (locateKidForPageNumber cfg ctx kids c pn).2 = true →
      c + kidsLeaves ctx.xRefTable kids < cfg.extractPageNr ∧
      locateKidForPageNumber cfg ctx kids c pn =
        (c + kidsLeaves ctx.xRefTable kids,
          .error (.err (.locateKidUnable (c + kidsLeaves ctx.xRefTable kids) pn))) := by
    intro hnf
    rcases locateKidForPageNumber_total cfg ctx pn kids c hres hc with ⟨c', kid, h⟩ | ⟨h1, h2⟩
    · rw [h] at hnf
      simp [isNotFound] at hnf
    · exact ⟨h2, h1⟩
  refine ⟨hfwd, fun hnn => ⟨fun h => (hfwd h).1, fun hlt => ?_⟩⟩
  rcases locateKidForPageNumber_total cfg ctx pn kids c hres hc with ⟨c', kid, h⟩ | ⟨h1, _⟩
  · exfalso
    obtain ⟨pre, post, nr, gen, d, hk, _, _, hcase⟩ :=
      locateKidForPageNumber_ok cfg ctx pn kids c c' kid h
    have hsum : kidsLeaves ctx.xRefTable kids = kidsLeaves ctx.xRefTable pre +
        ((kidCount ctx.xRefTable kid).getD 0 + kidsLeaves ctx.xRefTable post) := by
      rw [hk, kidsLeaves_append]
      simp [kidsLeaves]
    have hkid : kid ∈ kids := by rw [hk]; simp
    have hpost : 0 ≤ kidsLeaves ctx.xRefTable post :=
      kidsLeaves_nonneg _ _ (fun k hm => hnn k (by rw [hk]; simp [hm]))
    rcases hcase with ⟨_, a2, _, a4⟩ | ⟨a1, a2, a3⟩
    · omega
    · have h1 : (kidCount ctx.xRefTable kid).getD 0 = 1 := by
        rename_i hkid2 hd
        subst hkid2
        simp [kidCount, hd, a1]
      omega
  · rw [h1]
    rfl

/-! ## Locating the kid with a 64-bit counter (C11, C12, C15) -/

theorem wrapInt_of_inRange (i : Int) (h : InIntRange i) : wrapInt i = i := by
  unfold InIntRange at h
  unfold wrapInt
  omega

/-- While no running sum leaves the range of `int`, the 64-bit walk is the walk
over unbounded integers. -/
theorem locateKidForPageNumber64_eq (cfg : Config) (ctx : Context) (pn : Int)
    (kids : List Object) (c : Int) (hno : NoOverflow ctx.xRefTable c kids) :
    locateKidForPageNumber64 cfg ctx kids c pn = locateKidForPageNumber cfg ctx kids c pn := by
  induction kids generalizing c with
  | nil => simp [locateKidForPageNumber64, locateKidForPageNumber]
  | cons obj rest ih =>
    simp only [NoOverflow] at hno
    obtain ⟨hr, hrest⟩ := hno
    cases obj with
    | null =>
      simp only [locateKidForPageNumber64, locateKidForPageNumber]
      simp only [kidCount, Option.getD_some, add_zero] at hrest
      exact ih c hrest
    | integer i => simp [locateKidForPageNumber64, locateKidForPageNumber]
    | name s => simp [locateKidForPageNumber64, locateKidForPageNumber]
    | array a => simp [locateKidForPageNumber64, locateKidForPageNumber]
    | dict d0 => simp [locateKidForPageNumber64, locateKidForPageNumber]
    | indirectRef nr gen =>
      simp only [locateKidForPageNumber64, locateKidForPageNumber]
      simp only [kidCount] at hr hrest
      cases hd : XRefTable.DereferenceDict ctx.xRefTable ⟨nr, gen⟩ with
      | none => rfl
      | some od =>
        cases od with
        | none => rfl
        | some d =>
          simp only [hd] at hr hrest ⊢
          cases hty : Dict.Type d with
          | none => rfl
          | some dictType =>
            simp only [hty] at hr hrest ⊢
            by_cases hp : dictType = "Pages"
            · simp only [hp, if_true] at hr hrest ⊢
              cases hcnt : Dict.Find d "Count" with
              | none => rfl
              | some o =>
                cases o with
                | integer n =>
                  simp only [hcnt, Option.getD_some] at hr hrest ⊢
                  rw [wrapInt_of_inRange _ hr, ih _ hrest]
                | null => rfl
                | name s => rfl
                | indirectRef a b => rfl
                | array a => rfl
                | dict a => rfl
            · simp only [hp, if_false] at hr hrest ⊢
              by_cases hq : dictType = "Page"
              · simp only [hq, if_true, Option.getD_some] at hr hrest ⊢
                rw [wrapInt_of_inRange _ hr, ih _ hrest]
              · simp only [hq, if_false]


theorem noOverflow_of_nonneg (x : XRefTable) (kids : List Object) (c : Int)
    (hr : InIntRange c) (hnn : ∀ k ∈ kids, 0 ≤ (kidCount x k).getD 0)
    (hsum : c + kidsLeaves x kids < 9223372036854775808) : NoOverflow x c kids := by
  induction kids generalizing c with
  | nil => trivial
  | cons k ks ih =>
    have h0 := hnn k (List.mem_cons_self _ _)
    have hks : ∀ k' ∈ ks, 0 ≤ (kidCount x k').getD 0 :=
      fun k' hk => hnn k' (List.mem_cons_of_mem _ hk)
    have hnk := kidsLeaves_nonneg x ks hks
    simp only [kidsLeaves] at hsum
    have hr1 : InIntRange (c + (kidCount x k).getD 0) := by
      unfold InIntRange at hr ⊢
      omega
    exact ⟨hr1, ih _ hr1 hks (by omega)⟩

/-- C12 fails as stated, in two ways. In `negativeCountDoc` the kids `2 0 R` (a
leaf) and `3 0 R` (an internal node with `Count = -5`) resolve, and with counter
0 the target 1 is greater than `0 + (1 - 5)`; yet the call finds the leaf
`2 0 R`. In `maxCountDoc` the kids `2 0 R` (a leaf) and `3 0 R` (an internal node
with `Count = 2^63 - 1`) resolve, and with counter 0 the target 2 is not greater
than `0 + (1 + 2^63 - 1)`; yet the sum `1 + (2^63 - 1)` wraps to `-2^63`, the kid
is skipped, and the call fails with the not-found error, the counter at
`-2^63`. -/
theorem locateKidForPageNumber64_notFound_fails :
    kidCount negativeCountDoc (.indirectRef 2 0) = some 1 ∧
    kidCount negativeCountDoc (.indirectRef 3 0) = some (-5) ∧
    (0 : Int) + kidsLeaves negativeCountDoc [.indirectRef 2 0, .indirectRef 3 0] < 1 ∧
    locateKidForPageNumber64 (exampleConfig 1 (fun _ => false) false)
      (startContext negativeCountDoc) [.indirectRef 2 0, .indirectRef 3 0] 0 1 =
      (1, .ok (.indirectRef 2 0)) ∧
    kidCount maxCountDoc (.indirectRef 2 0) = some 1 ∧
    kidCount maxCountDoc (.indirectRef 3 0) = some 9223372036854775807 ∧
    (2 : Int) ≤ 0 + kidsLeaves maxCountDoc [.indirectRef 2 0, .indirectRef 3 0] ∧
    locateKidForPageNumber64 (exampleConfig 2 (fun _ => false) false)
      (startContext maxCountDoc) [.indirectRef 2 0, .indirectRef 3 0] 0 2 =
      (-9223372036854775808,
        .error (.err (.locateKidUnable (-9223372036854775808) 2))) :=
  ⟨rfl, rfl, by decide, rfl, rfl, rfl, by decide, rfl⟩

/-- C12, amended: for every Kids sequence whose non-nil kids all resolve to
internal nodes with a non-negative integer `Count` or to leaves, every counter
`c` (an `int`) and every target `t = ExtractPageNr > c` such that `c` plus the
sum over the kids (`Count` for an internal kid, 1 for a leaf) fits in an `int`:
`locateKidForPageNumber` fails with the not-found error if and only if `t` is
greater than `c` plus that sum, and in that case the counter is left at `c` plus
the sum, which the error reports. -/
theorem locateKidForPageNumber64_notFound (cfg : Config) (ctx : Context) (pn : Int)
    (kids : List Object) (c : Int)
    (hres : ∀ k ∈ kids, (kidCount ctx.xRefTable k).isSome = true)
    (hnn : ∀ k ∈ kids, 0 ≤ (kidCount ctx.xRefTable k).getD 0)
    (hr : InIntRange c)
    (hsum : c + kidsLeaves ctx.xRefTable kids < 9223372036854775808)
    (hc : c < cfg.extractPageNr) :
    (isNotFound (locateKidForPageNumber64 cfg ctx kids c pn).2 = true ↔
      c + kidsLeaves ctx.xRefTable kids < cfg.extractPageNr) ∧
    (c + kidsLeaves ctx.xRefTable kids < cfg.extractPageNr →
      locateKidForPageNumber64 cfg ctx kids c pn =
        (c + kidsLeaves ctx.xRefTable kids,
          .error (.err (.locateKidUnable (c + kidsLeaves ctx.xRefTable kids) pn)))) := by
  rw [locateKidForPageNumber64_eq cfg ctx pn kids c
    (noOverflow_of_nonneg _ kids c hr hnn hsum)]
  obtain ⟨a1, a2⟩ := locateKidForPageNumber_notFound cfg ctx pn kids c hres hc
  exact ⟨a2 hnn, fun hlt => (a1 ((a2 hnn).2 hlt)).2⟩

/-- C12 amended, on the root Kids of `twoLevelDoc` (3 leaves) with counter 0 and
target 4: the call fails with the not-found error and the counter is left at 3. -/
theorem locateKidForPageNumber64_notFound_witness :
    isNotFound (locateKidForPageNumber64 (exampleConfig 4 (fun _ => false) false)
        (startContext twoLevelDoc) [.indirectRef 2 0, .indirectRef 5 0] 0 4).2 = true ∧
    locateKidForPageNumber64 (exampleConfig 4 (fun _ => false) false)
        (startContext twoLevelDoc) [.indirectRef 2 0, .indirectRef 5 0] 0 4 =
      (3, .error (.err (.locateKidUnable 3 4))) :=
  have h := locateKidForPageNumber64_notFound (exampleConfig 4 (fun _ => false) false)
    (startContext twoLevelDoc) 4 [.indirectRef 2 0, .indirectRef 5 0] 0
    (by
      intro k hk
      simp only [List.mem_cons, List.mem_singleton, List.not_mem_nil, or_false] at hk
      rcases hk with h | h <;> subst h <;> rfl)
    (by
      intro k hk
      simp only [List.mem_cons, List.mem_singleton, List.not_mem_nil, or_false] at hk
      rcases hk with h | h <;> subst h <;> decide)
    (by unfold InIntRange; decide) (by decide) (by decide)
  ⟨h.1.2 (by decide), h.2 (by decide)⟩

/-- C15 fails as stated: in `maxCountDoc`, on the kids `2 0 R` (a leaf) and
`3 0 R`, `4 0 R`, `5 0 R` (internal nodes with `Count = 2^63 - 1`) with counter 0
and target 2, the call succeeds and returns the internal node `5 0 R` with the
counter at `-1`: the running sum wrapped twice, so the counter is not `0` plus
the leaf count `1 + 2 * (2^63 - 1)` accumulated over the kids before it. -/
theorem locateKidForPageNumber64_counter_wraps :
    locateKidForPageNumber64 (exampleConfig 2 (fun _ => false) false)
      (startContext maxCountDoc)
      [.indirectRef 2 0, .indirectRef 3 0, .indirectRef 4 0, .indirectRef 5 0] 0 2 =
      (-1, .ok (.indirectRef 5 0)) ∧
    (XRefTable.DereferenceDict maxCountDoc ⟨5, 0⟩).map (Option.map Dict.Type) =
      some (some (some "Pages")) ∧
    (0 : Int) + kidsLeaves maxCountDoc [.indirectRef 2 0, .indirectRef 3 0, .indirectRef 4 0] =
      18446744073709551615 ∧
    (-1 : Int) ≠ 0 + kidsLeaves maxCountDoc
      [.indirectRef 2 0, .indirectRef 3 0, .indirectRef 4 0] :=
  ⟨rfl, rfl, by decide, by decide⟩

/-- C15, amended: for every successful call of `locateKidForPageNumber` started
with counter `c` below the target, in which no running sum of the counter over
the sequence leaves the range of `int`: the returned kid stands at a position of
the sequence and resolves to a node; if it is an internal node, the counter on
return equals `c` plus the leaf count accumulated over the kids strictly before
it (`Count` for an internal kid, 1 for a leaf kid) and is strictly less than the
target; if it is a leaf, the counter on return equals the target ordinal. -/
theorem locateKidForPageNumber64_counter (cfg : Config) (ctx : Context) (pn : Int)
    (kids : List Object) (c c' : Int) (kid : Object)
    (h : locateKidForPageNumber64 cfg ctx kids c pn = (c', .ok kid))
    (hno : NoOverflow ctx.xRefTable c kids)
    (hc : c < cfg.extractPageNr) :
    ∃ pre post nr gen d, kids = pre ++ kid :: post ∧ kid = .indirectRef nr gen ∧
      XRefTable.DereferenceDict ctx.xRefTable ⟨nr, gen⟩ = some (some d) ∧
      ((Dict.Type d = some "Pages" ∧ c' = c + kidsLeaves ctx.xRefTable pre ∧
          c' < cfg.extractPageNr) ∨
        (Dict.Type d = some "Page" ∧ c' = cfg.extractPageNr)) := by
  rw [locateKidForPageNumber64_eq cfg ctx pn kids c hno] at h
  obtain ⟨pre, post, nr, gen, d, hk, hkid, hd, hcase⟩ :=
    locateKidForPageNumber_ok cfg ctx pn kids c c' kid h
  refine ⟨pre, post, nr, gen, d, hk, hkid, hd, ?_⟩
  rcases hcase with ⟨a1, a2, a3, _⟩ | ⟨a1, a2, _⟩
  · exact Or.inl ⟨a1, a2, a3 hc⟩
  · exact Or.inr ⟨a1, a2⟩

/-- C15 amended, on the root Kids of `twoLevelDoc` with counter 0 and target 3:
the internal node `5 0 R` is returned with the counter at 2, the leaves of the
kid before it. -/
theorem locateKidForPageNumber64_counter_witness :
    locateKidForPageNumber64 (exampleConfig 3 (fun _ => false) false)
      (startContext twoLevelDoc) [.indirectRef 2 0, .indirectRef 5 0] 0 3 =
      (2, .ok (.indirectRef 5 0)) ∧
    ∃ pre post nr gen d,
      [Object.indirectRef 2 0, Object.indirectRef 5 0] = pre ++ Object.indirectRef 5 0 :: post ∧
      Object.indirectRef 5 0 = .indirectRef nr gen ∧
      XRefTable.DereferenceDict (startContext twoLevelDoc).xRefTable ⟨nr, gen⟩ = some (some d) ∧
      ((Dict.Type d = some "Pages" ∧
          (2 : Int) = 0 + kidsLeaves (startContext twoLevelDoc).xRefTable pre ∧
          (2 : Int) < (exampleConfig 3 (fun _ => false) false).extractPageNr) ∨
        (Dict.Type d = some "Page" ∧
          (2 : Int) = (exampleConfig 3 (fun _ => false) false).extractPageNr)) :=
  ⟨rfl, locateKidForPageNumber64_counter (exampleConfig 3 (fun _ => false) false)
    (startContext twoLevelDoc) 3 [.indirectRef 2 0, .indirectRef 5 0] 0 2 (.indirectRef 5 0) rfl
    ⟨⟨by decide, by decide⟩, ⟨by decide, by decide⟩, trivial⟩ (by decide)⟩

/-! ## Termination (C19) -/

theorem XRefTable.map_fst_updateDict (x : XRefTable) (nr : Nat) (f : Dict → Dict) :
    (XRefTable.updateDict x nr f).map Prod.fst = x.map Prod.fst := by
  induction x with
  | nil => rfl
  | cons e rest ih =>
    obtain ⟨n, e⟩ := e
    simp only [XRefTable.updateDict, List.map_cons, ih]

theorem XRefTable.objectNumbers_updateDict (x : XRefTable) (nr : Nat) (f : Dict → Dict) :
    (XRefTable.updateDict x nr f).objectNumbers = x.objectNumbers := by
  unfold XRefTable.objectNumbers
  rw [XRefTable.map_fst_updateDict]

theorem XRefTable.mem_objectNumbers_of_find (x : XRefTable) (nr : Nat) (e : XRefEntry)
    (h : XRefTable.find x nr = some e) : nr ∈ x.objectNumbers := by
  unfold XRefTable.objectNumbers
  rw [List.mem_dedup]
  induction x with
  | nil => simp [XRefTable.find] at h
  | cons a rest ih =>
    obtain ⟨n, e1⟩ := a
    simp only [XRefTable.find] at h
    by_cases hn : n = nr
    · simp [hn]
    · simp only [hn, if_false] at h
      simp [ih h]

theorem XRefTable.mem_objectNumbers_of_dereferenceDict (x : XRefTable) (r : IndirectRef)
    (d : Dict) (h : XRefTable.DereferenceDict x r = some (some d)) :
    r.objectNumber ∈ x.objectNumbers := by
  unfold XRefTable.DereferenceDict XRefTable.Dereference at h
  cases hf : XRefTable.find x r.objectNumber with
  | none => simp [hf] at h
  | some e => exact XRefTable.mem_objectNumbers_of_find x _ e hf

theorem length_filter_le_of_imp {α : Type} (l : List α) (p q : α → Bool)
    (hpq : ∀ a, p a = true → q a = true) : (l.filter p).length ≤ (l.filter q).length := by
  induction l with
  | nil => simp
  | cons a rest ih =>
    by_cases hp : p a = true
    · simp [List.filter_cons, hp, hpq a hp, ih]
    · by_cases hq : q a = true
      · simp [List.filter_cons, hp, hq]
        omega
      · simp [List.filter_cons, hp, hq, ih]

theorem length_filter_lt_of_imp {α : Type} (l : List α) (p q : α → Bool)
    (hpq : ∀ a, p a = true → q a = true) (a : α) (ha : a ∈ l) (hq : q a = true)
    (hp : p a = false) : (l.filter p).length < (l.filter q).length := by
  induction l with
  | nil => simp at ha
  | cons b rest ih =>
    rcases List.mem_cons.1 ha with hab | hmem
    · subst hab
      have := length_filter_le_of_imp rest p q hpq
      simp [List.filter_cons, hp, hq]
      omega
    · have := ih hmem
      by_cases hpb : p b = true
      · simp [List.filter_cons, hpb, hpq b hpb]
        omega
      · by_cases hqb : q b = true
        · simp [List.filter_cons, hpb, hqb]
          omega
        · simp [List.filter_cons, hpb, hqb]
          omega

/-- The store keeps its object numbers and the written-set does not shrink. -/
theorem Context.unwrittenCount_le (ctx ctx' : Context)
    (hk : ctx'.xRefTable.objectNumbers = ctx.xRefTable.objectNumbers)
    (hw : ∀ n, ctx.HasWriteOffset n = true → ctx'.HasWriteOffset n = true) :
    ctx'.unwrittenCount ≤ ctx.unwrittenCount := by
  unfold Context.unwrittenCount Context.unwritten
  rw [hk]
  apply length_filter_le_of_imp
  intro a ha
  cases h : ctx.HasWriteOffset a
  · rfl
  · rw [hw a h] at ha
    simp at ha

/-- Writing an object number of the store that was not written lowers the measure. -/
theorem Context.unwrittenCount_lt (ctx ctx' : Context)
    (hk : ctx'.xRefTable.objectNumbers = ctx.xRefTable.objectNumbers)
    (hw : ∀ n, ctx.HasWriteOffset n = true → ctx'.HasWriteOffset n = true)
    (nr : Nat) (hnr : nr ∈ ctx.xRefTable.objectNumbers)
    (h0 : ctx.HasWriteOffset nr = false) (h1 : ctx'.HasWriteOffset nr = true) :
    ctx'.unwrittenCount < ctx.unwrittenCount := by
  unfold Context.unwrittenCount Context.unwritten
  rw [hk]
  apply length_filter_lt_of_imp _ _ _ _ nr hnr
  · simp [h0]
  · simp [h1]
  · intro a ha
    cases h : ctx.HasWriteOffset a
    · rfl
    · rw [hw a h] at ha
      simp at ha

theorem Context.unwrittenCount_pos (ctx : Context) (nr : Nat)
    (hnr : nr ∈ ctx.xRefTable.objectNumbers) (h0 : ctx.HasWriteOffset nr = false) :
    0 < ctx.unwrittenCount := by
  unfold Context.unwrittenCount Context.unwritten
  exact List.length_pos_of_mem (List.mem_filter.2 ⟨hnr, by simp [h0]⟩)

theorem WritesOnce.written_mono (ctx ctx' : Context) (h : WritesOnce ctx ctx') (n : Nat)
    (hn : ctx.HasWriteOffset n = true) : ctx'.HasWriteOffset n = true := by
  obtain ⟨new, _, _, _, h4⟩ := h
  exact (h4 n).2 (Or.inl hn)


theorem writeDictObject_xRefTable (cfg : Config) (ctx : Context) (nr gen : Nat) (d : Dict) :
    (writeDictObject cfg ctx nr gen d).1.xRefTable = ctx.xRefTable := by
  unfold writeDictObject
  split <;> rfl

theorem writeDictObject_ne_limit (cfg : Config) (ctx : Context) (nr gen : Nat) (d : Dict) :
    (writeDictObject cfg ctx nr gen d).2 ≠ .error .recursionLimit := by
  unfold writeDictObject
  split <;> simp

theorem writePageEntry_xRefTable (cfg : Config) (ctx : Context) (d : Dict) (dn en : String)
    (a : PageAttr) :
    (writePageEntry cfg ctx d dn en a).1.xRefTable = ctx.xRefTable ∧
    (writePageEntry cfg ctx d dn en a).2 ≠ .error .recursionLimit := by
  unfold writePageEntry writeEntry
  cases hf : Dict.Find d en with
  | none => simp [Object.isNil_null]
  | some o =>
    by_cases hn : o.isNil = true
    · simp [hn, Object.isNil_null]
    · by_cases he : cfg.entryFails ctx.offset dn en = true
      · simp [hn, he]
      · simp [hn, he]

theorem writePageEntries_xRefTable (cfg : Config) (d : Dict) (dn : String)
    (es : List (String × PageAttr)) (ctx : Context) :
    (writePageEntries cfg d dn ctx es).1.xRefTable = ctx.xRefTable ∧
    (writePageEntries cfg d dn ctx es).2 ≠ .error .recursionLimit := by
  induction es generalizing ctx with
  | nil => simp [writePageEntries]
  | cons e es ih =>
    obtain ⟨en, a⟩ := e
    have h1 := writePageEntry_xRefTable cfg ctx d dn en a
    unfold writePageEntries
    split
    · next ctx1 f heq =>
      rw [heq] at h1
      exact ⟨h1.1, h1.2⟩
    · next ctx1 heq =>
      rw [heq] at h1
      have h2 := ih ctx1
      exact ⟨h2.1.trans h1.1, h2.2⟩

theorem writePageDict_objectNumbers (cfg : Config) (ctx : Context) (indRef : IndirectRef)
    (pageDict : Dict) :
    (writePageDict cfg ctx indRef pageDict).1.xRefTable.objectNumbers =
      ctx.xRefTable.objectNumbers ∧
    (writePageDict cfg ctx indRef pageDict).2 ≠ .error .recursionLimit := by
  have key : ∀ (ctx0 : Context) (pd : Dict),
      ctx0.xRefTable.objectNumbers = ctx.xRefTable.objectNumbers →
      (match writeDictObject cfg ctx0 indRef.objectNumber indRef.generationNumber pd with
        | (ctx1, .error f) => (ctx1, Except.error f)
        | (ctx1, .ok ()) =>
          match Dict.IndirectRefEntry pd "Parent" with
          | none => (ctx1, .error (.err .writePageDictMissingParent))
          | some _ => writePageEntries cfg pd "pageDict" ctx1 pageDictEntries).1.xRefTable.objectNumbers
        = ctx.xRefTable.objectNumbers ∧
      (match writeDictObject cfg ctx0 indRef.objectNumber indRef.generationNumber pd with
        | (ctx1, .error f) => (ctx1, Except.error f)
        | (ctx1, .ok ()) =>
          match Dict.IndirectRefEntry pd "Parent" with
          | none => (ctx1, .error (.err .writePageDictMissingParent))
          | some _ => writePageEntries cfg pd "pageDict" ctx1 pageDictEntries).2
        ≠ .error .recursionLimit := by
    intro ctx0 pd h0
    have h1 := writeDictObject_xRefTable cfg ctx0 indRef.objectNumber indRef.generationNumber pd
    have h2 := writeDictObject_ne_limit cfg ctx0 indRef.objectNumber indRef.generationNumber pd
    split
    · next ctx1 f heq =>
      rw [heq] at h1 h2
      simp only [] at h1 h2 ⊢
      rw [h1]
      exact ⟨h0, h2⟩
    · next ctx1 heq =>
      rw [heq] at h1
      simp only [] at h1
      split
      · simp only []
        rw [h1]
        exact ⟨h0, by simp⟩
      · have h3 := writePageEntries_xRefTable cfg pd "pageDict" pageDictEntries ctx1
        rw [h3.1, h1]
        exact ⟨h0, h3.2⟩
  unfold writePageDict
  apply key
  split
  · exact XRefTable.objectNumbers_updateDict _ _ _
  · rfl

theorem locateKidForPageNumber_ne_limit (cfg : Config) (ctx : Context) (kids : List Object)
    (c pn : Int) : (locateKidForPageNumber cfg ctx kids c pn).2 ≠ .error .recursionLimit := by
  induction kids generalizing c with
  | nil => simp [locateKidForPageNumber]
  | cons obj rest ih =>
    unfold locateKidForPageNumber
    repeat' split
    all_goals first | exact ih _ | simp

theorem prepareSinglePageWrite_objectNumbers (cfg : Config) (ctx : Context) (nr : Nat)
    (dict : Dict) (kids : List Object) (pc : Int) :
    (prepareSinglePageWrite cfg ctx nr dict kids pc).1.xRefTable.objectNumbers =
      ctx.xRefTable.objectNumbers ∧
    (prepareSinglePageWrite cfg ctx nr dict kids pc).2.2.2 ≠ .error .recursionLimit := by
  have h := locateKidForPageNumber_ne_limit cfg ctx kids pc cfg.extractPageNr
  unfold prepareSinglePageWrite
  split
  · next pc1 f heq =>
    rw [heq] at h
    exact ⟨rfl, by simpa using h⟩
  · exact ⟨XRefTable.objectNumbers_updateDict _ _ _, by simp⟩

theorem pageNodeDict_ne_limit (ctx : Context) (o : Object) :
    (pageNodeDict ctx o).2 ≠ .error .recursionLimit := by
  unfold pageNodeDict
  repeat' split
  all_goals simp


/-- The loop of `writeKids`: if the recursive call keeps the object numbers of
the store, writes once and does not hit the recursion limit from a measure of at
most `bound`, neither does the loop. -/
theorem writeKidsWith_terminates (cfg : Config)
    (recur : Context → IndirectRef → Int → Context × Except Failure Unit) (bound : Nat)
    (hk : ∀ ctx r pc,
      (recur ctx r pc).1.xRefTable.objectNumbers = ctx.xRefTable.objectNumbers)
    (hw : ∀ ctx r pc, ctx.HasWriteOffset r.objectNumber = false →
      WritesOnce ctx (recur ctx r pc).1)
    (hrec : ∀ ctx r pc, ctx.unwrittenCount ≤ bound →
      ctx.HasWriteOffset r.objectNumber = false →
      r.objectNumber ∈ ctx.xRefTable.objectNumbers →
      (recur ctx r pc).2 ≠ .error .recursionLimit)
    (kids : List Object) (ctx : Context) (pc : Int) :
    (writeKidsWith cfg recur ctx kids pc).1.xRefTable.objectNumbers =
      ctx.xRefTable.objectNumbers ∧
    (ctx.unwrittenCount ≤ bound →
      (writeKidsWith cfg recur ctx kids pc).2 ≠ .error .recursionLimit) := by
  induction kids generalizing ctx with
  | nil => simp [writeKidsWith]
  | cons obj rest ih =>
    have hl := pageNodeDict_ne_limit ctx obj
    unfold writeKidsWith
    split
    · next ctx1 f heq =>
      have := pageNodeDict_fst ctx obj; rw [heq] at this
      simp at this; subst this
      rw [heq] at hl
      exact ⟨rfl, fun _ => by simpa using hl⟩
    · next ctx1 heq =>
      have := pageNodeDict_fst ctx obj; rw [heq] at this
      simp at this; subst this; exact ih _
    · next ctx1 d indRef heq =>
      obtain ⟨h1, _, hun, hd, _⟩ := pageNodeDict_some ctx ctx1 obj d indRef heq
      subst h1
      simp only []
      have hmem := XRefTable.mem_objectNumbers_of_dereferenceDict _ _ _ hd
      have hr : (if Dict.Type d = some "Pages" then recur ctx1 indRef pc
          else if Dict.Type d = some "Page" then writePageDict cfg ctx1 indRef d
          else (ctx1, Except.error (Failure.err (Err.writeKidsUnexpectedType
            ((Dict.Type d).getD ""))))).1.xRefTable.objectNumbers =
            ctx1.xRefTable.objectNumbers ∧
          WritesOnce ctx1 (if Dict.Type d = some "Pages" then recur ctx1 indRef pc
          else if Dict.Type d = some "Page" then writePageDict cfg ctx1 indRef d
          else (ctx1, Except.error (Failure.err (Err.writeKidsUnexpectedType
            ((Dict.Type d).getD ""))))).1 ∧
          (ctx1.unwrittenCount ≤ bound →
            (if Dict.Type d = some "Pages" then recur ctx1 indRef pc
            else if Dict.Type d = some "Page" then writePageDict cfg ctx1 indRef d
            else (ctx1, Except.error (Failure.err (Err.writeKidsUnexpectedType
              ((Dict.Type d).getD ""))))).2 ≠ .error .recursionLimit) := by
        split
        · exact ⟨hk _ _ _, hw _ _ _ hun, fun hb => hrec _ _ _ hb hun hmem⟩
        · split
          · exact ⟨(writePageDict_objectNumbers cfg ctx1 indRef d).1,
              writePageDict_writesOnce cfg ctx1 indRef d hun,
              fun _ => (writePageDict_objectNumbers cfg ctx1 indRef d).2⟩
          · exact ⟨rfl, WritesOnce.same _, fun _ => by simp⟩
      split
      · next ctx2 f heq2 =>
        rw [heq2] at hr
        exact ⟨hr.1, hr.2.2⟩
      · next ctx2 heq2 =>
        rw [heq2] at hr
        obtain ⟨i1, i2⟩ := ih ctx2
        refine ⟨i1.trans hr.1, fun hb => i2 ?_⟩
        exact le_trans (Context.unwrittenCount_le ctx1 ctx2 hr.1
          (WritesOnce.written_mono ctx1 ctx2 hr.2.1)) hb


/-- One step of the termination argument: the node's own record is written
before the loop over its kids, so the loop starts from a smaller measure. -/
theorem writePagesDictBody_terminates (cfg : Config)
    (recur : Context → IndirectRef → Int → Context × Except Failure Unit) (bound : Nat)
    (hk : ∀ ctx r pc,
      (recur ctx r pc).1.xRefTable.objectNumbers = ctx.xRefTable.objectNumbers)
    (hw : ∀ ctx r pc, ctx.HasWriteOffset r.objectNumber = false →
      WritesOnce ctx (recur ctx r pc).1)
    (hrec : ∀ ctx r pc, ctx.unwrittenCount ≤ bound →
      ctx.HasWriteOffset r.objectNumber = false →
      r.objectNumber ∈ ctx.xRefTable.objectNumbers →
      (recur ctx r pc).2 ≠ .error .recursionLimit)
    (ctx : Context) (indRef : IndirectRef) (pc : Int) :
    (writePagesDictBody cfg recur ctx indRef pc).1.xRefTable.objectNumbers =
      ctx.xRefTable.objectNumbers ∧
    (ctx.unwrittenCount ≤ bound + 1 →
      (writePagesDictBody cfg recur ctx indRef pc).2 ≠ .error .recursionLimit) := by
  unfold writePagesDictBody
  simp only []
  split
  · exact ⟨rfl, fun _ => by simp⟩
  · next hwr =>
    have hun : ctx.HasWriteOffset indRef.objectNumber = false := by simpa using hwr
    split
    · exact ⟨rfl, fun _ => by simp⟩
    · exact ⟨rfl, fun _ => by simp⟩
    · next dict hd =>
      have hmem := XRefTable.mem_objectNumbers_of_dereferenceDict _ _ _ hd
      split
      · exact ⟨rfl, fun _ => by simp⟩
      · next c hc =>
        split
        · exact ⟨rfl, fun _ => by simp⟩
        · split
          · exact ⟨rfl, fun _ => by simp⟩
          · next kidsArrayOrig hka =>
            have hp : (if cfg.extractPageNr > 0 then
                prepareSinglePageWrite cfg ctx indRef.objectNumber dict kidsArrayOrig pc
                else (ctx, dict, pc, Except.ok ())).1.xRefTable.objectNumbers =
                  ctx.xRefTable.objectNumbers ∧
              (if cfg.extractPageNr > 0 then
                prepareSinglePageWrite cfg ctx indRef.objectNumber dict kidsArrayOrig pc
                else (ctx, dict, pc, Except.ok ())).1.table = ctx.table ∧
              (if cfg.extractPageNr > 0 then
                prepareSinglePageWrite cfg ctx indRef.objectNumber dict kidsArrayOrig pc
                else (ctx, dict, pc, Except.ok ())).2.2.2 ≠ .error .recursionLimit := by
              split
              · exact ⟨(prepareSinglePageWrite_objectNumbers _ _ _ _ _ _).1,
                  (prepareSinglePageWrite_out_table _ _ _ _ _ _).2,
                  (prepareSinglePageWrite_objectNumbers _ _ _ _ _ _).2⟩
              · exact ⟨rfl, rfl, by simp⟩
            split
            · next ctx1 _ _ f heq =>
              rw [heq] at hp
              exact ⟨hp.1, fun _ => by simpa using hp.2.2⟩
            · next ctx1 dict1 pc1 heq =>
              rw [heq] at hp
              obtain ⟨hp1, hp2, _⟩ := hp
              simp only [] at hp1 hp2
              have e1 := writeDictObject_xRefTable cfg ctx1 indRef.objectNumber
                indRef.generationNumber dict1
              have e2 := writeDictObject_ne_limit cfg ctx1 indRef.objectNumber
                indRef.generationNumber dict1
              split
              · next ctx2 f heq2 =>
                rw [heq2] at e1 e2
                simp only [] at e1
                exact ⟨by rw [e1, hp1], fun _ => by simpa using e2⟩
              · next ctx2 heq2 =>
                rw [heq2] at e1
                simp only [] at e1
                obtain ⟨_, ht2, _⟩ := writeDictObject_ok _ _ _ _ _ _ heq2
                have e3 := writePageEntries_xRefTable cfg dict1 "pagesDict" pagesDictEntries ctx2
                have e4 := (writePageEntries_out_table cfg dict1 "pagesDict" pagesDictEntries
                  ctx2).1
                split
                · next ctx3 f heq3 =>
                  rw [heq3] at e3
                  exact ⟨by rw [e3.1, e1, hp1], fun _ => by simpa using e3.2⟩
                · next ctx3 heq3 =>
                  rw [heq3] at e3 e4
                  simp only [] at e3 e4
                  have hx3 : ctx3.xRefTable.objectNumbers = ctx.xRefTable.objectNumbers := by
                    rw [e3.1, e1, hp1]
                  have ht3 : ctx3.table =
                      (indRef.objectNumber, ctx1.offset) :: ctx.table := by
                    rw [e4, ht2, hp2]
                  split
                  · exact ⟨hx3, fun _ => by simp⟩
                  · next kidsArray hk2 =>
                    obtain ⟨l1, l2⟩ :=
                      writeKidsWith_terminates cfg recur bound hk hw hrec kidsArray ctx3 pc1
                    have hlt : ctx3.unwrittenCount < ctx.unwrittenCount := by
                      apply Context.unwrittenCount_lt ctx ctx3 hx3 _ indRef.objectNumber hmem hun
                      · simp [Context.HasWriteOffset, ht3]
                      · intro n hn
                        simp only [Context.HasWriteOffset, ht3, List.any_cons] at hn ⊢
                        simp [hn]
                    split
                    · next ctx4 f heq4 =>
                      rw [heq4] at l1 l2
                      exact ⟨l1.trans hx3, fun hb => by simpa using l2 (by omega)⟩
                    · next ctx4 heq4 =>
                      rw [heq4] at l1
                      refine ⟨?_, fun _ => by simp⟩
                      simp only []
                      rw [XRefTable.objectNumbers_updateDict]
                      exact l1.trans hx3
      · exact ⟨rfl, fun _ => by simp⟩

/-- Every call keeps the object numbers of the store, and a call started with at
most `fuel + 1` unwritten object numbers does not hit the recursion limit. -/
theorem writePagesDict_progress (cfg : Config) (fuel : Nat) :
    ∀ (ctx : Context) (indRef : IndirectRef) (pc : Int),
      (writePagesDict cfg fuel ctx indRef pc).1.xRefTable.objectNumbers =
        ctx.xRefTable.objectNumbers ∧
      (ctx.unwrittenCount ≤ fuel + 1 →
        (writePagesDict cfg fuel ctx indRef pc).2 ≠ .error .recursionLimit) := by
  induction fuel with
  | zero =>
    intro ctx indRef pc
    exact writePagesDictBody_terminates cfg _ 0 (fun _ _ _ => rfl)
      (fun c _ _ _ => WritesOnce.same c)
      (fun c r _ hb hun hmem => by
        have := Context.unwrittenCount_pos c r.objectNumber hmem hun
        omega) ctx indRef pc
  | succ n ih =>
    intro ctx indRef pc
    exact writePagesDictBody_terminates cfg _ (n + 1) (fun c r p => (ih c r p).1)
      (fun c r p _ => writePagesDict_writesOnce_all cfg n c r p)
      (fun c r p hb _ _ => (ih c r p).2 hb) ctx indRef pc

--THMS
/-- The loop of `writeKids` does not depend on the recursive call beyond the
calls it makes: two recursive calls that agree from a measure of at most `bound`
give the same loop. -/
theorem writeKidsWith_congr (cfg : Config)
    (r1 r2 : Context → IndirectRef → Int → Context × Except Failure Unit) (bound : Nat)
    (hk : ∀ ctx r pc, (r1 ctx r pc).1.xRefTable.objectNumbers = ctx.xRefTable.objectNumbers)
    (hw : ∀ ctx r pc, ctx.HasWriteOffset r.objectNumber = false →
      WritesOnce ctx (r1 ctx r pc).1)
    (hagree : ∀ ctx r pc, ctx.unwrittenCount ≤ bound →
      ctx.HasWriteOffset r.objectNumber = false →
      r.objectNumber ∈ ctx.xRefTable.objectNumbers →
      r2 ctx r pc = r1 ctx r pc)
    (kids : List Object) (ctx : Context) (pc : Int) (h : ctx.unwrittenCount ≤ bound) :
    writeKidsWith cfg r2 ctx kids pc = writeKidsWith cfg r1 ctx kids pc := by
  induction kids generalizing ctx with
  | nil => simp [writeKidsWith]
  | cons obj rest ih =>
    rw [writeKidsWith_cons, writeKidsWith_cons]
    split
    · rfl
    · next ctx1 heq =>
      have := pageNodeDict_fst ctx obj; rw [heq] at this
      simp at this; subst this; exact ih _ h
    · next ctx1 d indRef heq =>
      obtain ⟨h1, _, hun, hd, _⟩ := pageNodeDict_some ctx ctx1 obj d indRef heq
      subst h1
      have hmem := XRefTable.mem_objectNumbers_of_dereferenceDict _ _ _ hd
      by_cases hp : Dict.Type d = some "Pages"
      · simp only [hp, if_true]
        rw [hagree ctx1 indRef pc h hun hmem]
        have k1 := hk ctx1 indRef pc
        have k2 := hw ctx1 indRef pc hun
        split
        · rfl
        · next ctx2 heq2 =>
          rw [heq2] at k1 k2
          exact ih ctx2 (le_trans (Context.unwrittenCount_le ctx1 ctx2 k1
            (WritesOnce.written_mono ctx1 ctx2 k2)) h)
      · simp only [hp, if_false]
        split
        · rfl
        · next ctx2 heq2 =>
          apply ih ctx2
          split at heq2
          · have k1 := (writePageDict_objectNumbers cfg ctx1 indRef d).1
            have k2 := writePageDict_writesOnce cfg ctx1 indRef d hun
            rw [heq2] at k1 k2
            exact le_trans (Context.unwrittenCount_le ctx1 ctx2 k1
              (WritesOnce.written_mono ctx1 ctx2 k2)) h
          · simp at heq2

/-- The body of `writePagesDict` does not depend on the recursive call beyond the
calls it makes from a smaller measure. -/
theorem writePagesDictBody_congr (cfg : Config)
    (r1 r2 : Context → IndirectRef → Int → Context × Except Failure Unit)
    (ctx : Context) (indRef : IndirectRef) (pc : Int)
    (hkw : ∀ ctx3 kids pc1, ctx3.unwrittenCount < ctx.unwrittenCount →
      writeKidsWith cfg r2 ctx3 kids pc1 = writeKidsWith cfg r1 ctx3 kids pc1) :
    writePagesDictBody cfg r2 ctx indRef pc = writePagesDictBody cfg r1 ctx indRef pc := by
  unfold writePagesDictBody
  simp only []
  split
  · rfl
  · next hwr =>
    have hun : ctx.HasWriteOffset indRef.objectNumber = false := by simpa using hwr
    split
    · rfl
    · rfl
    · next dict hd =>
      have hmem := XRefTable.mem_objectNumbers_of_dereferenceDict _ _ _ hd
      split
      · rfl
      · split
        · rfl
        · split
          · rfl
          · next kidsArrayOrig hka =>
            have hp : (if cfg.extractPageNr > 0 then
                prepareSinglePageWrite cfg ctx indRef.objectNumber dict kidsArrayOrig pc
                else (ctx, dict, pc, Except.ok ())).1.xRefTable.objectNumbers =
                  ctx.xRefTable.objectNumbers ∧
              (if cfg.extractPageNr > 0 then
                prepareSinglePageWrite cfg ctx indRef.objectNumber dict kidsArrayOrig pc
                else (ctx, dict, pc, Except.ok ())).1.table = ctx.table := by
              split
              · exact ⟨(prepareSinglePageWrite_objectNumbers _ _ _ _ _ _).1,
                  (prepareSinglePageWrite_out_table _ _ _ _ _ _).2⟩
              · exact ⟨rfl, rfl⟩
            split
            · rfl
            · next ctx1 dict1 pc1 heq =>
              rw [heq] at hp
              obtain ⟨hp1, hp2⟩ := hp
              simp only [] at hp1 hp2
              split
              · rfl
              · next ctx2 heq2 =>
                obtain ⟨hx2, ht2, _⟩ := writeDictObject_ok _ _ _ _ _ _ heq2
                split
                · rfl
                · next ctx3 heq3 =>
                  obtain ⟨hx3, ht3, _⟩ := writePageEntries_ok _ _ _ _ _ _ heq3
                  split
                  · rfl
                  · next kidsArray hk2 =>
                    have hx : ctx3.xRefTable.objectNumbers = ctx.xRefTable.objectNumbers := by
                      rw [hx3, hx2, hp1]
                    have ht : ctx3.table = (indRef.objectNumber, ctx1.offset) :: ctx.table := by
                      rw [ht3, ht2, hp2]
                    have hlt : ctx3.unwrittenCount < ctx.unwrittenCount := by
                      apply Context.unwrittenCount_lt ctx ctx3 hx _ indRef.objectNumber hmem hun
                      · simp [Context.HasWriteOffset, ht]
                      · intro n hn
                        simp only [Context.HasWriteOffset, ht, List.any_cons] at hn ⊢
                        simp [hn]
                    rw [hkw ctx3 kidsArray pc1 hlt]
      · rfl

/-- One more level of nesting changes nothing once the measure fits. -/
theorem writePagesDict_fuel_succ (cfg : Config) (fuel : Nat) :
    ∀ (ctx : Context) (indRef : IndirectRef) (pc : Int), ctx.unwrittenCount ≤ fuel + 1 →
      writePagesDict cfg (fuel + 1) ctx indRef pc = writePagesDict cfg fuel ctx indRef pc := by
  induction fuel with
  | zero =>
    intro ctx indRef pc h
    show writePagesDictBody cfg (writePagesDict cfg 0) ctx indRef pc =
      writePagesDictBody cfg (fun ctx _ _ => (ctx, .error .recursionLimit)) ctx indRef pc
    apply writePagesDictBody_congr
    intro ctx3 kids pc1 hlt
    apply writeKidsWith_congr cfg _ _ 0 (fun _ _ _ => rfl) (fun c _ _ _ => WritesOnce.same c)
    · intro c r _ hb hun hmem
      have := Context.unwrittenCount_pos c r.objectNumber hmem hun
      omega
    · omega
  | succ n ih =>
    intro ctx indRef pc h
    show writePagesDictBody cfg (writePagesDict cfg (n + 1)) ctx indRef pc =
      writePagesDictBody cfg (writePagesDict cfg n) ctx indRef pc
    apply writePagesDictBody_congr
    intro ctx3 kids pc1 hlt
    apply writeKidsWith_congr cfg _ _ (n + 1) (fun c r p => (writePagesDict_progress cfg n c r p).1)
      (fun c r p _ => writePagesDict_writesOnce_all cfg n c r p)
    · intro c r p hb _ _
      exact ih c r p hb
    · omega

theorem writePagesDict_fuel_add (cfg : Config) (fuel k : Nat) (ctx : Context)
    (indRef : IndirectRef) (pc : Int) (h : ctx.unwrittenCount ≤ fuel + 1) :
    writePagesDict cfg (fuel + k) ctx indRef pc = writePagesDict cfg fuel ctx indRef pc := by
  induction k with
  | zero => rfl
  | succ k ih =>
    rw [← add_assoc, writePagesDict_fuel_succ cfg (fuel + k) ctx indRef pc (by omega), ih]


/-- C19: for every finite store, cyclic or sharing `Kids` references included,
and every write state, in extraction mode and outside it, `writePagesDict`
terminates: a call started with at most `fuel + 1` object numbers of the store
not yet in the written-set never reaches the nesting bound `fuel`, its outcome
is the same for every larger bound, and the number of unwritten object numbers
does not grow. The measure decreases because the node's own record is written
before the loop over its kids and `pageNodeDict` skips every written kid. -/
theorem writePagesDict_terminates (cfg : Config) (fuel : Nat) (ctx : Context)
    (indRef : IndirectRef) (pc : Int) (h : ctx.unwrittenCount ≤ fuel + 1) :
    (writePagesDict cfg fuel ctx indRef pc).2 ≠ .error .recursionLimit ∧
    (∀ k, writePagesDict cfg (fuel + k) ctx indRef pc = writePagesDict cfg fuel ctx indRef pc) ∧
    (writePagesDict cfg fuel ctx indRef pc).1.unwrittenCount ≤ ctx.unwrittenCount :=
  ⟨(writePagesDict_progress cfg fuel ctx indRef pc).2 h,
    fun k => writePagesDict_fuel_add cfg fuel k ctx indRef pc h,
    Context.unwrittenCount_le ctx _ (writePagesDict_progress cfg fuel ctx indRef pc).1
      (WritesOnce.written_mono ctx _ (writePagesDict_writesOnce_all cfg fuel ctx indRef pc))⟩

/-- C19 at the cyclic store `cyclicDoc` outside extraction mode: three object
numbers are unwritten, and with nesting bound 2 the call succeeds, writing the
objects 1, 2 and 3 once each (the back reference from node 2 to the root is
skipped). -/
theorem writePagesDict_terminates_witness :
    (startContext cyclicDoc).unwrittenCount = 3 ∧
    (writePagesDict (exampleConfig 0 (fun _ => false) false) 2 (startContext cyclicDoc)
      ⟨1, 0⟩ 0).2 = .ok () ∧
    recordNumbers (writePagesDict (exampleConfig 0 (fun _ => false) false) 2
      (startContext cyclicDoc) ⟨1, 0⟩ 0).1.out = [1, 2, 3] ∧
    ((writePagesDict (exampleConfig 0 (fun _ => false) false) 2 (startContext cyclicDoc)
        ⟨1, 0⟩ 0).2 ≠ .error .recursionLimit ∧
      (∀ k, writePagesDict (exampleConfig 0 (fun _ => false) false) (2 + k)
          (startContext cyclicDoc) ⟨1, 0⟩ 0 =
        writePagesDict (exampleConfig 0 (fun _ => false) false) 2 (startContext cyclicDoc)
          ⟨1, 0⟩ 0) ∧
      (writePagesDict (exampleConfig 0 (fun _ => false) false) 2 (startContext cyclicDoc)
        ⟨1, 0⟩ 0).1.unwrittenCount ≤ (startContext cyclicDoc).unwrittenCount) :=
  ⟨by decide, rfl, rfl,
    writePagesDict_terminates (exampleConfig 0 (fun _ => false) false) 2
      (startContext cyclicDoc) ⟨1, 0⟩ 0 (by decide)⟩

/-! ## Extraction against trimming (C20) -/

theorem PageTree.ref_trim (sel : Int → Bool) (T : PageTree) (c : Int) :
    (T.trim sel c).ref = T.ref := by
  cases T <;> simp [PageTree.trim, PageTree.ref]

/-- No kid is retained when no ordinal of the sequence is selected. -/
theorem PageTree.trimKids_none (sel : Int → Bool) :
    ∀ (ks : List PageTree) (c : Int),
      (∀ i, c < i → i ≤ c + PageTree.leafCounts ks → sel i = false) →
      PageTree.trimKids sel ks c = []
  | [], _ => by simp [PageTree.trimKids]
  | .null :: ks, c => by
    intro h
    simp only [PageTree.trimKids]
    apply PageTree.trimKids_none sel ks c
    intro i h1 h2
    exact h i h1 (by simpa [PageTree.leafCounts, PageTree.leafCount] using h2)
  | .page nr gen d :: ks, c => by
    intro h
    have hnn := PageTree.leafCounts_nonneg ks
    have h0 : sel (c + 1) = false :=
      h (c + 1) (by omega) (by simp only [PageTree.leafCounts, PageTree.leafCount]; omega)
    simp only [PageTree.trimKids, h0]
    apply PageTree.trimKids_none sel ks (c + 1)
    intro i h1 h2
    exact h i (by omega) (by simp only [PageTree.leafCounts, PageTree.leafCount]; omega)
  | .pages nr gen d kids :: ks, c => by
    intro h
    have hnn := PageTree.leafCounts_nonneg ks
    have hnk := PageTree.leafCounts_nonneg kids
    have h1 : PageTree.trimKids sel kids c = [] := by
      apply PageTree.trimKids_none sel kids c
      intro i h1 h2
      exact h i h1 (by simp only [PageTree.leafCounts, PageTree.leafCount]; omega)
    have h2 : PageTree.trimKids sel ks (c + PageTree.leafCounts kids) = [] := by
      apply PageTree.trimKids_none sel ks _
      intro i h1 h2
      exact h i (by omega) (by simp only [PageTree.leafCounts, PageTree.leafCount]; omega)
    simp [PageTree.trimKids, h1, h2, PageTree.leafCounts]

/-- Trimming to the single ordinal `t` retains exactly the kid that holds the
ordinal, trimmed in turn, with one leaf. -/
theorem PageTree.trimKids_single (t : Int) :
    ∀ (ks : List PageTree) (c : Int), c < t → t ≤ c + PageTree.leafCounts ks →
      ∃ k cb, PageTree.selectKid t ks c = some (k, cb) ∧
        PageTree.trimKids (fun i => decide (i = t)) ks c =
          [k.trim (fun i => decide (i = t)) cb] ∧
        (k.trim (fun i => decide (i = t)) cb).leafCount = 1
  | [], c => by
    intro h1 h2
    simp [PageTree.leafCounts] at h2
    omega
  | .null :: ks, c => by
    intro h1 h2
    obtain ⟨k, cb, a1, a2, a3⟩ := PageTree.trimKids_single t ks c h1
      (by simpa [PageTree.leafCounts, PageTree.leafCount] using h2)
    exact ⟨k, cb, by simp [PageTree.selectKid, PageTree.leafCount, h1, a1],
      by simpa [PageTree.trimKids] using a2, a3⟩
  | .page nr gen d :: ks, c => by
    intro h1 h2
    simp only [PageTree.leafCounts, PageTree.leafCount] at h2
    by_cases hlt : c + 1 < t
    · obtain ⟨k, cb, a1, a2, a3⟩ := PageTree.trimKids_single t ks (c + 1) hlt (by omega)
      have hne : ¬ c + 1 = t := by omega
      exact ⟨k, cb, by simp [PageTree.selectKid, PageTree.leafCount, hlt, a1],
        by simpa [PageTree.trimKids, hne] using a2, a3⟩
    · have heq : c + 1 = t := by omega
      have hrest : PageTree.trimKids (fun i => decide (i = t)) ks t = [] := by
        apply PageTree.trimKids_none
        intro i i1 i2
        simp only [decide_eq_false_iff_not]
        omega
      exact ⟨.page nr gen d, c, by simp [PageTree.selectKid, PageTree.leafCount, hlt],
        by simp [PageTree.trimKids, heq, hrest, PageTree.trim],
        by simp [PageTree.trim, PageTree.leafCount]⟩
  | .pages nr gen d kids :: ks, c => by
    intro h1 h2
    simp only [PageTree.leafCounts, PageTree.leafCount] at h2
    have hnk := PageTree.leafCounts_nonneg kids
    by_cases hlt : c + PageTree.leafCounts kids < t
    · obtain ⟨k, cb, a1, a2, a3⟩ :=
        PageTree.trimKids_single t ks (c + PageTree.leafCounts kids) hlt (by omega)
      have hin : PageTree.trimKids (fun i => decide (i = t)) kids c = [] := by
        apply PageTree.trimKids_none
        intro i i1 i2
        simp only [decide_eq_false_iff_not]
        omega
      exact ⟨k, cb, by simp [PageTree.selectKid, PageTree.leafCount, hlt, a1],
        by simpa [PageTree.trimKids, hin, PageTree.leafCounts] using a2, a3⟩
    · obtain ⟨k, cb, a1, a2, a3⟩ := PageTree.trimKids_single t kids c h1 (by omega)
      have hrest : PageTree.trimKids (fun i => decide (i = t)) ks
          (c + PageTree.leafCounts kids) = [] := by
        apply PageTree.trimKids_none
        intro i i1 i2
        simp only [decide_eq_false_iff_not]
        omega
      have hcnt : PageTree.leafCounts (PageTree.trimKids (fun i => decide (i = t)) kids c) = 1 := by
        rw [a2]
        simpa [PageTree.leafCounts] using a3
      refine ⟨.pages nr gen d kids, c, by simp [PageTree.selectKid, PageTree.leafCount, hlt],
        ?_, ?_⟩
      · simp only [PageTree.trimKids, hcnt, hrest]
        simp
      · simp only [PageTree.trim, PageTree.leafCount, hcnt]

theorem Dict.set_comm (d : Dict) (a b : String) (va vb : Object) (hab : a ≠ b)
    (h : (Dict.Find d a).isSome = true ∨ (Dict.Find d b).isSome = true) :
    Dict.set (Dict.set d a va) b vb = Dict.set (Dict.set d b vb) a va := by
  induction d with
  | nil => simp [Dict.Find] at h
  | cons e rest ih =>
    obtain ⟨k, v⟩ := e
    by_cases hka : k = a
    · subst hka
      simp [Dict.set, hab]
    · by_cases hkb : k = b
      · subst hkb
        simp [Dict.set, hka, Ne.symm hab]
      · simp only [Dict.Find, hka, hkb, if_false] at h
        simp [Dict.set, hka, hkb, ih h]

/-- On a node that has a `Kids` entry, the record of the extraction pass is the
record that trimming to one leaf leaves in the table. -/
theorem singleKidRecord_eq_trimmedRecord (d : Dict) (kid : Object) (o : Object)
    (h : Dict.Find d "Kids" = some o) :
    singleKidRecord d kid = trimmedRecord d 1 [kid] := by
  unfold singleKidRecord trimmedRecord Dict.Update
  simp only [Object.isNil, Bool.false_eq_true, if_false]
  exact Dict.set_comm d "Kids" "Count" _ _ (by decide) (Or.inl (by simp [h]))


theorem SameOutput.of_self (a : Context) : SameOutput a a := ⟨rfl, rfl, rfl, rfl⟩

theorem SameOutput.hasWriteOffset {a b : Context} (h : SameOutput a b) (n : Nat) :
    b.HasWriteOffset n = a.HasWriteOffset n := by
  unfold Context.HasWriteOffset
  rw [h.1]

/-- The two results of a pair of runs with the same outcome. -/
theorem SameRun.split {r1 r2 : Context × Except Failure Unit} (h : SameRun r1 r2) :
    (∃ c1 c2 f, r1 = (c1, .error f) ∧ r2 = (c2, .error f) ∧ SameOutput c1 c2) ∨
    (∃ c1 c2, r1 = (c1, .ok ()) ∧ r2 = (c2, .ok ()) ∧ SameOutput c1 c2) := by
  obtain ⟨c1, o1⟩ := r1
  obtain ⟨c2, o2⟩ := r2
  obtain ⟨h1, h2⟩ := h
  simp only [] at h1 h2
  subst h1
  cases o2 with
  | error f => exact Or.inl ⟨c1, c2, f, rfl, rfl, h2⟩
  | ok u => exact Or.inr ⟨c1, c2, rfl, rfl, h2⟩

/-- The record writer reads neither the cross-reference table nor the target
ordinal. -/
theorem writeDictObject_sameRun (cfg : Config) (e1 e2 : Int) (a b : Context)
    (h : SameOutput a b) (nr gen : Nat) (d : Dict) :
    SameRun (writeDictObject { cfg with extractPageNr := e1 } a nr gen d)
      (writeDictObject { cfg with extractPageNr := e2 } b nr gen d) := by
  obtain ⟨h1, h2, h3, h4⟩ := h
  unfold writeDictObject
  simp only [h1, h2, h4]
  by_cases hf : cfg.recordFails a.offset nr = true
  · simp only [hf, if_true]
    exact ⟨rfl, h1, h2, h3, h4⟩
  · simp only [hf, if_false]
    exact ⟨rfl, rfl, rfl, h3, rfl⟩

theorem writePageEntry_sameRun (cfg : Config) (e1 e2 : Int) (a b : Context)
    (h : SameOutput a b) (d : Dict) (dn en : String) (attr : PageAttr) :
    SameRun (writePageEntry { cfg with extractPageNr := e1 } a d dn en attr)
      (writePageEntry { cfg with extractPageNr := e2 } b d dn en attr) := by
  obtain ⟨h1, h2, h3, h4⟩ := h
  unfold writePageEntry writeEntry SameRun SameOutput
  cases hf : Dict.Find d en with
  | none => simp [Object.isNil_null, h1, h2, h3, h4]
  | some o =>
    by_cases hn : o.isNil = true
    · simp [hn, Object.isNil_null, h1, h2, h3, h4]
    · by_cases he : cfg.entryFails a.offset dn en = true
      · simp [hn, he, h1, h2, h3, h4]
      · simp [hn, he, h1, h2, h3, h4]

theorem writePageEntries_sameRun (cfg : Config) (e1 e2 : Int) (d : Dict) (dn : String)
    (es : List (String × PageAttr)) (a b : Context) (h : SameOutput a b) :
    SameRun (writePageEntries { cfg with extractPageNr := e1 } d dn a es)
      (writePageEntries { cfg with extractPageNr := e2 } d dn b es) := by
  induction es generalizing a b with
  | nil => exact ⟨rfl, h⟩
  | cons e es ih =>
    obtain ⟨en, attr⟩ := e
    unfold writePageEntries
    rcases (writePageEntry_sameRun cfg e1 e2 a b h d dn en attr).split with
      ⟨c1, c2, f, q1, q2, q3⟩ | ⟨c1, c2, q1, q2, q3⟩
    · rw [q1, q2]
      exact ⟨rfl, q3⟩
    · rw [q1, q2]
      exact ih c1 c2 q3

theorem writePageDict_sameRun (cfg : Config) (e1 e2 : Int) (a b : Context)
    (h : SameOutput a b) (r : IndirectRef) (d : Dict) :
    SameRun (writePageDict { cfg with extractPageNr := e1 } a r d)
      (writePageDict { cfg with extractPageNr := e2 } b r d) := by
  have key : ∀ (a0 b0 : Context) (pd : Dict), SameOutput a0 b0 →
      SameRun
        (match writeDictObject { cfg with extractPageNr := e1 } a0 r.objectNumber
            r.generationNumber pd with
          | (ctx1, .error f) => (ctx1, Except.error f)
          | (ctx1, .ok ()) =>
            match Dict.IndirectRefEntry pd "Parent" with
            | none => (ctx1, .error (.err .writePageDictMissingParent))
            | some _ => writePageEntries { cfg with extractPageNr := e1 } pd "pageDict" ctx1
                pageDictEntries)
        (match writeDictObject { cfg with extractPageNr := e2 } b0 r.objectNumber
            r.generationNumber pd with
          | (ctx1, .error f) => (ctx1, Except.error f)
          | (ctx1, .ok ()) =>
            match Dict.IndirectRefEntry pd "Parent" with
            | none => (ctx1, .error (.err .writePageDictMissingParent))
            | some _ => writePageEntries { cfg with extractPageNr := e2 } pd "pageDict" ctx1
                pageDictEntries) := by
    intro a0 b0 pd h0
    rcases (writeDictObject_sameRun cfg e1 e2 a0 b0 h0 r.objectNumber r.generationNumber
      pd).split with ⟨c1, c2, f, q1, q2, q3⟩ | ⟨c1, c2, q1, q2, q3⟩
    · rw [q1, q2]
      exact ⟨rfl, q3⟩
    · rw [q1, q2]
      simp only []
      cases Dict.IndirectRefEntry pd "Parent" with
      | none => exact ⟨rfl, q3⟩
      | some _ => exact writePageEntries_sameRun cfg e1 e2 pd "pageDict" pageDictEntries c1 c2 q3
  unfold writePageDict
  simp only []
  apply key
  cases cfg.reducedFeatureSet
  · simpa using h
  · simp only [if_true]
    exact h


/-- The body of `writePagesDict` on an unwritten node with non-zero `Count` and
a `Kids` array, once `prepareSinglePageWrite` has succeeded or was skipped. -/
theorem writePagesDictBody_eq_tail (cfg : Config)
    (recur : Context → IndirectRef → Int → Context × Except Failure Unit)
    (ctx ctx1 : Context) (indRef : IndirectRef) (pc pc1 c : Int) (dict dict1 : Dict)
    (kidsOrig : List Object)
    (hun : ctx.HasWriteOffset indRef.objectNumber = false)
    (hd : XRefTable.DereferenceDict ctx.xRefTable indRef = some (some dict))
    (hc : Dict.Find dict "Count" = some (.integer c)) (hne : c ≠ 0)
    (hk : Dict.ArrayEntry dict "Kids" = some kidsOrig)
    (hprep : (if cfg.extractPageNr > 0 then
        prepareSinglePageWrite cfg ctx indRef.objectNumber dict kidsOrig pc
      else (ctx, dict, pc, .ok ())) = (ctx1, dict1, pc1, .ok ())) :
    writePagesDictBody cfg recur ctx indRef pc =
      writePagesDictTail cfg recur ctx1 indRef dict1 pc1 (fun d =>
        Dict.Update (Dict.Update d "Kids" (.array kidsOrig)) "Count" (.integer c)) := by
  unfold writePagesDictBody writePagesDictTail
  simp only [hun, hd, hc, hne, hk, hprep, Bool.false_eq_true, if_false]


theorem SameOutput.andThen {a b c : Context} (h1 : SameOutput a b) (h2 : SameOutput b c) :
    SameOutput a c :=
  ⟨h2.1.trans h1.1, h2.2.1.trans h1.2.1, h2.2.2.1.trans h1.2.2.1, h2.2.2.2.trans h1.2.2.2⟩

/-- The tails of two passes over the same output with the same node record: if
the loops over the kids agree, so do the tails. -/
theorem writePagesDictTail_sameRun (cfg : Config) (e1 e2 : Int)
    (r1 r2 : Context → IndirectRef → Int → Context × Except Failure Unit)
    (a b : Context) (h : SameOutput a b) (indRef : IndirectRef) (dict1 : Dict)
    (pc1 pc2 : Int) (restore1 restore2 : Dict → Dict)
    (hloop : ∀ (a3 b3 : Context) (kidsArray : List Object), SameOutput a3 b3 →
      Dict.ArrayEntry dict1 "Kids" = some kidsArray →
      a3.xRefTable = a.xRefTable → b3.xRefTable = b.xRefTable →
      a3.table = (indRef.objectNumber, a.offset) :: a.table →
      SameRun (writeKidsWith { cfg with extractPageNr := e1 } r1 a3 kidsArray pc1)
        (writeKidsWith { cfg with extractPageNr := e2 } r2 b3 kidsArray pc2)) :
    SameRun
      (writePagesDictTail { cfg with extractPageNr := e1 } r1 a indRef dict1 pc1 restore1)
      (writePagesDictTail { cfg with extractPageNr := e2 } r2 b indRef dict1 pc2 restore2) := by
  unfold writePagesDictTail
  rcases (writeDictObject_sameRun cfg e1 e2 a b h indRef.objectNumber indRef.generationNumber
    dict1).split with ⟨c1, c2, f, q1, q2, q3⟩ | ⟨c1, c2, q1, q2, q3⟩
  · rw [q1, q2]
    exact ⟨rfl, q3⟩
  · rw [q1, q2]
    simp only []
    obtain ⟨x1, t1, _⟩ := writeDictObject_ok _ _ _ _ _ _ q1
    obtain ⟨x2, _, _⟩ := writeDictObject_ok _ _ _ _ _ _ q2
    rcases (writePageEntries_sameRun cfg e1 e2 dict1 "pagesDict" pagesDictEntries c1 c2
      q3).split with ⟨c3, c4, f, p1, p2, p3⟩ | ⟨c3, c4, p1, p2, p3⟩
    · rw [p1, p2]
      exact ⟨rfl, p3⟩
    · rw [p1, p2]
      simp only []
      obtain ⟨x3, t3, _⟩ := writePageEntries_ok _ _ _ _ _ _ p1
      obtain ⟨x4, _, _⟩ := writePageEntries_ok _ _ _ _ _ _ p2
      cases hka : Dict.ArrayEntry dict1 "Kids" with
      | none => exact ⟨rfl, p3⟩
      | some kidsArray =>
        simp only []
        rcases (hloop c3 c4 kidsArray p3 hka (x3.trans x1) (x4.trans x2)
          (t3.trans t1)).split with ⟨c5, c6, f, l1, l2, l3⟩ | ⟨c5, c6, l1, l2, l3⟩
        · rw [l1, l2]
          exact ⟨rfl, l3⟩
        · rw [l1, l2]
          exact ⟨rfl, l3.1, l3.2.1, l3.2.2.1, l3.2.2.2⟩


/-- The loops of two passes over the same output on a single kid: a leaf with
the same dictionary in both tables, or an internal node on which the recursive
calls agree. -/
theorem writeKidsWith_single_sameRun (cfg : Config) (e1 e2 : Int)
    (r1 r2 : Context → IndirectRef → Int → Context × Except Failure Unit)
    (a3 b3 : Context) (hs : SameOutput a3 b3) (nr gen : Nat) (d1 d2 : Dict) (pc1 pc2 : Int)
    (hf1 : XRefTable.find a3.xRefTable nr = some (.object (.dict d1)))
    (hf2 : XRefTable.find b3.xRefTable nr = some (.object (.dict d2)))
    (hun : a3.HasWriteOffset nr = false)
    (hcase : (Dict.Type d1 = some "Page" ∧ d2 = d1) ∨
      (Dict.Type d1 = some "Pages" ∧ Dict.Type d2 = some "Pages" ∧
        SameRun (r1 a3 ⟨nr, gen⟩ pc1) (r2 b3 ⟨nr, gen⟩ pc2))) :
    SameRun (writeKidsWith { cfg with extractPageNr := e1 } r1 a3 [.indirectRef nr gen] pc1)
      (writeKidsWith { cfg with extractPageNr := e2 } r2 b3 [.indirectRef nr gen] pc2) := by
  have hun2 : b3.HasWriteOffset nr = false := by rw [hs.hasWriteOffset]; exact hun
  rw [writeKidsWith_cons, writeKidsWith_cons]
  rcases hcase with ⟨ht1, hd⟩ | ⟨ht1, ht2, hrun⟩
  · subst hd
    rw [pageNodeDict_of_find a3 nr gen d2 "Page" hf1 ht1 hun,
      pageNodeDict_of_find b3 nr gen d2 "Page" hf2 ht1 hun2]
    have hnp : ¬ (some "Page" = some "Pages") := by decide
    simp only [ht1, hnp, if_false, if_true]
    rcases (writePageDict_sameRun cfg e1 e2 a3 b3 hs ⟨nr, gen⟩ d2).split with
      ⟨c1, c2, f, q1, q2, q3⟩ | ⟨c1, c2, q1, q2, q3⟩
    · rw [q1, q2]
      exact ⟨rfl, q3⟩
    · rw [q1, q2]
      simp only [writeKidsWith]
      exact ⟨rfl, q3⟩
  · rw [pageNodeDict_of_find a3 nr gen d1 "Pages" hf1 ht1 hun,
      pageNodeDict_of_find b3 nr gen d2 "Pages" hf2 ht2 hun2]
    simp only [ht1, ht2, if_true]
    rcases hrun.split with ⟨c1, c2, f, q1, q2, q3⟩ | ⟨c1, c2, q1, q2, q3⟩
    · rw [q1, q2]
      exact ⟨rfl, q3⟩
    · rw [q1, q2]
      simp only [writeKidsWith]
      exact ⟨rfl, q3⟩


/-- One step of the comparison: on a tree node, the body of the extraction pass
for ordinal `t` over the original table and the body of the ordinary pass over
the table trimmed to ordinal `t` agree, if the recursive calls do. -/
theorem writePagesDictBody_extraction_sameRun (cfg : Config) (t : Int) (ht : 0 < t)
    (rE rO : Context → IndirectRef → Int → Context × Except Failure Unit)
    (hrec : ∀ nr gen d kids (a b : Context) (c cO : Int),
      (PageTree.pages nr gen d kids).InTable a.xRefTable →
      ((PageTree.pages nr gen d kids).trim (fun i => decide (i = t)) c).InTable b.xRefTable →
      (PageTree.pages nr gen d kids).CountsOK →
      (PageTree.pages nr gen d kids).objNrs.Nodup →
      (∀ n ∈ (PageTree.pages nr gen d kids).objNrs, a.HasWriteOffset n = false) →
      c < t → t ≤ c + PageTree.leafCounts kids → SameOutput a b →
      SameRun (rE a ⟨nr, gen⟩ c) (rO b ⟨nr, gen⟩ cO))
    (nr gen : Nat) (d : Dict) (kids : List PageTree) (a b : Context) (c cO : Int)
    (hin : (PageTree.pages nr gen d kids).InTable a.xRefTable)
    (hinT : ((PageTree.pages nr gen d kids).trim (fun i => decide (i = t)) c).InTable
      b.xRefTable)
    (hc : (PageTree.pages nr gen d kids).CountsOK)
    (hnd : (PageTree.pages nr gen d kids).objNrs.Nodup)
    (hun : ∀ n ∈ (PageTree.pages nr gen d kids).objNrs, a.HasWriteOffset n = false)
    (h1 : c < t) (h2 : t ≤ c + PageTree.leafCounts kids) (hs : SameOutput a b) :
    SameRun (writePagesDictBody { cfg with extractPageNr := t } rE a ⟨nr, gen⟩ c)
      (writePagesDictBody { cfg with extractPageNr := 0 } rO b ⟨nr, gen⟩ cO) := by
  simp only [PageTree.InTable] at hin
  obtain ⟨hfind, htype, hkidsE, hinL⟩ := hin
  simp only [PageTree.CountsOK] at hc
  obtain ⟨hcount, hcL⟩ := hc
  simp only [PageTree.objNrs, List.nodup_cons] at hnd
  obtain ⟨hnotin, hndL⟩ := hnd
  simp only [PageTree.objNrs, List.mem_cons, forall_eq_or_imp] at hun
  obtain ⟨hunr, hunL⟩ := hun
  -- the kid that holds ordinal t
  obtain ⟨k, cb, hsel, htrim, hleaf⟩ := PageTree.trimKids_single t kids c h1 h2
  obtain ⟨k', cb', hsel', hloc, hpage, hknn⟩ :=
    locateKidForPageNumber_tree { cfg with extractPageNr := t } a t kids c hinL hcL h1 h2
  obtain ⟨pcE, hloc2, hpcE⟩ : ∃ pcE,
      locateKidForPageNumber { cfg with extractPageNr := t } a (kids.map PageTree.ref) c t =
        (pcE, .ok k'.ref) ∧
      ∀ knr kgen dk kk, k' = .pages knr kgen dk kk → pcE = cb' :=
    ⟨_, hloc, fun _ _ _ _ e => by subst e; rfl⟩
  clear hloc
  have hkk : k' = k ∧ cb' = cb := by
    have := hsel'.symm.trans hsel
    simpa using this
  obtain ⟨e1, e2⟩ := hkk
  subst e1 e2
  obtain ⟨k'', cb'', hsel'', hmem, hb1, hb2⟩ := PageTree.selectKid_spec t kids c h1 h2
  have hkk : k'' = k' ∧ cb'' = cb' := by
    have := hsel''.symm.trans hsel
    simpa using this
  obtain ⟨e1, e2⟩ := hkk
  subst e1 e2
  -- the trimmed node
  simp only [PageTree.trim, PageTree.InTable, htrim, List.map_cons, List.map_nil,
    PageTree.ref_trim] at hinT
  obtain ⟨hfindT, htypeT, hkidsT, hinLT⟩ := hinT
  have hone : PageTree.leafCounts [k''.trim (fun i => decide (i = t)) cb''] = 1 := by
    simpa [PageTree.leafCounts] using hleaf
  rw [hone] at hfindT htypeT hkidsT
  have hrec1 : singleKidRecord d k''.ref = trimmedRecord d 1 [k''.ref] :=
    singleKidRecord_eq_trimmedRecord d _ _ hkidsE
  -- the extraction pass
  have hbodyE := writePagesDictBody_eq_tail { cfg with extractPageNr := t } rE a
    { a with xRefTable := a.xRefTable.updateDict nr (fun d =>
        Dict.Update (Dict.Update d "Kids" (.array [k''.ref])) "Count" (.integer 1)) }
    ⟨nr, gen⟩ c pcE
    (PageTree.leafCounts kids) d (trimmedRecord d 1 [k''.ref]) (kids.map PageTree.ref)
    hunr (XRefTable.DereferenceDict_of_find gen hfind) hcount (by omega)
    ((Dict.ArrayEntry_eq_some _ _ _).2 hkidsE)
    (by
      simp only [gt_iff_lt, ht, if_true]
      unfold prepareSinglePageWrite
      simp only [hloc2]
      rw [← hrec1]
      rfl)
  -- the ordinary pass over the trimmed table
  have hbodyO := writePagesDictBody_eq_tail { cfg with extractPageNr := 0 } rO b b
    ⟨nr, gen⟩ cO cO 1 (trimmedRecord d 1 [k''.ref]) (trimmedRecord d 1 [k''.ref]) [k''.ref]
    (by rw [hs.hasWriteOffset]; exact hunr)
    (XRefTable.DereferenceDict_of_find gen hfindT)
    (by rw [Dict.Find_trimmedRecord]; simp) (by decide)
    ((Dict.ArrayEntry_eq_some _ _ _).2 hkidsT)
    (by simp)
  rw [hbodyE, hbodyO]
  refine writePagesDictTail_sameRun cfg t 0 rE rO _ b ?_ _ _ _ _ _ _ ?_
  · exact ⟨hs.1, hs.2.1, hs.2.2.1, hs.2.2.2⟩
  intro a3 b3 kidsArray hs3 hka hx3 hxb ht3
  have hkarr : kidsArray = [k''.ref] := by
    have := ((Dict.ArrayEntry_eq_some _ _ _).1 hka).symm.trans hkidsT
    simpa using this
  subst hkarr
  simp only [] at hx3 ht3
  have hsub := PageTree.objNrs_subset_of_mem hmem
  have hfa3 : ∀ n ∈ k''.objNrs, XRefTable.find a3.xRefTable n = XRefTable.find a.xRefTable n := by
    intro n hn
    rw [hx3, XRefTable.find_updateDict]
    have : n ≠ nr := fun e => hnotin (e ▸ hsub n hn)
    simp [this]
  have hua3 : ∀ n ∈ k''.objNrs, a3.HasWriteOffset n = false := by
    intro n hn
    have hne : n ≠ nr := fun e => hnotin (e ▸ hsub n hn)
    exact Context.HasWriteOffset_cons a a3 nr _ n ht3 hne (hunL n (hsub n hn))
  have hkin := PageTree.InTable_of_mem hmem hinL
  simp only [PageTree.InTableList] at hinLT
  have hkT := hinLT.1
  cases k'' with
  | null => exact absurd rfl hknn
  | page knr kgen dk =>
    simp only [PageTree.InTable] at hkin
    simp only [PageTree.trim, PageTree.InTable] at hkT
    simp only [PageTree.ref]
    apply writeKidsWith_single_sameRun cfg t 0 rE rO a3 b3 hs3 knr kgen dk dk
    · rw [hfa3 knr (by simp [PageTree.objNrs])]; exact hkin.1
    · rw [hxb]; exact hkT.1
    · exact hua3 knr (by simp [PageTree.objNrs])
    · exact Or.inl ⟨hkin.2, rfl⟩
  | pages knr kgen dk kk =>
    have hkin3 : (PageTree.pages knr kgen dk kk).InTable a3.xRefTable :=
      PageTree.InTable_congr a.xRefTable a3.xRefTable _ hfa3 hkin
    have hkT3 : ((PageTree.pages knr kgen dk kk).trim (fun i => decide (i = t)) cb'').InTable
        b3.xRefTable := by rw [hxb]; exact hkT
    have hrun := hrec knr kgen dk kk a3 b3 cb'' cO hkin3 hkT3
      (PageTree.CountsOK_of_mem hmem hcL) (PageTree.nodup_of_mem hmem hndL) hua3 hb1
      (by simpa [PageTree.leafCount] using hb2) hs3
    simp only [PageTree.InTable] at hkin3
    simp only [PageTree.trim, PageTree.InTable] at hkT3
    simp only [PageTree.ref]
    have hpc := hpcE knr kgen dk kk rfl
    rw [hpc]
    exact writeKidsWith_single_sameRun cfg t 0 rE rO a3 b3 hs3 knr kgen dk _ cb'' cO
      hkin3.1 hkT3.1 (hua3 knr (by simp [PageTree.objNrs]))
      (Or.inr ⟨hkin3.2.1, hkT3.2.1, hrun⟩)


/-- The extraction pass for ordinal `t` over a tree and the ordinary pass over
the tree trimmed to ordinal `t`, started on the same output, agree for every
nesting bound. -/
theorem writePagesDict_extraction_sameRun (cfg : Config) (t : Int) (ht : 0 < t) (fuel : Nat) :
    ∀ nr gen d kids (a b : Context) (c cO : Int),
      (PageTree.pages nr gen d kids).InTable a.xRefTable →
      ((PageTree.pages nr gen d kids).trim (fun i => decide (i = t)) c).InTable b.xRefTable →
      (PageTree.pages nr gen d kids).CountsOK →
      (PageTree.pages nr gen d kids).objNrs.Nodup →
      (∀ n ∈ (PageTree.pages nr gen d kids).objNrs, a.HasWriteOffset n = false) →
      c < t → t ≤ c + PageTree.leafCounts kids → SameOutput a b →
      SameRun (writePagesDict { cfg with extractPageNr := t } fuel a ⟨nr, gen⟩ c)
        (writePagesDict { cfg with extractPageNr := 0 } fuel b ⟨nr, gen⟩ cO) := by
  induction fuel with
  | zero =>
    intro nr gen d kids a b c cO hin hinT hc hnd hun h1 h2 hs
    exact writePagesDictBody_extraction_sameRun cfg t ht _ _
      (fun _ _ _ _ _ _ _ _ _ _ _ _ _ _ _ hs => ⟨rfl, hs⟩) nr gen d kids a b c cO
      hin hinT hc hnd hun h1 h2 hs
  | succ n ih =>
    intro nr gen d kids a b c cO hin hinT hc hnd hun h1 h2 hs
    exact writePagesDictBody_extraction_sameRun cfg t ht _ _ ih nr gen d kids a b c cO
      hin hinT hc hnd hun h1 h2 hs

/-- The loop of `trimPagesDict` writes nothing. -/
theorem trimKidsWith_sameOutput (cfg : Config)
    (recur : Context → IndirectRef → Int → Context × Int × Except Failure Int)
    (hrec : ∀ ctx r pc, SameOutput ctx (recur ctx r pc).1)
    (kids : List Object) :
    ∀ (ctx : Context) (pc count : Int) (arr : List Object),
      SameOutput ctx (trimKidsWith cfg recur ctx kids pc count arr).1 := by
  induction kids with
  | nil =>
    intro ctx pc count arr
    exact SameOutput.of_self ctx
  | cons obj rest ih =>
    intro ctx pc count arr
    unfold trimKidsWith
    split
    · next ctx1 f heq =>
      have := pageNodeDict_fst ctx obj; rw [heq] at this
      simp at this; subst this; exact SameOutput.of_self _
    · next ctx1 heq =>
      have := pageNodeDict_fst ctx obj; rw [heq] at this
      simp at this; subst this; exact ih _ _ _ _
    · next ctx1 d indRef heq =>
      have := pageNodeDict_fst ctx obj; rw [heq] at this
      simp at this; subst this
      split
      · have hr := hrec ctx1 indRef pc
        split
        · next ctx2 pc2 f heq2 => rw [heq2] at hr; exact hr
        · next ctx2 pc2 tc heq2 =>
          rw [heq2] at hr
          split
          · exact hr.andThen (ih _ _ _ _)
          · exact hr.andThen (ih _ _ _ _)
      · split
        · split
          · exact ih _ _ _ _
          · exact ih _ _ _ _
        · exact SameOutput.of_self _

theorem trimPagesDictBody_sameOutput (cfg : Config)
    (recur : Context → IndirectRef → Int → Context × Int × Except Failure Int)
    (hrec : ∀ ctx r pc, SameOutput ctx (recur ctx r pc).1)
    (ctx : Context) (indRef : IndirectRef) (pc : Int) :
    SameOutput ctx (trimPagesDictBody cfg recur ctx indRef pc).1 := by
  unfold trimPagesDictBody
  simp only []
  split
  · exact SameOutput.of_self _
  · exact SameOutput.of_self _
  · split
    · exact SameOutput.of_self _
    · split
      · exact SameOutput.of_self _
      · next kidsArray hk =>
        have hl := trimKidsWith_sameOutput cfg recur hrec kidsArray ctx pc 0 []
        split
        · next ctx1 pc1 f heq => rw [heq] at hl; exact hl
        · next ctx1 pc1 count arr heq =>
          rw [heq] at hl
          exact ⟨hl.1, hl.2.1, hl.2.2.1, hl.2.2.2⟩
    · exact SameOutput.of_self _
  · exact SameOutput.of_self _

/-- The trim transform writes nothing: the written-set, the output offset, the
statistics and the write log are those of the start, however it ends. -/
theorem trimPagesDict_sameOutput (cfg : Config) (fuel : Nat) :
    ∀ (ctx : Context) (indRef : IndirectRef) (pc : Int),
      SameOutput ctx (trimPagesDict cfg fuel ctx indRef pc).1 := by
  induction fuel with
  | zero =>
    intro ctx indRef pc
    exact trimPagesDictBody_sameOutput cfg _ (fun c _ _ => SameOutput.of_self c) ctx indRef pc
  | succ n ih =>
    intro ctx indRef pc
    exact trimPagesDictBody_sameOutput cfg _ ih ctx indRef pc


--THMS
/-- C20: for a tree-shaped page tree held by the table, with correct counts and
`N` leaves, every `1 ≤ t ≤ N` and every output profile and writer behaviour: the
trim transform with the predicate that selects ordinal `t` only, run on the root
from counter 0 with a nesting bound that covers the levels of the tree,
succeeds. The extraction pass (`ExtractPageNr = t`) over the original table and
the ordinary pass (`ExtractPageNr = 0`) over the trimmed table, both started on
the root with an empty written-set and the same nesting bound, append the same
sequence of records and attributes to the write log, return the same result
(success or the same error) and end with the same written-set, output offset and
statistics; neither reaches the nesting bound if it is at least the number of
object numbers of the store less one. -/
theorem writePagesDict_extraction_eq_trimmed (cfg : Config) (t : Int) (fuel fuelT : Nat)
    (nr gen : Nat) (d : Dict) (kids : List PageTree) (ctx : Context)
    (hin : (PageTree.pages nr gen d kids).InTable ctx.xRefTable)
    (hc : (PageTree.pages nr gen d kids).CountsOK)
    (hnd : (PageTree.pages nr gen d kids).objNrs.Nodup)
    (hw : ctx.table = [])
    (h1 : 1 ≤ t) (h2 : t ≤ (PageTree.pages nr gen d kids).leafCount)
    (hfuelT : (PageTree.pages nr gen d kids).levels ≤ fuelT + 1) :
    ∃ ctxT cT cnt,
      trimPagesDict { cfg with extractPage := fun i => decide (i = t) } fuelT ctx ⟨nr, gen⟩ 0 =
        (ctxT, cT, .ok cnt) ∧
      (∃ new,
        (writePagesDict { cfg with extractPageNr := t } fuel ctx ⟨nr, gen⟩ 0).1.out =
          ctx.out ++ new ∧
        (writePagesDict { cfg with extractPageNr := 0 } fuel ctxT ⟨nr, gen⟩ 0).1.out =
          ctxT.out ++ new) ∧
      (writePagesDict { cfg with extractPageNr := 0 } fuel ctxT ⟨nr, gen⟩ 0).2 =
        (writePagesDict { cfg with extractPageNr := t } fuel ctx ⟨nr, gen⟩ 0).2 ∧
      SameOutput (writePagesDict { cfg with extractPageNr := t } fuel ctx ⟨nr, gen⟩ 0).1
        (writePagesDict { cfg with extractPageNr := 0 } fuel ctxT ⟨nr, gen⟩ 0).1 ∧
      (ctx.unwrittenCount ≤ fuel + 1 →
        (writePagesDict { cfg with extractPageNr := t } fuel ctx ⟨nr, gen⟩ 0).2 ≠
          .error .recursionLimit ∧
        (writePagesDict { cfg with extractPageNr := 0 } fuel ctxT ⟨nr, gen⟩ 0).2 ≠
          .error .recursionLimit) := by
  have hun : ∀ n ∈ (PageTree.pages nr gen d kids).objNrs, ctx.HasWriteOffset n = false :=
    fun n _ => Context.HasWriteOffset_of_table_nil ctx hw n
  obtain ⟨ctxT, cT, cnt, htrim⟩ := trimPagesDict_total
    { cfg with extractPage := fun i => decide (i = t) } fuelT nr gen d kids ctx 0 hin hnd hun
    (PageTree.HasCount_of_countsOK _ hc) hfuelT
  obtain ⟨a1, _, _, _, _⟩ := trimPagesDict_tree
    { cfg with extractPage := fun i => decide (i = t) } fuelT nr gen d kids ctx ctxT 0 cT cnt
    hin hnd hun htrim
  simp only [PageTree.TrimmedInTable] at a1
  have hsame : SameOutput ctx ctxT := by
    have := trimPagesDict_sameOutput { cfg with extractPage := fun i => decide (i = t) } fuelT
      ctx ⟨nr, gen⟩ 0
    rw [htrim] at this
    exact this
  have hrun := writePagesDict_extraction_sameRun cfg t (by omega) fuel nr gen d kids ctx ctxT 0 0
    hin a1.1 hc hnd hun (by omega) (by simpa [PageTree.leafCount] using h2) hsame
  obtain ⟨new, ho, _⟩ :=
    writePagesDict_writesOnce_all { cfg with extractPageNr := t } fuel ctx ⟨nr, gen⟩ 0
  refine ⟨ctxT, cT, cnt, htrim, ⟨new, ho, ?_⟩, hrun.1, hrun.2, ?_⟩
  · rw [hrun.2.2.2.2, ho, hsame.2.2.2]
  · intro hm
    have hE := (writePagesDict_progress { cfg with extractPageNr := t } fuel ctx ⟨nr, gen⟩ 0).2 hm
    exact ⟨hE, by rw [hrun.1]; exact hE⟩

theorem threeLevelDoc_trim_first :
    (trimPagesDict { exampleConfig 0 (fun _ => false) true with
        extractPage := fun i => decide (i = 1) } 2 (startContext threeLevelDoc) ⟨1, 0⟩ 0).2 =
      (2, .ok 1) := rfl

theorem threeLevelDoc_extract_first :
    (writePagesDict { exampleConfig 0 (fun _ => false) true with extractPageNr := 1 } 4
      (startContext threeLevelDoc) ⟨1, 0⟩ 0).2 = .ok () := rfl

theorem threeLevelDoc_extract_first_records :
    recordNumbers (writePagesDict { exampleConfig 0 (fun _ => false) true with
      extractPageNr := 1 } 4 (startContext threeLevelDoc) ⟨1, 0⟩ 0).1.out = [1, 2, 3, 4] := by
  decide

/-- C20 at the three-level document for ordinal 1 under the reduced feature set:
the trim transform succeeds with nesting bound 2, and both passes succeed with
nesting bound 4 and write the root, the nodes 2 and 3 and leaf 4, each internal
node with a single kid and `Count = 1`. -/
theorem writePagesDict_extraction_eq_trimmed_witness :
    (trimPagesDict { exampleConfig 0 (fun _ => false) true with
        extractPage := fun i => decide (i = 1) } 2 (startContext threeLevelDoc) ⟨1, 0⟩ 0).2 =
      (2, .ok 1) ∧
    (writePagesDict { exampleConfig 0 (fun _ => false) true with extractPageNr := 1 } 4
      (startContext threeLevelDoc) ⟨1, 0⟩ 0).2 = .ok () ∧
    recordNumbers (writePagesDict { exampleConfig 0 (fun _ => false) true with
      extractPageNr := 1 } 4 (startContext threeLevelDoc) ⟨1, 0⟩ 0).1.out = [1, 2, 3, 4] ∧
    (∃ ctxT cT cnt,
      trimPagesDict { exampleConfig 0 (fun _ => false) true with
        extractPage := fun i => decide (i = 1) } 2 (startContext threeLevelDoc) ⟨1, 0⟩ 0 =
        (ctxT, cT, .ok cnt) ∧
      (∃ new,
        (writePagesDict { exampleConfig 0 (fun _ => false) true with extractPageNr := 1 } 4
          (startContext threeLevelDoc) ⟨1, 0⟩ 0).1.out =
          (startContext threeLevelDoc).out ++ new ∧
        (writePagesDict { exampleConfig 0 (fun _ => false) true with extractPageNr := 0 } 4
          ctxT ⟨1, 0⟩ 0).1.out = ctxT.out ++ new) ∧
      (writePagesDict { exampleConfig 0 (fun _ => false) true with extractPageNr := 0 } 4
          ctxT ⟨1, 0⟩ 0).2 =
        (writePagesDict { exampleConfig 0 (fun _ => false) true with extractPageNr := 1 } 4
          (startContext threeLevelDoc) ⟨1, 0⟩ 0).2 ∧
      SameOutput
        (writePagesDict { exampleConfig 0 (fun _ => false) true with extractPageNr := 1 } 4
          (startContext threeLevelDoc) ⟨1, 0⟩ 0).1
        (writePagesDict { exampleConfig 0 (fun _ => false) true with extractPageNr := 0 } 4
          ctxT ⟨1, 0⟩ 0).1 ∧
      ((startContext threeLevelDoc).unwrittenCount ≤ 4 + 1 →
        (writePagesDict { exampleConfig 0 (fun _ => false) true with extractPageNr := 1 } 4
          (startContext threeLevelDoc) ⟨1, 0⟩ 0).2 ≠ .error .recursionLimit ∧
        (writePagesDict { exampleConfig 0 (fun _ => false) true with extractPageNr := 0 } 4
          ctxT ⟨1, 0⟩ 0).2 ≠ .error .recursionLimit)) :=
  ⟨threeLevelDoc_trim_first, threeLevelDoc_extract_first, threeLevelDoc_extract_first_records,
    by
      dsimp only
      exact writePagesDict_extraction_eq_trimmed (exampleConfig 0 (fun _ => false) true) 1 4 2
        1 0 _ _ (startContext threeLevelDoc) threeLevelTree_inTable threeLevelTree_countsOK
        threeLevelTree_nodup rfl (by decide) (by decide) (by decide)⟩

end Pdfcpu
